import Mathlib

/-!
Verification development for the ExclusionParser repository: a shallow
embedding of the line-oriented exclusion-list parser, the hierarchical
data model, the writer and the data-manager query layer, together with
theorems settling the specification claims.

Strings are modelled as lists of characters (`Str`); `std::string`
operations (`find`, `substr`, trimming, quoted extraction, stream
tokenisation) are translated one-for-one from the C++ sources.
`std::unordered_map` containers are modelled as insertion-ordered
association lists with map semantics (first occurrence wins on lookup,
in-place replacement on assignment); iteration order of the C++
container is unspecified, the association-list order is one admissible
order.  `std::string::npos` is modelled by the value of `SIZE_MAX`.
-/

namespace ExclusionParser

/-- Character-list model of `std::string`. -/
abbrev Str := List Char

/-- Model of `std::string::npos` (`SIZE_MAX` on a 64-bit platform). -/
def NPOS : Nat := 18446744073709551615

/-- The whitespace set used by `ExclusionParser::trim` (" \t\r\n"). -/
def isWsChar (c : Char) : Bool :=
  c = ' ' || c = '\t' || c = '\r' || c = '\n'

/-- `ExclusionParser::trim`: drop the longest whitespace run from both ends
(`find_first_not_of` / `find_last_not_of` over " \t\r\n"). -/
def trim (s : Str) : Str :=
  ((s.dropWhile isWsChar).reverse.dropWhile isWsChar).reverse

/-- Index of the first occurrence of character `c` in `l`, if any. -/
def findCharIdx? (c : Char) : Str → Option Nat
  | [] => none
  | x :: xs => if x = c then some 0 else (findCharIdx? c xs).map (· + 1)

/-- `std::string::find(c, start)`: absolute index of the first occurrence of
`c` at position `start` or later, `NPOS` when there is none. -/
def findCharFrom (l : Str) (c : Char) (start : Nat) : Nat :=
  match findCharIdx? c (l.drop start) with
  | some i => start + i
  | none => NPOS

/-- Index of the first position where `pat` occurs as a contiguous substring. -/
def findSubIdx? (pat : Str) : Str → Option Nat
  | [] => if pat.isEmpty then some 0 else none
  | x :: xs =>
    if pat.isPrefixOf (x :: xs) then some 0
    else (findSubIdx? pat xs).map (· + 1)

/-- `std::string::find(pat, start)` for a substring pattern. -/
def findStrFrom (l pat : Str) (start : Nat) : Nat :=
  match findSubIdx? pat (l.drop start) with
  | some i => start + i
  | none => NPOS

/-- `line.find(pat) != std::string::npos`: substring containment test. -/
def containsStr (l pat : Str) : Bool :=
  (findSubIdx? pat l).isSome

/-- `line.find(pat) == 0`: prefix test. -/
def startsWithStr (l pat : Str) : Bool :=
  pat.isPrefixOf l

/-- `s.substr(i)` (total model: out-of-range start yields the empty string). -/
def substrFrom (l : Str) (i : Nat) : Str := l.drop i

/-- `s.substr(i, n)` (total model). -/
def substrLen (l : Str) (i n : Nat) : Str := (l.drop i).take n

/-- `s.front()`.  Calling `front` on an empty `std::string` is undefined
behaviour in C++; the mainstream implementations return the NUL terminator,
which is the behaviour modelled here. -/
def strFront (s : Str) : Char := s.headD (Char.ofNat 0)

/-- `s.back()`, with the same NUL convention for the empty string. -/
def strBack (s : Str) : Char := s.getLastD (Char.ofNat 0)

/-- `ExclusionParser::extractQuotedString`: scan from `startPos` for a double
quote, then for the matching close quote; return the enclosed text and the
offset just past the closing quote, or empty text plus the line length when
no matching pair exists. -/
def extractQuotedString (line : Str) (startPos : Nat) : Str × Nat :=
  let quoteStart := findCharFrom line '"' startPos
  if quoteStart = NPOS then ([], line.length)
  else
    let quoteEnd := findCharFrom line '"' (quoteStart + 1)
    if quoteEnd = NPOS then ([], line.length)
    else (substrLen line (quoteStart + 1) (quoteEnd - quoteStart - 1), quoteEnd + 1)

/-- One `iss >> tok` extraction from an `std::istringstream`: skip leading
whitespace, read the maximal run of non-whitespace characters, and return the
token together with the rest of the stream. -/
def readTok (s : Str) : Str × Str :=
  let s1 := s.dropWhile isWsChar
  (s1.takeWhile (fun c => !(isWsChar c)), s1.dropWhile (fun c => !(isWsChar c)))

/-- The whitespace set of `std::isspace` in the default locale. -/
def isSpaceCpp (c : Char) : Bool :=
  c = ' ' || c = '\t' || c = '\n' || c = Char.ofNat 11 || c = Char.ofNat 12 || c = '\r'

/-- `std::stoi` wrapped in the parser's try/catch: skip leading whitespace,
read an optional sign and a nonempty digit run; `none` models the thrown
`std::invalid_argument` that the caller swallows. -/
def stoiOpt (s : Str) : Option Int :=
  let s1 := s.dropWhile isSpaceCpp
  let signAndRest : Int × Str :=
    match s1 with
    | '-' :: r => (-1, r)
    | '+' :: r => (1, r)
    | _ => (1, s1)
  let ds := signAndRest.2.takeWhile Char.isDigit
  if ds.isEmpty then none
  else some (signAndRest.1 * ds.foldl (fun a c => a * 10 + Int.ofNat (c.toNat - 48)) 0)

/-- Split a character stream at every newline (the separators themselves are
not kept; a final empty piece is produced for a trailing newline). -/
def splitOnNl : Str → List Str
  | [] => [[]]
  | c :: r =>
    if c = '\n' then [] :: splitOnNl r
    else
      match splitOnNl r with
      | h :: t => (c :: h) :: t
      | [] => [[c]]

/-- The line sequence delivered by repeated `std::getline` calls on a stream
holding `s`: newline-separated pieces, with no spurious empty line after a
trailing newline and no line at all for an empty stream. -/
def getlineSplit (s : Str) : List Str :=
  if s.isEmpty then []
  else if s.getLast? = some '\n' then (splitOnNl s).dropLast
  else splitOnNl s

/-! ## Data model (`ExclusionTypes.h`) -/

/-- `enum class ToggleDirection`. -/
inductive ToggleDirection
  | ZERO_TO_ONE
  | ONE_TO_ZERO
  | BOTH
deriving DecidableEq, Repr

/-- `enum class ExclusionType`. -/
inductive ExclusionType
  | BLOCK
  | TOGGLE
  | FSM
  | CONDITION
deriving DecidableEq, Repr

/-- `struct BlockExclusion` (the `annot` field models the C++ field holding
the optional human-readable rationale text). -/
structure BlockExclusion where
  blockId : Str
  checksum : Str
  sourceCode : Str
  annot : Str
deriving DecidableEq, Repr

/-- `struct ToggleExclusion`. -/
structure ToggleExclusion where
  direction : ToggleDirection
  signalName : Str
  bitIndex : Option Int
  netDescription : Str
  annot : Str
deriving DecidableEq, Repr

/-- `struct FsmExclusion`: one record type covering both the state variant
(`isTransition = false`, `fromState`/`toState`/`transitionId` left empty) and
the transition variant (`isTransition = true`, `checksum` left empty). -/
structure FsmExclusion where
  fsmName : Str
  checksum : Str
  fromState : Str
  toState : Str
  transitionId : Str
  annot : Str
  isTransition : Bool
deriving DecidableEq, Repr

/-- The state-exclusion constructor `FsmExclusion(name, cs, annot)`. -/
def FsmExclusion.state (name cs annot : Str) : FsmExclusion :=
  ⟨name, cs, [], [], [], annot, false⟩

/-- The transition constructor `FsmExclusion(name, from, to, transId, annot)`. -/
def FsmExclusion.transition (name fromS toS transId annot : Str) : FsmExclusion :=
  ⟨name, [], fromS, toS, transId, annot, true⟩

/-- `struct ConditionExclusion`. -/
structure ConditionExclusion where
  conditionId : Str
  checksum : Str
  expression : Str
  parameters : Str
  coverage : Str
  annot : Str
deriving DecidableEq, Repr

/-! ### Association lists with `std::unordered_map` semantics -/

/-- `m.find(k)` on an `unordered_map` modelled as an association list. -/
def alistGet? {α : Type} (m : List (Str × α)) (k : Str) : Option α :=
  match m with
  | [] => none
  | (k1, v) :: r => if k1 = k then some v else alistGet? r k

/-- `m[k] = v`: replace the value at `k` in place, or append a fresh entry. -/
def alistSet {α : Type} (m : List (Str × α)) (k : Str) (v : α) : List (Str × α) :=
  match m with
  | [] => [(k, v)]
  | (k1, v1) :: r => if k1 = k then (k, v) :: r else (k1, v1) :: alistSet r k v

/-- `m[k].push_back(v)` on a map of vectors (a missing key is value-initialised
to the empty vector first, as `operator[]` does). -/
def alistPush {α : Type} (m : List (Str × List α)) (k : Str) (v : α) :
    List (Str × List α) :=
  match m with
  | [] => [(k, [v])]
  | (k1, l) :: r => if k1 = k then (k, l ++ [v]) :: r else (k1, l) :: alistPush r k v

/-- `struct ExclusionScope`: one MODULE or INSTANCE node with its four
exclusion containers. -/
structure ExclusionScope where
  scopeName : Str
  checksum : Str
  isModule : Bool
  blockExclusions : List (Str × BlockExclusion)
  toggleExclusions : List (Str × List ToggleExclusion)
  fsmExclusions : List (Str × List FsmExclusion)
  conditionExclusions : List (Str × ConditionExclusion)
deriving DecidableEq, Repr

/-- `ExclusionScope` constructor `ExclusionScope(name, cs, module)`. -/
def ExclusionScope.mkNew (name cs : Str) (module : Bool) : ExclusionScope :=
  ⟨name, cs, module, [], [], [], []⟩

/-- `ExclusionScope::addBlockExclusion`: `blockExclusions[b.blockId] = b`. -/
def ExclusionScope.addBlockExclusion (s : ExclusionScope) (b : BlockExclusion) :
    ExclusionScope :=
  { s with blockExclusions := alistSet s.blockExclusions b.blockId b }

/-- `ExclusionScope::addToggleExclusion`:
`toggleExclusions[t.signalName].push_back(t)`. -/
def ExclusionScope.addToggleExclusion (s : ExclusionScope) (t : ToggleExclusion) :
    ExclusionScope :=
  { s with toggleExclusions := alistPush s.toggleExclusions t.signalName t }

/-- `ExclusionScope::addFsmExclusion`: `fsmExclusions[f.fsmName].push_back(f)`. -/
def ExclusionScope.addFsmExclusion (s : ExclusionScope) (f : FsmExclusion) :
    ExclusionScope :=
  { s with fsmExclusions := alistPush s.fsmExclusions f.fsmName f }

/-- `ExclusionScope::addConditionExclusion`:
`conditionExclusions[c.conditionId] = c`. -/
def ExclusionScope.addConditionExclusion (s : ExclusionScope) (c : ConditionExclusion) :
    ExclusionScope :=
  { s with conditionExclusions := alistSet s.conditionExclusions c.conditionId c }

/-- Sum of the vector lengths on the right-hand sides of a map of vectors. -/
def sumLens {α : Type} (m : List (Str × List α)) : Nat :=
  (m.map (fun p => p.2.length)).sum

/-- `ExclusionScope::getTotalExclusionCount`. -/
def ExclusionScope.getTotalExclusionCount (s : ExclusionScope) : Nat :=
  s.blockExclusions.length + s.conditionExclusions.length +
    sumLens s.toggleExclusions + sumLens s.fsmExclusions

/-- `struct ExclusionData`: the top-level database. -/
structure ExclusionData where
  fileName : Str
  generatedBy : Str
  formatVersion : Str
  generationDate : Str
  exclusionMode : Str
  scopes : List (Str × ExclusionScope)
deriving DecidableEq, Repr

/-- An empty database (`ExclusionData()` / `ExclusionData(filename)` with an
empty name). -/
def ExclusionData.empty : ExclusionData := ⟨[], [], [], [], [], []⟩

/-- `ExclusionData::getOrCreateScope`: create the scope from the given
checksum and kind when the name is absent, otherwise hand back the existing
entry untouched.  Returns the updated database together with the scope the
C++ reference points at. -/
def ExclusionData.getOrCreateScope (d : ExclusionData) (name cs : Str)
    (isModule : Bool) : ExclusionData × ExclusionScope :=
  match alistGet? d.scopes name with
  | some s => (d, s)
  | none =>
    let s := ExclusionScope.mkNew name cs isModule
    ({ d with scopes := alistSet d.scopes name s }, s)

/-- Mutation through the reference returned by `getOrCreateScope`: fetch or
create the scope, apply the in-place update `f`, and store the result back
under the same key. -/
def ExclusionData.modifyScope (d : ExclusionData) (name cs : Str)
    (isModule : Bool) (f : ExclusionScope → ExclusionScope) : ExclusionData :=
  let (d1, s) := d.getOrCreateScope name cs isModule
  { d1 with scopes := alistSet d1.scopes name (f s) }

/-- `ExclusionData::getScopeCount`. -/
def ExclusionData.getScopeCount (d : ExclusionData) : Nat := d.scopes.length

/-- `ExclusionData::getTotalExclusionCount`. -/
def ExclusionData.getTotalExclusionCount (d : ExclusionData) : Nat :=
  (d.scopes.map (fun p => p.2.getTotalExclusionCount)).sum

/-- The value map produced by `ExclusionData::getExclusionCountsByType`,
with one field per `ExclusionType` key. -/
structure KindCounts where
  blocks : Nat
  toggles : Nat
  fsms : Nat
  conditions : Nat
deriving DecidableEq, Repr

/-- `ExclusionData::getExclusionCountsByType`. -/
def ExclusionData.getExclusionCountsByType (d : ExclusionData) : KindCounts :=
  { blocks := (d.scopes.map (fun p => p.2.blockExclusions.length)).sum
    toggles := (d.scopes.map (fun p => sumLens p.2.toggleExclusions)).sum
    fsms := (d.scopes.map (fun p => sumLens p.2.fsmExclusions)).sum
    conditions := (d.scopes.map (fun p => p.2.conditionExclusions.length)).sum }

/-- One iteration of the Block loop of `ExclusionData::merge`: overwrite or
keep-existing by block id. -/
def mergeBlockStep (ow : Bool) (acc : ExclusionScope) (bp : Str × BlockExclusion) :
    ExclusionScope :=
  if ow || (alistGet? acc.blockExclusions bp.1).isNone then
    { acc with blockExclusions := alistSet acc.blockExclusions bp.1 bp.2 }
  else acc

/-- One iteration of the Condition loop of `ExclusionData::merge`. -/
def mergeCondStep (ow : Bool) (acc : ExclusionScope) (cp : Str × ConditionExclusion) :
    ExclusionScope :=
  if ow || (alistGet? acc.conditionExclusions cp.1).isNone then
    { acc with conditionExclusions := alistSet acc.conditionExclusions cp.1 cp.2 }
  else acc

/-- The record-granularity branch of `ExclusionData::merge` for one scope
already present in the target: Block/Condition keep-or-overwrite by id,
Toggle/Fsm always appended through the add-exclusion mutators. -/
def mergeScopeRecords (existing other : ExclusionScope) (overwriteExisting : Bool) :
    ExclusionScope :=
  let s1 := other.blockExclusions.foldl (mergeBlockStep overwriteExisting) existing
  let s2 := other.toggleExclusions.foldl
    (fun (acc : ExclusionScope) tp => tp.2.foldl ExclusionScope.addToggleExclusion acc) s1
  let s3 := other.fsmExclusions.foldl
    (fun (acc : ExclusionScope) fp => fp.2.foldl ExclusionScope.addFsmExclusion acc) s2
  other.conditionExclusions.foldl (mergeCondStep overwriteExisting) s3

/-- One iteration of the scope loop of `ExclusionData::merge`: wholesale copy
for an absent (or overwritten) scope name, record-granularity merge
otherwise. -/
def mergeScopeStep (ow : Bool) (acc : ExclusionData) (sp : Str × ExclusionScope) :
    ExclusionData :=
  match alistGet? acc.scopes sp.1 with
  | none => { acc with scopes := alistSet acc.scopes sp.1 sp.2 }
  | some existing =>
    if ow then { acc with scopes := alistSet acc.scopes sp.1 sp.2 }
    else
      { acc with scopes := alistSet acc.scopes sp.1 (mergeScopeRecords existing sp.2 ow) }

/-- `ExclusionData.merge(other, overwriteExisting)`. -/
def ExclusionData.merge (d : ExclusionData) (other : ExclusionData)
    (overwriteExisting : Bool) : ExclusionData :=
  other.scopes.foldl (mergeScopeStep overwriteExisting) d

/-! ## Parsing engine (`ExclusionParser.cpp`) -/

/-- `struct ParserConfig` with its defaults (100 MB ceiling). -/
structure ParserConfig where
  strictMode : Bool
  validateChecksums : Bool
  preserveComments : Bool
  mergeOnLoad : Bool
  maxFileSize : Nat
deriving DecidableEq, Repr

/-- `ParserConfig()`. -/
def ParserConfig.default : ParserConfig :=
  ⟨false, true, true, false, 104857600⟩

/-- `struct ParseResult` (the `exclusionCounts` map by `ExclusionType` is laid
out as four counters). -/
structure ParseResult where
  success : Bool
  errorMessage : Str
  linesProcessed : Nat
  exclusionsParsed : Nat
  warnings : List Str
  blockCount : Nat
  toggleCount : Nat
  fsmCount : Nat
  conditionCount : Nat
deriving DecidableEq, Repr

/-- `ParseResult()`. -/
def ParseResult.init : ParseResult := ⟨false, [], 0, 0, [], 0, 0, 0, 0⟩

/-- The `ExclusionParser` object: configuration, owned database and the
per-invocation parsing state.  `lastWarnings` is the sink behind
`addWarning`, which pushes into the member `lastResult_` rather than into
the result being built. -/
structure Parser where
  config : ParserConfig
  data : ExclusionData
  currentScope : Str
  currentChecksum : Str
  currentIsModule : Bool
  pendingAnnot : Str
  currentLineNumber : Nat
  lastWarnings : List Str
deriving DecidableEq, Repr

/-- `ExclusionParser::resetState`. -/
def Parser.resetState (p : Parser) : Parser :=
  { p with currentScope := [], currentChecksum := [], currentIsModule := false,
           pendingAnnot := [], currentLineNumber := 0 }

/-- A freshly constructed `ExclusionParser` with the given configuration. -/
def Parser.init (cfg : ParserConfig) : Parser :=
  ⟨cfg, ExclusionData.empty, [], [], false, [], 0, []⟩

/-- Decimal rendering of a count (`std::to_string`). -/
def natToStr (n : Nat) : Str := (toString n).toList

/-- `ExclusionParser::isComment`: `//` prefix or a divider of 50 `=` signs. -/
def isComment (line : Str) : Bool :=
  startsWithStr line ('/' :: ['/']) || startsWithStr line (List.replicate 50 '=')

/-- `ExclusionParser::validateChecksum`: nonempty and nothing but decimal
digits and spaces. -/
def validateChecksum (cs : Str) : Bool :=
  if cs.isEmpty then false
  else cs.all (fun c => c.isDigit || c = ' ')

/-- The text after the first colon of a classified line, trimmed; `none`
models the C++ guard `pos == npos || pos + 1 >= line.length()` under which
the field assignment is skipped. -/
def afterColonTrim (line : Str) : Option Str :=
  let pos := findCharFrom line ':' 0
  if pos ≠ NPOS ∧ pos + 1 < line.length then some (trim (substrFrom line (pos + 1)))
  else none

/-- Strip one layer of surrounding double quotes when both the first and the
last character are quotes, as the checksum and the two annotation-capture
branches do. -/
def stripQuotes (s : Str) : Str :=
  if strFront s = '"' ∧ strBack s = '"' then substrLen s 1 (s.length - 2)
  else s

/-- `ExclusionParser::parseHeader`: the four metadata markers, matched by
substring containment in this fixed order. -/
def parseHeader (line : Str) (p : Parser) : Option Parser :=
  if containsStr line ("Generated By User:").toList then
    some (match afterColonTrim line with
      | some v => { p with data := { p.data with generatedBy := v } }
      | none => p)
  else if containsStr line ("Format Version:").toList then
    some (match afterColonTrim line with
      | some v => { p with data := { p.data with formatVersion := v } }
      | none => p)
  else if containsStr line ("Date:").toList then
    some (match afterColonTrim line with
      | some v => { p with data := { p.data with generationDate := v } }
      | none => p)
  else if containsStr line ("ExclMode:").toList then
    some (match afterColonTrim line with
      | some v => { p with data := { p.data with exclusionMode := v } }
      | none => p)
  else none

/-- `ExclusionParser::parseChecksum`: buffer the (unquoted) checksum for the
next scope declaration, warning on a shape violation when configured. -/
def parseChecksum (line : Str) (p : Parser) : Option Parser :=
  if startsWithStr line ("CHECKSUM:").toList then
    some (match afterColonTrim line with
      | some raw =>
        let cs := stripQuotes raw
        let p1 := { p with currentChecksum := cs }
        if p.config.validateChecksums ∧ ¬ validateChecksum cs then
          { p1 with lastWarnings :=
              p1.lastWarnings ++ [("Invalid checksum format: ").toList ++ cs] }
        else p1
      | none => p)
  else none

/-- `ExclusionParser::parseScope`: `INSTANCE:` / `MODULE:` declarations set
the current scope and create-or-fetch it with the buffered checksum. -/
def parseScope (line : Str) (p : Parser) : Option Parser :=
  if startsWithStr line ("INSTANCE:").toList then
    some (match afterColonTrim line with
      | some name =>
        { p with currentScope := name, currentIsModule := false,
                 data := (p.data.getOrCreateScope name p.currentChecksum false).1 }
      | none => p)
  else if startsWithStr line ("MODULE:").toList then
    some (match afterColonTrim line with
      | some name =>
        { p with currentScope := name, currentIsModule := true,
                 data := (p.data.getOrCreateScope name p.currentChecksum true).1 }
      | none => p)
  else none

/-- `ExclusionParser::parseAnnotation`: capture the quoted text of an
`ANNOTATION:` / `ANNOTATION_BEGIN:` line into the pending buffer;
`ANNOTATION_END` is a no-op. -/
def parseAnnot (line : Str) (p : Parser) : Option Parser :=
  if startsWithStr line ("ANNOTATION:").toList then
    some (match afterColonTrim line with
      | some raw => { p with pendingAnnot := stripQuotes raw }
      | none => p)
  else if startsWithStr line ("ANNOTATION_BEGIN:").toList then
    some (match afterColonTrim line with
      | some raw => { p with pendingAnnot := stripQuotes raw }
      | none => p)
  else if startsWithStr line ("ANNOTATION_END").toList then some p
  else none

/-- Shared tail of the five exclusion classifiers: mutate the current scope
(fetched or created with the buffered checksum) and consume the pending
annotation — but only when a scope is current. -/
def addToCurrentScope (p : Parser) (f : Str → ExclusionScope → ExclusionScope) :
    Parser :=
  if p.currentScope.isEmpty then p
  else
    { p with
        data := p.data.modifyScope p.currentScope p.currentChecksum
          p.currentIsModule (f p.pendingAnnot),
        pendingAnnot := [] }

/-- `ExclusionParser::parseBlockExclusion`. -/
def parseBlockExclusion (line : Str) (p : Parser) : Option Parser :=
  if startsWithStr line ("Block ").toList then
    let blockId := (readTok (readTok line).2).1
    let r1 := extractQuotedString line (findStrFrom line blockId 0 + blockId.length)
    let r2 := extractQuotedString line r1.2
    some (addToCurrentScope p (fun annot s =>
      s.addBlockExclusion ⟨blockId, r1.1, r2.1, annot⟩))
  else none

/-- `ExclusionParser::parseToggleExclusion`: optional leading direction
token, signal name up to the first space or bracket, a bit index only when
an opening bracket precedes the first space, then the quoted net
description. -/
def parseToggleExclusion (line : Str) (p : Parser) : Option Parser :=
  if startsWithStr line ("Toggle ").toList then
    let remaining0 := trim (substrFrom line 7)
    let dirRem : ToggleDirection × Str :=
      if startsWithStr remaining0 ("0to1 ").toList then
        (ToggleDirection.ZERO_TO_ONE, substrFrom remaining0 5)
      else if startsWithStr remaining0 ("1to0 ").toList then
        (ToggleDirection.ONE_TO_ZERO, substrFrom remaining0 5)
      else (ToggleDirection.BOTH, remaining0)
    let remaining := dirRem.2
    let spacePos := findCharFrom remaining ' ' 0
    let bracketPos := findCharFrom remaining '[' 0
    let endPos0 := min spacePos bracketPos
    let endPos := if endPos0 = NPOS then remaining.length else endPos0
    let signalName := substrLen remaining 0 endPos
    let bitRem : Option Int × Str :=
      if bracketPos ≠ NPOS ∧ bracketPos < spacePos then
        let closeBracket := findCharFrom remaining ']' bracketPos
        if closeBracket ≠ NPOS then
          let bitStr := substrLen remaining (bracketPos + 1) (closeBracket - bracketPos - 1)
          (stoiOpt bitStr, substrFrom remaining (closeBracket + 1))
        else (none, remaining)
      else (none, substrFrom remaining endPos)
    let desc := (extractQuotedString bitRem.2 0).1
    some (addToCurrentScope p (fun annot s =>
      s.addToggleExclusion ⟨dirRem.1, signalName, bitRem.1, desc, annot⟩))
  else none

/-- `ExclusionParser::parseFsmExclusion` (the state form `Fsm <name> "<cs>"`). -/
def parseFsmExclusion (line : Str) (p : Parser) : Option Parser :=
  if startsWithStr line ("Fsm ").toList then
    let fsmName := (readTok (readTok line).2).1
    let cs := (extractQuotedString line (findStrFrom line fsmName 0 + fsmName.length)).1
    some (addToCurrentScope p (fun annot s =>
      s.addFsmExclusion (FsmExclusion.state fsmName cs annot)))
  else none

/-- Last index of character `c` in `l` (`std::string::rfind`), `NPOS` when
absent. -/
def rfindChar (l : Str) (c : Char) : Nat :=
  match findCharIdx? c l.reverse with
  | some i => l.length - 1 - i
  | none => NPOS

/-- `ExclusionParser::parseConditionExclusion`: quoted checksum, quoted
expression-with-parameters split at the last space, parenthesised coverage
trailer. -/
def parseConditionExclusion (line : Str) (p : Parser) : Option Parser :=
  if startsWithStr line ("Condition ").toList then
    let conditionId := (readTok (readTok line).2).1
    let pos := findStrFrom line conditionId 0 + conditionId.length
    let r1 := extractQuotedString line pos
    let r2 := extractQuotedString line r1.2
    let expr := r2.1
    let lastSpace := rfindChar expr ' '
    let ep : Str × Str :=
      if lastSpace ≠ NPOS then (substrLen expr 0 lastSpace, substrFrom expr (lastSpace + 1))
      else (expr, [])
    let remaining := trim (substrFrom line r2.2)
    let coverage : Str :=
      if strFront remaining = '(' ∧ strBack remaining = ')' then
        substrLen remaining 1 (remaining.length - 2)
      else []
    some (addToCurrentScope p (fun annot s =>
      s.addConditionExclusion ⟨conditionId, r1.1, ep.1, ep.2, coverage, annot⟩))
  else none

/-- `ExclusionParser::parseTransition`: `Transition <from>-><to> "<id>"`,
grouped under the fixed FSM key "transition"; rejects lines missing the
arrow or the space after the target state. -/
def parseTransition (line : Str) (p : Parser) : Option Parser :=
  if startsWithStr line ("Transition ").toList then
    let remaining := substrFrom line 11
    let arrowPos := findStrFrom remaining ('-' :: ['>']) 0
    if arrowPos = NPOS then none
    else
      let fromState := trim (substrLen remaining 0 arrowPos)
      let spacePos := findCharFrom remaining ' ' arrowPos
      if spacePos = NPOS then none
      else
        let toState := trim (substrLen remaining (arrowPos + 2) (spacePos - arrowPos - 2))
        let transId := (extractQuotedString remaining spacePos).1
        some (addToCurrentScope p (fun annot s =>
          s.addFsmExclusion
            (FsmExclusion.transition ("transition").toList fromState toState transId annot)))
  else none

/-- One iteration of the `parseStream` line loop: bump the line counter, trim,
skip blanks and comments, then run the classifiers in their fixed priority
order, updating the per-kind tallies; an unrecognized line is a warning, and
in strict mode also a line-numbered hard error (third component). -/
def parseLineStep (p : Parser) (res : ParseResult) (rawLine : Str) :
    Parser × ParseResult × Option Str :=
  let p := { p with currentLineNumber := p.currentLineNumber + 1 }
  let res := { res with linesProcessed := res.linesProcessed + 1 }
  let line := trim rawLine
  if line.isEmpty then (p, res, none)
  else if isComment line then (p, res, none)
  else
    match parseHeader line p with
    | some p1 => (p1, res, none)
    | none =>
    match parseChecksum line p with
    | some p1 => (p1, res, none)
    | none =>
    match parseScope line p with
    | some p1 => (p1, res, none)
    | none =>
    match parseAnnot line p with
    | some p1 => (p1, res, none)
    | none =>
    match parseBlockExclusion line p with
    | some p1 =>
      (p1, { res with exclusionsParsed := res.exclusionsParsed + 1,
                      blockCount := res.blockCount + 1 }, none)
    | none =>
    match parseToggleExclusion line p with
    | some p1 =>
      (p1, { res with exclusionsParsed := res.exclusionsParsed + 1,
                      toggleCount := res.toggleCount + 1 }, none)
    | none =>
    match parseFsmExclusion line p with
    | some p1 =>
      (p1, { res with exclusionsParsed := res.exclusionsParsed + 1,
                      fsmCount := res.fsmCount + 1 }, none)
    | none =>
    match parseConditionExclusion line p with
    | some p1 =>
      (p1, { res with exclusionsParsed := res.exclusionsParsed + 1,
                      conditionCount := res.conditionCount + 1 }, none)
    | none =>
    match parseTransition line p with
    | some p1 =>
      (p1, { res with exclusionsParsed := res.exclusionsParsed + 1,
                      fsmCount := res.fsmCount + 1 }, none)
    | none =>
      let warning := ("Unrecognized line format at line ").toList ++
        natToStr p.currentLineNumber ++ (": ").toList ++ line
      let res1 := { res with warnings := res.warnings ++ [warning] }
      if p.config.strictMode then
        let err := ("Line ").toList ++ natToStr p.currentLineNumber ++
          (": Unrecognized line format: ").toList ++ line
        (p, res1, some err)
      else (p, res1, none)

/-- The `while (std::getline(...))` loop of `ExclusionParser::parseStream`:
fold the line sequence through `parseLineStep`, stopping with the hard error
(and the still-false success flag) in strict mode, and reporting success once
the stream is exhausted. -/
def parseLines (p : Parser) (res : ParseResult) : List Str → ParseResult × Parser
  | [] => ({ res with success := true }, p)
  | l :: rest =>
    match parseLineStep p res l with
    | (p1, res1, some err) => ({ res1 with errorMessage := err }, p1)
    | (p1, res1, none) => parseLines p1 res1 rest

/-- `ExclusionParser::parseStream` on the line sequence of a stream. -/
def parseStream (p : Parser) (lines : List Str) : ParseResult × Parser :=
  parseLines p ParseResult.init lines

/-- `ExclusionParser::parseString`: reset the per-invocation state, then
parse the stream built from the content. -/
def parseString (p : Parser) (content : Str) : ParseResult × Parser :=
  parseStream p.resetState (getlineSplit content)

/-- The filesystem abstraction seen by `parseFile`: existence/openability,
reported size, name and content. -/
structure SimFile where
  present : Bool
  size : Nat
  name : Str
  content : Str
deriving DecidableEq, Repr

/-- `ExclusionParser::parseFile`: reset state, fail on a missing file, fail
on a file above the configured ceiling (both before any database mutation),
otherwise replace the database (when `mergeOnLoad` is off) and defer to the
stream parser. -/
def parseFile (p : Parser) (f : SimFile) : ParseResult × Parser :=
  let p := p.resetState
  if ¬ f.present then
    ({ ParseResult.init with errorMessage := ("File does not exist: ").toList ++ f.name }, p)
  else if f.size > p.config.maxFileSize then
    let msg := ("File too large: ").toList ++ natToStr f.size ++
      (" bytes (max: ").toList ++ natToStr p.config.maxFileSize ++ (")").toList
    ({ ParseResult.init with errorMessage := msg }, p)
  else
    let p :=
      if ¬ p.config.mergeOnLoad then
        { p with data := { ExclusionData.empty with fileName := f.name } }
      else p
    let p := { p with data := { p.data with fileName := f.name } }
    parseStream p (getlineSplit f.content)

/-! ## Writer (`ExclusionWriter.cpp`) -/

/-- `struct WriterConfig` with its defaults. -/
structure WriterConfig where
  includeComments : Bool
  includeAnnotations : Bool
  sortExclusions : Bool
  generateChecksums : Bool
  indentation : Str
  lineEnding : Str
  compactFormat : Bool
deriving DecidableEq, Repr

/-- `WriterConfig()`. -/
def WriterConfig.default : WriterConfig :=
  ⟨true, true, false, true, [], ['\n'], false⟩

/-- `ExclusionWriter::escapeString`: double quotes become backslash-quote. -/
def escapeString (s : Str) : Str :=
  s.foldr (fun c acc => if c = '"' then '\\' :: '"' :: acc else c :: acc) []

/-- `toggleDirectionToString` (`ExclusionData.cpp`): `BOTH` renders as the
empty string, so no direction token is emitted for it. -/
def toggleDirectionToString : ToggleDirection → Str
  | ToggleDirection.ZERO_TO_ONE => ('0' :: ("to1").toList)
  | ToggleDirection.ONE_TO_ZERO => ('1' :: ("to0").toList)
  | ToggleDirection.BOTH => []

/-- Stand-in for `std::hash<std::string>` inside
`ExclusionWriter::generateScopeChecksum`.  The C++ value is
implementation-defined; what matters downstream is only that the rendered
checksum is a digit string on one line, which any concrete function
provides. -/
def strHash (s : Str) : Nat :=
  s.foldl (fun h c => (h * 131 + c.toNat) % 18446744073709551616) 0

/-- `ExclusionWriter::generateScopeChecksum`: fold the block and toggle keys
through the hash combiner (modelled with `strHash`) and render in decimal. -/
def generateScopeChecksum (s : ExclusionScope) : Str :=
  let h1 := s.blockExclusions.foldl
    (fun h bp => (h ^^^ (strHash bp.1 + 2654435769 + h * 64 + h / 4)) % 18446744073709551616) 0
  let h2 := s.toggleExclusions.foldl
    (fun h tp => (h ^^^ (strHash tp.1 + 2654435769 + h * 64 + h / 4)) % 18446744073709551616) h1
  natToStr h2

/-- Lexicographic comparison on character values (`operator<` on
`std::string`, used by `std::sort` on the key vectors). -/
def strLt : Str → Str → Bool
  | [], [] => false
  | [], _ :: _ => true
  | _ :: _, [] => false
  | a :: as, b :: bs => if a.toNat < b.toNat then true
      else if b.toNat < a.toNat then false else strLt as bs

/-- `std::sort` over a key vector (modelled as a stable merge sort under the
same strict weak order). -/
def sortKeys (l : List Str) : List Str :=
  l.mergeSort (fun a b => !(strLt b a))

/-- The key vector of a container, sorted when the configuration asks for
it. -/
def orderedKeys {α : Type} (cfg : WriterConfig) (m : List (Str × α)) : List Str :=
  let ks := m.map (fun p => p.1)
  if cfg.sortExclusions then sortKeys ks else ks

/-- `ExclusionWriter::writeAnnotation` (a line only for nonempty text). -/
def writeAnnotLines (annot : Str) : List Str :=
  if annot.isEmpty then []
  else [("ANNOTATION: \"").toList ++ escapeString annot ++ ['"']]

/-- The annotation line emitted ahead of a record when annotations are
enabled and the record carries one. -/
def annotLinesFor (cfg : WriterConfig) (annot : Str) : List Str :=
  if cfg.includeAnnotations ∧ ¬ annot.isEmpty then writeAnnotLines annot else []

/-- `ExclusionWriter::writeBlockExclusions`: one `Block` line per id, each
preceded by its optional annotation line. -/
def writeBlockExclusions (cfg : WriterConfig) (s : ExclusionScope) : List Str :=
  (orderedKeys cfg s.blockExclusions).foldr
    (fun blockId acc =>
      match alistGet? s.blockExclusions blockId with
      | none => acc
      | some b =>
        annotLinesFor cfg b.annot ++
          [("Block ").toList ++ blockId ++ (" \"").toList ++ b.checksum ++
            ("\" \"").toList ++ escapeString b.sourceCode ++ ['"']] ++ acc) []

/-- The single `Toggle` line for one record. -/
def toggleLine (t : ToggleExclusion) : Str :=
  let dir := toggleDirectionToString t.direction
  let l1 := ("Toggle ").toList ++ (if dir.isEmpty then [] else dir ++ [' '])
  let l2 := l1 ++ t.signalName ++
    (match t.bitIndex with
     | some b => (" [").toList ++ (toString b).toList ++ [']']
     | none => [])
  l2 ++ (" \"").toList ++ escapeString t.netDescription ++ ['"']

/-- `ExclusionWriter::writeToggleExclusions`. -/
def writeToggleExclusions (cfg : WriterConfig) (s : ExclusionScope) : List Str :=
  (orderedKeys cfg s.toggleExclusions).foldr
    (fun signalName acc =>
      match alistGet? s.toggleExclusions signalName with
      | none => acc
      | some ts =>
        (ts.foldr (fun t acc2 => annotLinesFor cfg t.annot ++ [toggleLine t] ++ acc2) []) ++ acc)
    []

/-- The single `Fsm` or `Transition` line for one record. -/
def fsmLine (f : FsmExclusion) : Str :=
  if f.isTransition then
    ("Transition ").toList ++ f.fromState ++ ('-' :: ['>']) ++ f.toState ++
      (" \"").toList ++ f.transitionId ++ ['"']
  else
    ("Fsm ").toList ++ f.fsmName ++ (" \"").toList ++ f.checksum ++ ['"']

/-- `ExclusionWriter::writeFsmExclusions`. -/
def writeFsmExclusions (cfg : WriterConfig) (s : ExclusionScope) : List Str :=
  (orderedKeys cfg s.fsmExclusions).foldr
    (fun fsmName acc =>
      match alistGet? s.fsmExclusions fsmName with
      | none => acc
      | some fs =>
        (fs.foldr (fun f acc2 => annotLinesFor cfg f.annot ++ [fsmLine f] ++ acc2) []) ++ acc)
    []

/-- The single `Condition` line for one record. -/
def conditionLine (condId : Str) (c : ConditionExclusion) : Str :=
  let l1 := ("Condition ").toList ++ condId ++ (" \"").toList ++ c.checksum ++
    ("\" \"").toList ++ escapeString c.expression
  let l2 := l1 ++ (if c.parameters.isEmpty then [] else ' ' :: c.parameters) ++ ['"']
  l2 ++ (if c.coverage.isEmpty then [] else (" (").toList ++ c.coverage ++ [')'])

/-- `ExclusionWriter::writeConditionExclusions`. -/
def writeConditionExclusions (cfg : WriterConfig) (s : ExclusionScope) : List Str :=
  (orderedKeys cfg s.conditionExclusions).foldr
    (fun condId acc =>
      match alistGet? s.conditionExclusions condId with
      | none => acc
      | some c => annotLinesFor cfg c.annot ++ [conditionLine condId c] ++ acc) []

/-- `ExclusionWriter::writeChecksum`. -/
def writeChecksumLine (cs : Str) : Str :=
  ("CHECKSUM: \"").toList ++ cs ++ ['"']

/-- `ExclusionWriter::writeScope`: optional checksum line (stored or
generated), the scope declaration and then the four kinds in their fixed
order. -/
def writeScope (cfg : WriterConfig) (scopeName : Str) (s : ExclusionScope) :
    List Str :=
  (if ¬ s.checksum.isEmpty then [writeChecksumLine s.checksum]
   else if cfg.generateChecksums then [writeChecksumLine (generateScopeChecksum s)]
   else []) ++
  [((if s.isModule then ("MODULE:") else ("INSTANCE:")).toList ++ scopeName)] ++
  writeBlockExclusions cfg s ++
  writeToggleExclusions cfg s ++
  writeFsmExclusions cfg s ++
  writeConditionExclusions cfg s

/-- `ExclusionWriter::writeHeader` (all seven lines are `//` comments; a
missing date is filled from the system clock, modelled by a fixed stamp). -/
def writeHeader (d : ExclusionData) : List Str :=
  [('/' :: ('/' :: List.replicate 50 '=')),
   ("// This file contains the Excluded objects").toList,
   ("// Generated By User: ").toList ++
     (if d.generatedBy.isEmpty then ("ExclusionCoverageParser").toList else d.generatedBy),
   ("// Format Version: ").toList ++
     (if d.formatVersion.isEmpty then ['2'] else d.formatVersion),
   ("// Date: ").toList ++
     (if d.generationDate.isEmpty then ("Mon Jan  1 00:00:00 2025").toList
      else d.generationDate),
   ("// ExclMode: ").toList ++
     (if d.exclusionMode.isEmpty then ("default").toList else d.exclusionMode),
   ('/' :: ('/' :: List.replicate 50 '='))]

/-- `ExclusionWriter::writeToStream`, as the list of emitted lines: optional
header, then every scope in container order (sorted when configured). -/
def writeLines (cfg : WriterConfig) (d : ExclusionData) : List Str :=
  (if cfg.includeComments then writeHeader d else []) ++
    (orderedKeys cfg d.scopes).foldr
      (fun scopeName acc =>
        match alistGet? d.scopes scopeName with
        | none => acc
        | some s => writeScope cfg scopeName s ++ acc) []

/-- `ExclusionWriter::writeToString`: each line is rendered as
`indentation ++ line ++ lineEnding` through `writeLine`. -/
def writeToString (cfg : WriterConfig) (d : ExclusionData) : Str :=
  (writeLines cfg d).foldr (fun l acc => cfg.indentation ++ l ++ cfg.lineEnding ++ acc) []

/-! ## Small executable helpers shared by the claim theorems -/

/-- Run the stream parser on a line list from a freshly constructed parser
with the default configuration. -/
def runLines (ls : List Str) : ParseResult × Parser :=
  parseLines (Parser.init ParserConfig.default) ParseResult.init ls

/-- Scope lookup in a database. -/
def scopeOf (d : ExclusionData) (n : Str) : Option ExclusionScope :=
  alistGet? d.scopes n

/-! ## Association-list lemmas -/

theorem alistGet?_alistSet_self {α : Type} (m : List (Str × α)) (k : Str) (v : α) :
    alistGet? (alistSet m k v) k = some v := by
  induction m with
  | nil => simp [alistGet?, alistSet]
  | cons hd tl ih =>
    obtain ⟨k1, v1⟩ := hd
    by_cases h : k1 = k
    · simp [alistGet?, alistSet, h]
    · simp [alistGet?, alistSet, h, ih]

theorem alistGet?_alistSet_ne {α : Type} (m : List (Str × α)) (k k1 : Str) (v : α)
    (h : k1 ≠ k) : alistGet? (alistSet m k v) k1 = alistGet? m k1 := by
  have hk1 : k ≠ k1 := fun he => h (Eq.symm he)
  induction m with
  | nil => simp [alistGet?, alistSet, hk1]
  | cons hd tl ih =>
    obtain ⟨k2, v2⟩ := hd
    by_cases h2 : k2 = k
    · subst h2
      simp [alistGet?, alistSet, hk1]
    · by_cases h3 : k2 = k1 <;> simp [alistGet?, alistSet, h, h2, h3, ih]

/-! ## Claim C2 — Condition line field split -/

/-- The Scenario B line, parsed right after a scope declaration. -/
def c2Run : ParseResult × Parser :=
  runLines [("INSTANCE:top").toList,
    ("Condition 2 \"111\" \"(a && b) 1 -1\" (1 \"01\")").toList]

/-- The ConditionExclusion record the Scenario B line produces. -/
def c2Parsed : Option ConditionExclusion :=
  (scopeOf c2Run.2.data ("top").toList).bind
    (fun s => alistGet? s.conditionExclusions ("2").toList)

/-- C2 (counterexample): parsing `Condition 2 "111" "(a && b) 1 -1" (1 "01")`
with a scope current does not produce a record with expression `(a && b)` and
parameters `1 -1`; splitting the quoted text at its last space puts the `1`
into the expression. -/
theorem c2_claim_false_at_scenario_b :
    ¬ ∃ c, c2Parsed = some c ∧ c.expression = ("(a && b)").toList ∧
      c.parameters = ("1 -1").toList := by
  intro ⟨c, hc, he, hp⟩
  have hv : c2Parsed = some
      ⟨("2").toList, ("111").toList, ("(a && b) 1").toList, ("-1").toList,
        ("1 \"01\"").toList, []⟩ := by decide
  rw [hv] at hc
  cases hc
  exact absurd he (by decide)

/-- C2 (amended): parsing the Scenario B line while a scope is current
creates a ConditionExclusion with conditionId `2`, checksum `111`,
expression `(a && b) 1`, parameters `-1` and coverage `1 "01"` — the quoted
text is split at its *last* space, so only the final token lands in the
parameters. -/
theorem c2_condition_split_at_last_space :
    c2Parsed = some
      ⟨("2").toList, ("111").toList, ("(a && b) 1").toList, ("-1").toList,
        ("1 \"01\"").toList, []⟩ := by decide

/-! ## Claim C4 — Toggle direction default and bit-index handling -/

/-- Parse of `Toggle sig [3] "desc"` (bracket separated from the signal name
by a space, as the writer emits and the grammar prescribes). -/
def c4SpacedToggle : Option (List ToggleExclusion) :=
  (scopeOf (runLines [("INSTANCE:top").toList,
      ("Toggle sig [3] \"desc\"").toList]).2.data ("top").toList).bind
    (fun s => alistGet? s.toggleExclusions ("sig").toList)

/-- Parse of `Toggle sig "desc"` (no directional token, no bracket). -/
def c4PlainToggle : Option (List ToggleExclusion) :=
  (scopeOf (runLines [("INSTANCE:top").toList,
      ("Toggle sig \"desc\"").toList]).2.data ("top").toList).bind
    (fun s => alistGet? s.toggleExclusions ("sig").toList)

/-- C4: the direction of a `Toggle` line with no leading `0to1`/`1to0` token
defaults to BOTH, but the bracketed integer of `Toggle sig [3] "desc"` does
*not* become a bitIndex: the parser only honours a bracket that precedes the
first space, so the space-separated form used by the writer, the grammar and
the parser's own format example yields `bitIndex = none`, contradicting the
claimed `bitIndex = 3`. -/
theorem c4_toggle_bit_index_dropped :
    c4SpacedToggle = some
      [⟨ToggleDirection.BOTH, ("sig").toList, none, ("desc").toList, []⟩] ∧
    c4PlainToggle = some
      [⟨ToggleDirection.BOTH, ("sig").toList, none, ("desc").toList, []⟩] := by
  constructor <;> decide

/-! ## Claim C7 — annotation attaches to the first following Block only -/

/-- A scope declaration, one ANNOTATION line, then two Block lines. -/
def c7Run : ParseResult × Parser :=
  runLines [("INSTANCE:top").toList, ("ANNOTATION: \"note\"").toList,
    ("Block 1 \"11\" \"x = 1;\"").toList, ("Block 2 \"22\" \"y = 2;\"").toList]

/-- C7: one `ANNOTATION:` line followed by two `Block` lines attaches the
quoted text to the first Block record only; the second record's annotation is
empty and the pending-annotation buffer is left cleared. -/
theorem c7_annotation_scoping :
    (∃ s, scopeOf c7Run.2.data ("top").toList = some s ∧
      alistGet? s.blockExclusions ("1").toList =
        some ⟨("1").toList, ("11").toList, ("x = 1;").toList, ("note").toList⟩ ∧
      alistGet? s.blockExclusions ("2").toList =
        some ⟨("2").toList, ("22").toList, ("y = 2;").toList, []⟩) ∧
    c7Run.2.pendingAnnot = [] := by
  refine ⟨⟨(scopeOf c7Run.2.data ("top").toList).get (by decide), ?_, ?_, ?_⟩, ?_⟩ <;> decide

/-! ## Claim C9 — checksum-format validation -/

/-- C9 (counterexample): every character of the empty string is a digit or a
space, yet `validateChecksum` rejects it — the code starts with an explicit
empty rejection, so the claimed "accepts iff all characters are digits or
spaces, in particular the empty string" fails at the empty string. -/
theorem c9_claim_false_at_empty_string :
    validateChecksum [] = false ∧
      ∀ c ∈ ([] : Str), (c.isDigit || c = ' ') = true := by
  exact ⟨by decide, by intro c hc; cases hc⟩

/-- The CHECKSUM line used to observe the warning path. -/
def c9Run : ParseResult × Parser :=
  runLines [("CHECKSUM: \"abc\"").toList, ("INSTANCE:top").toList]

/-- C9 (amended): the validator accepts a checksum string iff it is nonempty
and every character is a decimal digit or a space; a failing string is only
a non-fatal warning — the stream parse still classifies the line and
succeeds, and the scope is still created with the rejected checksum. -/
theorem c9_checksum_validation :
    (∀ s : Str, validateChecksum s = true ↔
      (s ≠ [] ∧ ∀ c ∈ s, (c.isDigit || c = ' ') = true)) ∧
    validateChecksum ("abc").toList = false ∧
    c9Run.1.success = true ∧
    c9Run.2.lastWarnings =
      [("Invalid checksum format: abc").toList] ∧
    scopeOf c9Run.2.data ("top").toList =
      some (ExclusionScope.mkNew ("top").toList ("abc").toList false) := by
  refine ⟨?_, by decide, by decide, by decide, by decide⟩
  intro s
  cases s with
  | nil => simp [validateChecksum]
  | cons a t =>
    simp [validateChecksum, List.isEmpty, List.all_eq_true]

/-! ## Claim C8 — idempotent scope creation -/

/-- C8: a second `getOrCreateScope` call with the same name returns the
database unchanged and hands back the very scope of the first call, so the
second call's checksum/isModule arguments never overwrite the stored
fields. -/
theorem c8_getOrCreateScope_idempotent (d : ExclusionData) (name cs1 cs2 : Str)
    (m1 m2 : Bool) :
    ((d.getOrCreateScope name cs1 m1).1.getOrCreateScope name cs2 m2).1 =
        (d.getOrCreateScope name cs1 m1).1 ∧
    ((d.getOrCreateScope name cs1 m1).1.getOrCreateScope name cs2 m2).2 =
        (d.getOrCreateScope name cs1 m1).2 ∧
    alistGet? (d.getOrCreateScope name cs1 m1).1.scopes name =
        some (d.getOrCreateScope name cs1 m1).2 := by
  unfold ExclusionData.getOrCreateScope
  cases h : alistGet? d.scopes name with
  | some s => simp [h]
  | none => simp [h, alistGet?_alistSet_self]

/-! ## Claim C6 — oversize-file guard -/

/-- C6: when the file exists but its size exceeds the configured ceiling,
`parseFile` reports failure with a nonempty error message, the database is
untouched and nothing from the file is parsed. -/
theorem c6_oversize_guard (p : Parser) (f : SimFile)
    (h1 : f.present = true) (h2 : f.size > p.config.maxFileSize) :
    (parseFile p f).1.success = false ∧
    (parseFile p f).1.errorMessage ≠ [] ∧
    (parseFile p f).2.data = p.data ∧
    (parseFile p f).1.exclusionsParsed = 0 ∧
    (parseFile p f).1.linesProcessed = 0 := by
  unfold parseFile
  have h2r : f.size > (Parser.resetState p).config.maxFileSize := h2
  rw [if_neg (fun hn => hn h1), if_pos h2r]
  refine ⟨rfl, ?_, rfl, rfl, rfl⟩
  intro h
  rw [List.append_eq_nil, List.append_eq_nil, List.append_eq_nil,
    List.append_eq_nil] at h
  exact absurd h.1.1.1.1 (by decide)

/-- C6 witness: a 100 MB + 1 byte file against the default 100 MB ceiling. -/
theorem c6_oversize_guard_witness :
    (⟨true, 104857601, ("big.el").toList, []⟩ : SimFile).present = true ∧
    (104857601 : Nat) > (Parser.init ParserConfig.default).config.maxFileSize ∧
    ((parseFile (Parser.init ParserConfig.default)
        ⟨true, 104857601, ("big.el").toList, []⟩).1.success = false ∧
      (parseFile (Parser.init ParserConfig.default)
        ⟨true, 104857601, ("big.el").toList, []⟩).1.errorMessage ≠ [] ∧
      (parseFile (Parser.init ParserConfig.default)
        ⟨true, 104857601, ("big.el").toList, []⟩).2.data =
          (Parser.init ParserConfig.default).data ∧
      (parseFile (Parser.init ParserConfig.default)
        ⟨true, 104857601, ("big.el").toList, []⟩).1.exclusionsParsed = 0 ∧
      (parseFile (Parser.init ParserConfig.default)
        ⟨true, 104857601, ("big.el").toList, []⟩).1.linesProcessed = 0) := by
  refine ⟨rfl, by decide, ?_⟩
  exact c6_oversize_guard (Parser.init ParserConfig.default)
    ⟨true, 104857601, ("big.el").toList, []⟩ rfl (by decide)

/-! ## Claim C3 — wildcard scope-name matcher (`PatternMatcher::matches`)

The C++ routine builds an ECMAScript regex from the pattern in three steps:
it escapes the character class `[-[\]{}()+.,\^$|#\s]` (note: `*` and `?` are
*not* in the class), then calls `std::regex_replace` twice to turn `*` into
`.*` and `?` into `.` — but discards both return values, so the wildcards
are never converted — and finally runs an anchored `std::regex_match`.
The embedding below reproduces the escaping and then interprets the
resulting regex fragment: after the escaping step the only unescaped
metacharacters a pattern can contain are `*`, `?` and `\`, so the fragment
is sequences of (possibly backslash-escaped) literal characters, each with
an optional postfix `*` or `?` quantifier; a quantifier with nothing to
repeat makes `std::regex` throw, which the caller turns into `false`. -/

/-- The character class `[-[\]{}()+.,\^$|#\s]` escaped by the first
(effective) `regex_replace`. -/
def regexSpecialChar (c : Char) : Bool :=
  (['-', '[', ']', Char.ofNat 123, Char.ofNat 125, '(', ')', '+', '.', ',',
    '^', '$', '|', '#', ' ', '\t', '\n', '\r', Char.ofNat 11, Char.ofNat 12]).contains c

/-- `std::regex_replace(pattern, specialChars, R"(\$&)")`: a backslash in
front of every character of the class. -/
def escapeSpecials (s : Str) : Str :=
  s.foldr (fun c acc => if regexSpecialChar c then '\\' :: c :: acc else c :: acc) []

/-- Postfix quantifier of one regex atom. -/
inductive Quant
  | one
  | star
  | opt
deriving DecidableEq, Repr

/-- One literal atom with its quantifier. -/
structure RPiece where
  ch : Char
  quant : Quant
deriving DecidableEq, Repr

/-- Scanner for the regex fragment (accumulator holds the pieces in reverse);
`none` models the `std::regex_error` thrown on a dangling backslash or a
quantifier with no atom (or a doubled quantifier) to its left. -/
def parseRegexGo : Str → List RPiece → Option (List RPiece)
  | [], acc => some acc.reverse
  | '\\' :: c :: r, acc => parseRegexGo r (⟨c, Quant.one⟩ :: acc)
  | ['\\'], _ => none
  | '*' :: r, ⟨c, Quant.one⟩ :: acc => parseRegexGo r (⟨c, Quant.star⟩ :: acc)
  | '*' :: _, _ => none
  | '?' :: r, ⟨c, Quant.one⟩ :: acc => parseRegexGo r (⟨c, Quant.opt⟩ :: acc)
  | '?' :: _, _ => none
  | c :: r, acc => parseRegexGo r (⟨c, Quant.one⟩ :: acc)

/-- Compile the escaped pattern into its piece list. -/
def parseRegex (s : Str) : Option (List RPiece) := parseRegexGo s []

/-- One-character match, honouring the `icase` flag. -/
def atomMatches (caseSensitive : Bool) (c x : Char) : Bool :=
  if caseSensitive then x = c else x.toLower = c.toLower

/-- Weight of a quantifier for the termination measure of the backtracking
matcher. -/
def quantWeight : Quant → Nat
  | Quant.one => 1
  | Quant.star => 2
  | Quant.opt => 2

/-- Combined weight of a piece list. -/
def piecesWeight : List RPiece → Nat
  | [] => 0
  | p :: ps => quantWeight p.quant + piecesWeight ps

/-- Anchored backtracking interpretation of the regex fragment, structurally
recursive on a fuel counter so that it evaluates inside the kernel.  Every
recursive call drops the measure `3 * s.length + piecesWeight ps` by at
least one while consuming exactly one unit of fuel, so starting the fuel
above that measure (as `rmatch` does) the `0` branch is unreachable. -/
def rmatchF (cs : Bool) : Nat → List RPiece → Str → Bool
  | 0, _, _ => false
  | _ + 1, [], [] => true
  | _ + 1, [], _ :: _ => false
  | _ + 1, ⟨_, Quant.one⟩ :: _, [] => false
  | n + 1, ⟨c, Quant.one⟩ :: ps, x :: xs => atomMatches cs c x && rmatchF cs n ps xs
  | n + 1, ⟨c, Quant.opt⟩ :: ps, s =>
    rmatchF cs n (⟨c, Quant.one⟩ :: ps) s || rmatchF cs n ps s
  | n + 1, ⟨c, Quant.star⟩ :: ps, s =>
    rmatchF cs n ps s ||
      (match s with
       | [] => false
       | x :: xs => atomMatches cs c x && rmatchF cs n (⟨c, Quant.star⟩ :: ps) xs)

/-- The language `std::regex_match` decides for regexes made of literals
with optional `*` / `?` postfix quantifiers. -/
def rmatch (cs : Bool) (ps : List RPiece) (s : Str) : Bool :=
  rmatchF cs (3 * s.length + piecesWeight ps + 1) ps s

/-- `PatternMatcher::matches(pattern, str, caseSensitive)`: escape the
special class, (discard the two wildcard conversions, as the source does by
dropping the `regex_replace` return values), compile and run the anchored
match; a compile error yields `false` through the catch-all. -/
def PatternMatcher.matches (pattern str : Str) (caseSensitive : Bool := true) : Bool :=
  let regexPattern := escapeSpecials pattern
  match parseRegex regexPattern with
  | none => false
  | some ps => rmatch caseSensitive ps str

/-- C3: because the two wildcard `regex_replace` results are discarded, the
matcher does not implement `*`/`?` wildcards at all: `matches("tb.*.core",
"tb.cpu0.core")` and `matches("a?c","abc")` are `false` where the claim
requires `true` (the two negative examples agree coincidentally).  The last
two conjuncts pin the divergence against the repository's own unit tests,
which expect `test*` to match `test123` and `test?` to match `test1`. -/
theorem c3_wildcard_matching_broken :
    PatternMatcher.matches ("tb.*.core").toList ("tb.cpu0.core").toList true = false ∧
    PatternMatcher.matches ("tb.*.core").toList ("tb.cpu0.io").toList true = false ∧
    PatternMatcher.matches ("a?c").toList ("abc").toList true = false ∧
    PatternMatcher.matches ("a?c").toList ("abcc").toList true = false ∧
    PatternMatcher.matches ("test*").toList ("test123").toList true = false ∧
    PatternMatcher.matches ("test?").toList ("test1").toList true = false ∧
    PatternMatcher.matches ("test").toList ("test").toList true = true := by
  decide

/-! ## Claim C10 — exclusion lines with no current scope -/

theorem addToCurrentScope_no_scope (p : Parser) (f : Str → ExclusionScope → ExclusionScope)
    (h : p.currentScope = []) : addToCurrentScope p f = p := by
  simp [addToCurrentScope, h]

theorem parseHeader_none (line : Str) (q : Parser)
    (h1 : containsStr line ("Generated By User:").toList = false)
    (h2 : containsStr line ("Format Version:").toList = false)
    (h3 : containsStr line ("Date:").toList = false)
    (h4 : containsStr line ("ExclMode:").toList = false) :
    parseHeader line q = none := by
  unfold parseHeader
  rw [h1, h2, h3, h4]
  simp

theorem startsWithStr_append_self (pre rest : Str) :
    startsWithStr (pre ++ rest) pre = true := by
  induction pre with
  | nil => simp [startsWithStr, List.isPrefixOf]
  | cons a t ih => simpa [startsWithStr, List.isPrefixOf] using ih

theorem parseBlockExclusion_no_scope (rest : Str) (q : Parser)
    (hs : q.currentScope = []) :
    parseBlockExclusion (("Block ").toList ++ rest) q = some q := by
  have hsw := startsWithStr_append_self (("Block ").toList) rest
  simp only [parseBlockExclusion, hsw, if_true]
  rw [addToCurrentScope_no_scope _ _ hs]

theorem parseToggleExclusion_no_scope (rest : Str) (q : Parser)
    (hs : q.currentScope = []) :
    parseToggleExclusion (("Toggle ").toList ++ rest) q = some q := by
  have hsw := startsWithStr_append_self (("Toggle ").toList) rest
  simp only [parseToggleExclusion, hsw, if_true]
  rw [addToCurrentScope_no_scope _ _ hs]

theorem parseFsmExclusion_no_scope (rest : Str) (q : Parser)
    (hs : q.currentScope = []) :
    parseFsmExclusion (("Fsm ").toList ++ rest) q = some q := by
  have hsw := startsWithStr_append_self (("Fsm ").toList) rest
  simp only [parseFsmExclusion, hsw, if_true]
  rw [addToCurrentScope_no_scope _ _ hs]

theorem parseConditionExclusion_no_scope (rest : Str) (q : Parser)
    (hs : q.currentScope = []) :
    parseConditionExclusion (("Condition ").toList ++ rest) q = some q := by
  have hsw := startsWithStr_append_self (("Condition ").toList) rest
  simp only [parseConditionExclusion, hsw, if_true]
  rw [addToCurrentScope_no_scope _ _ hs]

theorem parseTransition_no_scope (rest : Str) (q : Parser)
    (hs : q.currentScope = [])
    (ha : findStrFrom rest ('-' :: ['>']) 0 ≠ NPOS)
    (hb : findCharFrom rest ' ' (findStrFrom rest ('-' :: ['>']) 0) ≠ NPOS) :
    parseTransition (("Transition ").toList ++ rest) q = some q := by
  have hsw := startsWithStr_append_self (("Transition ").toList) rest
  have hdrop : substrFrom (("Transition ").toList ++ rest) 11 = rest := rfl
  simp only [parseTransition, hsw, if_true, hdrop]
  rw [if_neg ha, if_neg hb, addToCurrentScope_no_scope _ _ hs]

/-- C10: an exclusion line (a `Block `/`Toggle `/`Fsm `/`Condition ` line, or
a `Transition ` line carrying the arrow and the following space) met while no
scope is current and free of the four header markers is still classified as
parsed — the exclusions-parsed and the per-kind tallies grow by one and no
warning and no hard error is produced — yet the database is untouched (so no
scope and no record is created) and the pending annotation stays buffered. -/
theorem c10_exclusion_line_without_scope (p : Parser) (res : ParseResult) (line : Str)
    (hs : p.currentScope = [])
    (htrim : trim line = line)
    (hm1 : containsStr line ("Generated By User:").toList = false)
    (hm2 : containsStr line ("Format Version:").toList = false)
    (hm3 : containsStr line ("Date:").toList = false)
    (hm4 : containsStr line ("ExclMode:").toList = false)
    (hkind :
      (∃ rest, line = ("Block ").toList ++ rest) ∨
      (∃ rest, line = ("Toggle ").toList ++ rest) ∨
      (∃ rest, line = ("Fsm ").toList ++ rest) ∨
      (∃ rest, line = ("Condition ").toList ++ rest) ∨
      (∃ rest, line = ("Transition ").toList ++ rest ∧
        findStrFrom rest ('-' :: ['>']) 0 ≠ NPOS ∧
        findCharFrom rest ' ' (findStrFrom rest ('-' :: ['>']) 0) ≠ NPOS)) :
    (parseLineStep p res line).2.2 = none ∧
    (parseLineStep p res line).1.data = p.data ∧
    (parseLineStep p res line).1.pendingAnnot = p.pendingAnnot ∧
    (parseLineStep p res line).2.1.exclusionsParsed = res.exclusionsParsed + 1 ∧
    (parseLineStep p res line).2.1.warnings = res.warnings ∧
    (parseLineStep p res line).2.1.blockCount + (parseLineStep p res line).2.1.toggleCount +
        (parseLineStep p res line).2.1.fsmCount + (parseLineStep p res line).2.1.conditionCount =
      res.blockCount + res.toggleCount + res.fsmCount + res.conditionCount + 1 := by
  have hq : ({ p with currentLineNumber := p.currentLineNumber + 1 } : Parser).currentScope = [] := hs
  rcases hkind with ⟨rest, hr⟩ | ⟨rest, hr⟩ | ⟨rest, hr⟩ | ⟨rest, hr⟩ | ⟨rest, hr, ha, hb⟩ <;> subst hr
  · have hH : ∀ q, parseHeader (("Block ").toList ++ rest) q = none :=
      fun q => parseHeader_none _ q hm1 hm2 hm3 hm4
    have hB := parseBlockExclusion_no_scope rest _ hq
    have hstep : parseLineStep p res (("Block ").toList ++ rest) =
        ({ p with currentLineNumber := p.currentLineNumber + 1 },
         { res with linesProcessed := res.linesProcessed + 1,
                    exclusionsParsed := res.exclusionsParsed + 1,
                    blockCount := res.blockCount + 1 }, none) := by
      simp only [parseLineStep, htrim, hH, hB]
      rfl
    rw [hstep]
    exact ⟨rfl, rfl, rfl, rfl, rfl, by simp <;> omega⟩
  · have hH : ∀ q, parseHeader (("Toggle ").toList ++ rest) q = none :=
      fun q => parseHeader_none _ q hm1 hm2 hm3 hm4
    have hT := parseToggleExclusion_no_scope rest _ hq
    have hstep : parseLineStep p res (("Toggle ").toList ++ rest) =
        ({ p with currentLineNumber := p.currentLineNumber + 1 },
         { res with linesProcessed := res.linesProcessed + 1,
                    exclusionsParsed := res.exclusionsParsed + 1,
                    toggleCount := res.toggleCount + 1 }, none) := by
      simp only [parseLineStep, htrim, hH, hT]
      rfl
    rw [hstep]
    exact ⟨rfl, rfl, rfl, rfl, rfl, by simp <;> omega⟩
  · have hH : ∀ q, parseHeader (("Fsm ").toList ++ rest) q = none :=
      fun q => parseHeader_none _ q hm1 hm2 hm3 hm4
    have hF := parseFsmExclusion_no_scope rest _ hq
    have hstep : parseLineStep p res (("Fsm ").toList ++ rest) =
        ({ p with currentLineNumber := p.currentLineNumber + 1 },
         { res with linesProcessed := res.linesProcessed + 1,
                    exclusionsParsed := res.exclusionsParsed + 1,
                    fsmCount := res.fsmCount + 1 }, none) := by
      simp only [parseLineStep, htrim, hH, hF]
      rfl
    rw [hstep]
    exact ⟨rfl, rfl, rfl, rfl, rfl, by simp <;> omega⟩
  · have hH : ∀ q, parseHeader (("Condition ").toList ++ rest) q = none :=
      fun q => parseHeader_none _ q hm1 hm2 hm3 hm4
    have hCd := parseConditionExclusion_no_scope rest _ hq
    have hstep : parseLineStep p res (("Condition ").toList ++ rest) =
        ({ p with currentLineNumber := p.currentLineNumber + 1 },
         { res with linesProcessed := res.linesProcessed + 1,
                    exclusionsParsed := res.exclusionsParsed + 1,
                    conditionCount := res.conditionCount + 1 }, none) := by
      simp only [parseLineStep, htrim, hH, hCd]
      rfl
    rw [hstep]
    exact ⟨rfl, rfl, rfl, rfl, rfl, by simp <;> omega⟩
  · have hH : ∀ q, parseHeader (("Transition ").toList ++ rest) q = none :=
      fun q => parseHeader_none _ q hm1 hm2 hm3 hm4
    have hTr := parseTransition_no_scope rest _ hq ha hb
    have hstep : parseLineStep p res (("Transition ").toList ++ rest) =
        ({ p with currentLineNumber := p.currentLineNumber + 1 },
         { res with linesProcessed := res.linesProcessed + 1,
                    exclusionsParsed := res.exclusionsParsed + 1,
                    fsmCount := res.fsmCount + 1 }, none) := by
      simp only [parseLineStep, htrim, hH, hTr]
      rfl
    rw [hstep]
    exact ⟨rfl, rfl, rfl, rfl, rfl, by simp <;> omega⟩

/-- C10 witness: a `Toggle` line with no scope current and an annotation
pending. -/
theorem c10_exclusion_line_without_scope_witness :
    ({ Parser.init ParserConfig.default with pendingAnnot := ("keep").toList } : Parser).currentScope = [] ∧
    ((parseLineStep { Parser.init ParserConfig.default with pendingAnnot := ("keep").toList }
        ParseResult.init (("Toggle sig \"d\"").toList)).2.2 = none ∧
      (parseLineStep { Parser.init ParserConfig.default with pendingAnnot := ("keep").toList }
        ParseResult.init (("Toggle sig \"d\"").toList)).1.data =
        ({ Parser.init ParserConfig.default with pendingAnnot := ("keep").toList } : Parser).data ∧
      (parseLineStep { Parser.init ParserConfig.default with pendingAnnot := ("keep").toList }
        ParseResult.init (("Toggle sig \"d\"").toList)).1.pendingAnnot =
        ({ Parser.init ParserConfig.default with pendingAnnot := ("keep").toList } : Parser).pendingAnnot ∧
      (parseLineStep { Parser.init ParserConfig.default with pendingAnnot := ("keep").toList }
        ParseResult.init (("Toggle sig \"d\"").toList)).2.1.exclusionsParsed =
        ParseResult.init.exclusionsParsed + 1 ∧
      (parseLineStep { Parser.init ParserConfig.default with pendingAnnot := ("keep").toList }
        ParseResult.init (("Toggle sig \"d\"").toList)).2.1.warnings = ParseResult.init.warnings ∧
      (parseLineStep { Parser.init ParserConfig.default with pendingAnnot := ("keep").toList }
          ParseResult.init (("Toggle sig \"d\"").toList)).2.1.blockCount +
          (parseLineStep { Parser.init ParserConfig.default with pendingAnnot := ("keep").toList }
            ParseResult.init (("Toggle sig \"d\"").toList)).2.1.toggleCount +
          (parseLineStep { Parser.init ParserConfig.default with pendingAnnot := ("keep").toList }
            ParseResult.init (("Toggle sig \"d\"").toList)).2.1.fsmCount +
          (parseLineStep { Parser.init ParserConfig.default with pendingAnnot := ("keep").toList }
            ParseResult.init (("Toggle sig \"d\"").toList)).2.1.conditionCount =
        ParseResult.init.blockCount + ParseResult.init.toggleCount + ParseResult.init.fsmCount +
          ParseResult.init.conditionCount + 1) := by
  refine ⟨rfl, ?_⟩
  exact c10_exclusion_line_without_scope _ _ _ rfl (by decide) (by decide) (by decide)
    (by decide) (by decide)
    (Or.inr (Or.inl ⟨("sig \"d\"").toList, by decide⟩))

/-! ## Claim C5 — merge monotonicity -/

/-- Sum of a Nat-valued observation over the values of an association list. -/
def sumVals {α : Type} (f : α → Nat) (m : List (Str × α)) : Nat :=
  (m.map (fun p => f p.2)).sum

theorem sumVals_cons {α : Type} (f : α → Nat) (p : Str × α) (tl : List (Str × α)) :
    sumVals f (p :: tl) = f p.2 + sumVals f tl := by
  simp [sumVals]

theorem alistSet_of_none {α : Type} (m : List (Str × α)) (k : Str) (v : α)
    (h : alistGet? m k = none) : alistSet m k v = m ++ [(k, v)] := by
  induction m with
  | nil => simp [alistSet]
  | cons hd tl ih =>
    obtain ⟨k1, v1⟩ := hd
    by_cases hk : k1 = k
    · simp [alistGet?, hk] at h
    · simp only [alistGet?, if_neg hk] at h
      simp [alistSet, hk, ih h]

theorem sumVals_alistSet_some {α : Type} (f : α → Nat) (m : List (Str × α))
    (k : Str) (v w : α) (h : alistGet? m k = some w) :
    sumVals f (alistSet m k v) + f w = sumVals f m + f v := by
  induction m with
  | nil => simp [alistGet?] at h
  | cons hd tl ih =>
    obtain ⟨k1, v1⟩ := hd
    by_cases hk : k1 = k
    · subst hk
      simp [alistGet?] at h
      subst h
      simp [alistSet, sumVals_cons]
      omega
    · simp only [alistGet?, if_neg hk] at h
      simp only [alistSet, if_neg hk, sumVals_cons]
      have := ih h
      omega

theorem sumLens_alistPush {α : Type} (m : List (Str × List α)) (k : Str) (v : α) :
    sumLens (alistPush m k v) = sumLens m + 1 := by
  induction m with
  | nil => simp [alistPush, sumLens]
  | cons hd tl ih =>
    obtain ⟨k1, l⟩ := hd
    by_cases hk : k1 = k
    · simp [alistPush, hk, sumLens]
      omega
    · simp [alistPush, hk, sumLens] at ih ⊢
      omega

/-! Field-invariance facts for the four record-merge loops. -/

theorem foldl_addToggle_fields (ts : List ToggleExclusion) (acc : ExclusionScope) :
    ((ts.foldl ExclusionScope.addToggleExclusion acc).blockExclusions = acc.blockExclusions) ∧
    ((ts.foldl ExclusionScope.addToggleExclusion acc).fsmExclusions = acc.fsmExclusions) ∧
    ((ts.foldl ExclusionScope.addToggleExclusion acc).conditionExclusions = acc.conditionExclusions) ∧
    sumLens (ts.foldl ExclusionScope.addToggleExclusion acc).toggleExclusions =
      sumLens acc.toggleExclusions + ts.length := by
  induction ts generalizing acc with
  | nil => simp
  | cons t tl ih =>
    simp only [List.foldl_cons, List.length_cons]
    obtain ⟨h1, h2, h3, h4⟩ := ih (acc.addToggleExclusion t)
    refine ⟨h1, h2, h3, ?_⟩
    rw [h4]
    simp [ExclusionScope.addToggleExclusion, sumLens_alistPush]
    omega

theorem foldl_toggleOuter_fields (l : List (Str × List ToggleExclusion))
    (acc : ExclusionScope) :
    ((l.foldl (fun (acc : ExclusionScope) tp =>
        tp.2.foldl ExclusionScope.addToggleExclusion acc) acc).blockExclusions =
      acc.blockExclusions) ∧
    ((l.foldl (fun (acc : ExclusionScope) tp =>
        tp.2.foldl ExclusionScope.addToggleExclusion acc) acc).fsmExclusions =
      acc.fsmExclusions) ∧
    ((l.foldl (fun (acc : ExclusionScope) tp =>
        tp.2.foldl ExclusionScope.addToggleExclusion acc) acc).conditionExclusions =
      acc.conditionExclusions) ∧
    sumLens (l.foldl (fun (acc : ExclusionScope) tp =>
        tp.2.foldl ExclusionScope.addToggleExclusion acc) acc).toggleExclusions =
      sumLens acc.toggleExclusions + sumLens l := by
  induction l generalizing acc with
  | nil => simp [sumLens]
  | cons tp tl ih =>
    simp only [List.foldl_cons]
    obtain ⟨h1, h2, h3, h4⟩ := ih (tp.2.foldl ExclusionScope.addToggleExclusion acc)
    obtain ⟨g1, g2, g3, g4⟩ := foldl_addToggle_fields tp.2 acc
    refine ⟨h1.trans g1, h2.trans g2, h3.trans g3, ?_⟩
    rw [h4, g4]
    simp [sumLens]
    omega

theorem foldl_addFsm_fields (fs : List FsmExclusion) (acc : ExclusionScope) :
    ((fs.foldl ExclusionScope.addFsmExclusion acc).blockExclusions = acc.blockExclusions) ∧
    ((fs.foldl ExclusionScope.addFsmExclusion acc).toggleExclusions = acc.toggleExclusions) ∧
    ((fs.foldl ExclusionScope.addFsmExclusion acc).conditionExclusions = acc.conditionExclusions) ∧
    sumLens (fs.foldl ExclusionScope.addFsmExclusion acc).fsmExclusions =
      sumLens acc.fsmExclusions + fs.length := by
  induction fs generalizing acc with
  | nil => simp
  | cons f tl ih =>
    simp only [List.foldl_cons, List.length_cons]
    obtain ⟨h1, h2, h3, h4⟩ := ih (acc.addFsmExclusion f)
    refine ⟨h1, h2, h3, ?_⟩
    rw [h4]
    simp [ExclusionScope.addFsmExclusion, sumLens_alistPush]
    omega

theorem foldl_fsmOuter_fields (l : List (Str × List FsmExclusion))
    (acc : ExclusionScope) :
    ((l.foldl (fun (acc : ExclusionScope) fp =>
        fp.2.foldl ExclusionScope.addFsmExclusion acc) acc).blockExclusions =
      acc.blockExclusions) ∧
    ((l.foldl (fun (acc : ExclusionScope) fp =>
        fp.2.foldl ExclusionScope.addFsmExclusion acc) acc).toggleExclusions =
      acc.toggleExclusions) ∧
    ((l.foldl (fun (acc : ExclusionScope) fp =>
        fp.2.foldl ExclusionScope.addFsmExclusion acc) acc).conditionExclusions =
      acc.conditionExclusions) ∧
    sumLens (l.foldl (fun (acc : ExclusionScope) fp =>
        fp.2.foldl ExclusionScope.addFsmExclusion acc) acc).fsmExclusions =
      sumLens acc.fsmExclusions + sumLens l := by
  induction l generalizing acc with
  | nil => simp [sumLens]
  | cons fp tl ih =>
    simp only [List.foldl_cons]
    obtain ⟨h1, h2, h3, h4⟩ := ih (fp.2.foldl ExclusionScope.addFsmExclusion acc)
    obtain ⟨g1, g2, g3, g4⟩ := foldl_addFsm_fields fp.2 acc
    refine ⟨h1.trans g1, h2.trans g2, h3.trans g3, ?_⟩
    rw [h4, g4]
    simp [sumLens]
    omega

theorem mergeBlockStep_fields (ow : Bool) (acc : ExclusionScope)
    (bp : Str × BlockExclusion) :
    ((mergeBlockStep ow acc bp).toggleExclusions = acc.toggleExclusions) ∧
    ((mergeBlockStep ow acc bp).fsmExclusions = acc.fsmExclusions) ∧
    ((mergeBlockStep ow acc bp).conditionExclusions = acc.conditionExclusions) := by
  unfold mergeBlockStep
  split <;> exact ⟨rfl, rfl, rfl⟩

theorem foldl_mergeBlockStep_fields (ow : Bool) (l : List (Str × BlockExclusion))
    (acc : ExclusionScope) :
    ((l.foldl (mergeBlockStep ow) acc).toggleExclusions = acc.toggleExclusions) ∧
    ((l.foldl (mergeBlockStep ow) acc).fsmExclusions = acc.fsmExclusions) ∧
    ((l.foldl (mergeBlockStep ow) acc).conditionExclusions = acc.conditionExclusions) := by
  induction l generalizing acc with
  | nil => exact ⟨rfl, rfl, rfl⟩
  | cons bp tl ih =>
    simp only [List.foldl_cons]
    obtain ⟨h1, h2, h3⟩ := ih (mergeBlockStep ow acc bp)
    obtain ⟨g1, g2, g3⟩ := mergeBlockStep_fields ow acc bp
    exact ⟨h1.trans g1, h2.trans g2, h3.trans g3⟩

theorem mergeCondStep_fields (ow : Bool) (acc : ExclusionScope)
    (cp : Str × ConditionExclusion) :
    ((mergeCondStep ow acc cp).blockExclusions = acc.blockExclusions) ∧
    ((mergeCondStep ow acc cp).toggleExclusions = acc.toggleExclusions) ∧
    ((mergeCondStep ow acc cp).fsmExclusions = acc.fsmExclusions) := by
  unfold mergeCondStep
  split <;> exact ⟨rfl, rfl, rfl⟩

theorem foldl_mergeCondStep_fields (ow : Bool) (l : List (Str × ConditionExclusion))
    (acc : ExclusionScope) :
    ((l.foldl (mergeCondStep ow) acc).blockExclusions = acc.blockExclusions) ∧
    ((l.foldl (mergeCondStep ow) acc).toggleExclusions = acc.toggleExclusions) ∧
    ((l.foldl (mergeCondStep ow) acc).fsmExclusions = acc.fsmExclusions) := by
  induction l generalizing acc with
  | nil => exact ⟨rfl, rfl, rfl⟩
  | cons cp tl ih =>
    simp only [List.foldl_cons]
    obtain ⟨h1, h2, h3⟩ := ih (mergeCondStep ow acc cp)
    obtain ⟨g1, g2, g3⟩ := mergeCondStep_fields ow acc cp
    exact ⟨h1.trans g1, h2.trans g2, h3.trans g3⟩

theorem foldl_mergeBlockStep_preserves (l : List (Str × BlockExclusion))
    (acc : ExclusionScope) (id : Str) (b : BlockExclusion)
    (h : alistGet? acc.blockExclusions id = some b) :
    alistGet? ((l.foldl (mergeBlockStep false) acc).blockExclusions) id = some b := by
  induction l generalizing acc with
  | nil => exact h
  | cons bp tl ih =>
    simp only [List.foldl_cons]
    apply ih
    unfold mergeBlockStep
    by_cases hk : bp.1 = id
    · subst hk
      simp [h]
    · split
      · simpa [alistGet?_alistSet_ne _ _ _ _ (fun he => hk he.symm)] using h
      · exact h

theorem foldl_mergeCondStep_preserves (l : List (Str × ConditionExclusion))
    (acc : ExclusionScope) (id : Str) (c : ConditionExclusion)
    (h : alistGet? acc.conditionExclusions id = some c) :
    alistGet? ((l.foldl (mergeCondStep false) acc).conditionExclusions) id = some c := by
  induction l generalizing acc with
  | nil => exact h
  | cons cp tl ih =>
    simp only [List.foldl_cons]
    apply ih
    unfold mergeCondStep
    by_cases hk : cp.1 = id
    · subst hk
      simp [h]
    · split
      · simpa [alistGet?_alistSet_ne _ _ _ _ (fun he => hk he.symm)] using h
      · exact h

theorem mergeScopeRecords_toggles (e o : ExclusionScope) :
    sumLens (mergeScopeRecords e o false).toggleExclusions =
      sumLens e.toggleExclusions + sumLens o.toggleExclusions := by
  unfold mergeScopeRecords
  obtain ⟨c1, c2, c3⟩ := foldl_mergeCondStep_fields false o.conditionExclusions _
  rw [c2]
  obtain ⟨f1, f2, f3, f4⟩ := foldl_fsmOuter_fields o.fsmExclusions _
  rw [f2]
  obtain ⟨t1, t2, t3, t4⟩ := foldl_toggleOuter_fields o.toggleExclusions _
  rw [t4]
  obtain ⟨b1, b2, b3⟩ := foldl_mergeBlockStep_fields false o.blockExclusions e
  rw [b1]

theorem mergeScopeRecords_fsms (e o : ExclusionScope) :
    sumLens (mergeScopeRecords e o false).fsmExclusions =
      sumLens e.fsmExclusions + sumLens o.fsmExclusions := by
  unfold mergeScopeRecords
  obtain ⟨c1, c2, c3⟩ := foldl_mergeCondStep_fields false o.conditionExclusions _
  rw [c3]
  obtain ⟨f1, f2, f3, f4⟩ := foldl_fsmOuter_fields o.fsmExclusions _
  rw [f4]
  obtain ⟨t1, t2, t3, t4⟩ := foldl_toggleOuter_fields o.toggleExclusions _
  rw [t2]
  obtain ⟨b1, b2, b3⟩ := foldl_mergeBlockStep_fields false o.blockExclusions e
  rw [b2]

theorem mergeScopeRecords_block_preserves (e o : ExclusionScope) (id : Str)
    (b : BlockExclusion) (h : alistGet? e.blockExclusions id = some b) :
    alistGet? (mergeScopeRecords e o false).blockExclusions id = some b := by
  unfold mergeScopeRecords
  obtain ⟨c1, c2, c3⟩ := foldl_mergeCondStep_fields false o.conditionExclusions _
  rw [c1]
  obtain ⟨f1, f2, f3, f4⟩ := foldl_fsmOuter_fields o.fsmExclusions _
  rw [f1]
  obtain ⟨t1, t2, t3, t4⟩ := foldl_toggleOuter_fields o.toggleExclusions _
  rw [t1]
  exact foldl_mergeBlockStep_preserves o.blockExclusions e id b h

theorem mergeScopeRecords_cond_preserves (e o : ExclusionScope) (id : Str)
    (c : ConditionExclusion) (h : alistGet? e.conditionExclusions id = some c) :
    alistGet? (mergeScopeRecords e o false).conditionExclusions id = some c := by
  unfold mergeScopeRecords
  apply foldl_mergeCondStep_preserves
  obtain ⟨f1, f2, f3, f4⟩ := foldl_fsmOuter_fields o.fsmExclusions _
  rw [f3]
  obtain ⟨t1, t2, t3, t4⟩ := foldl_toggleOuter_fields o.toggleExclusions _
  rw [t3]
  obtain ⟨b1, b2, b3⟩ := foldl_mergeBlockStep_fields false o.blockExclusions e
  rw [b3]
  exact h

/-- Database-level toggle-record count (the `TOGGLE` entry of
`getExclusionCountsByType`). -/
def dataToggles (d : ExclusionData) : Nat :=
  sumVals (fun s => sumLens s.toggleExclusions) d.scopes

/-- Database-level FSM-record count (the `FSM` entry of
`getExclusionCountsByType`). -/
def dataFsms (d : ExclusionData) : Nat :=
  sumVals (fun s => sumLens s.fsmExclusions) d.scopes

theorem mergeScopeStep_toggles (acc : ExclusionData) (sp : Str × ExclusionScope) :
    dataToggles (mergeScopeStep false acc sp) =
      dataToggles acc + sumLens sp.2.toggleExclusions := by
  unfold mergeScopeStep
  cases h : alistGet? acc.scopes sp.1 with
  | none =>
    simp [dataToggles, alistSet_of_none _ _ _ h, sumVals]
  | some e =>
    simp only [Bool.false_eq_true, if_false, dataToggles]
    have hx := sumVals_alistSet_some (fun s => sumLens s.toggleExclusions)
      acc.scopes sp.1 (mergeScopeRecords e sp.2 false) e h
    simp only [] at hx
    rw [mergeScopeRecords_toggles] at hx
    omega

theorem mergeScopeStep_fsms (acc : ExclusionData) (sp : Str × ExclusionScope) :
    dataFsms (mergeScopeStep false acc sp) =
      dataFsms acc + sumLens sp.2.fsmExclusions := by
  unfold mergeScopeStep
  cases h : alistGet? acc.scopes sp.1 with
  | none =>
    simp [dataFsms, alistSet_of_none _ _ _ h, sumVals]
  | some e =>
    simp only [Bool.false_eq_true, if_false, dataFsms]
    have hx := sumVals_alistSet_some (fun s => sumLens s.fsmExclusions)
      acc.scopes sp.1 (mergeScopeRecords e sp.2 false) e h
    simp only [] at hx
    rw [mergeScopeRecords_fsms] at hx
    omega

theorem merge_fold_toggles (l : List (Str × ExclusionScope)) (acc : ExclusionData) :
    dataToggles (l.foldl (mergeScopeStep false) acc) =
      dataToggles acc + sumVals (fun s => sumLens s.toggleExclusions) l := by
  induction l generalizing acc with
  | nil => simp [sumVals]
  | cons sp tl ih =>
    simp only [List.foldl_cons]
    rw [ih, mergeScopeStep_toggles, sumVals_cons]
    omega

theorem merge_fold_fsms (l : List (Str × ExclusionScope)) (acc : ExclusionData) :
    dataFsms (l.foldl (mergeScopeStep false) acc) =
      dataFsms acc + sumVals (fun s => sumLens s.fsmExclusions) l := by
  induction l generalizing acc with
  | nil => simp [sumVals]
  | cons sp tl ih =>
    simp only [List.foldl_cons]
    rw [ih, mergeScopeStep_fsms, sumVals_cons]
    omega

theorem mergeScopeStep_block_preserves (acc : ExclusionData) (sp : Str × ExclusionScope)
    (sn id : Str) (b : BlockExclusion)
    (h : ∃ s, alistGet? acc.scopes sn = some s ∧ alistGet? s.blockExclusions id = some b) :
    ∃ s, alistGet? (mergeScopeStep false acc sp).scopes sn = some s ∧
      alistGet? s.blockExclusions id = some b := by
  obtain ⟨s, hs, hb⟩ := h
  unfold mergeScopeStep
  cases hl : alistGet? acc.scopes sp.1 with
  | none =>
    by_cases hk : sp.1 = sn
    · subst hk
      rw [hl] at hs
      cases hs
    · exact ⟨s, by simpa [alistGet?_alistSet_ne _ _ _ _ (fun he => hk he.symm)] using hs, hb⟩
  | some e =>
    simp only [Bool.false_eq_true, if_false]
    by_cases hk : sp.1 = sn
    · subst hk
      rw [hl] at hs
      cases hs
      exact ⟨mergeScopeRecords s sp.2 false, by simp [alistGet?_alistSet_self],
        mergeScopeRecords_block_preserves s sp.2 id b hb⟩
    · exact ⟨s, by simpa [alistGet?_alistSet_ne _ _ _ _ (fun he => hk he.symm)] using hs, hb⟩

theorem mergeScopeStep_cond_preserves (acc : ExclusionData) (sp : Str × ExclusionScope)
    (sn id : Str) (c : ConditionExclusion)
    (h : ∃ s, alistGet? acc.scopes sn = some s ∧ alistGet? s.conditionExclusions id = some c) :
    ∃ s, alistGet? (mergeScopeStep false acc sp).scopes sn = some s ∧
      alistGet? s.conditionExclusions id = some c := by
  obtain ⟨s, hs, hc⟩ := h
  unfold mergeScopeStep
  cases hl : alistGet? acc.scopes sp.1 with
  | none =>
    by_cases hk : sp.1 = sn
    · subst hk
      rw [hl] at hs
      cases hs
    · exact ⟨s, by simpa [alistGet?_alistSet_ne _ _ _ _ (fun he => hk he.symm)] using hs, hc⟩
  | some e =>
    simp only [Bool.false_eq_true, if_false]
    by_cases hk : sp.1 = sn
    · subst hk
      rw [hl] at hs
      cases hs
      exact ⟨mergeScopeRecords s sp.2 false, by simp [alistGet?_alistSet_self],
        mergeScopeRecords_cond_preserves s sp.2 id c hc⟩
    · exact ⟨s, by simpa [alistGet?_alistSet_ne _ _ _ _ (fun he => hk he.symm)] using hs, hc⟩

theorem merge_fold_block_preserves (l : List (Str × ExclusionScope)) (acc : ExclusionData)
    (sn id : Str) (b : BlockExclusion)
    (h : ∃ s, alistGet? acc.scopes sn = some s ∧ alistGet? s.blockExclusions id = some b) :
    ∃ s, alistGet? ((l.foldl (mergeScopeStep false) acc).scopes) sn = some s ∧
      alistGet? s.blockExclusions id = some b := by
  induction l generalizing acc with
  | nil => exact h
  | cons sp tl ih =>
    simp only [List.foldl_cons]
    exact ih _ (mergeScopeStep_block_preserves acc sp sn id b h)

theorem merge_fold_cond_preserves (l : List (Str × ExclusionScope)) (acc : ExclusionData)
    (sn id : Str) (c : ConditionExclusion)
    (h : ∃ s, alistGet? acc.scopes sn = some s ∧ alistGet? s.conditionExclusions id = some c) :
    ∃ s, alistGet? ((l.foldl (mergeScopeStep false) acc).scopes) sn = some s ∧
      alistGet? s.conditionExclusions id = some c := by
  induction l generalizing acc with
  | nil => exact h
  | cons sp tl ih =>
    simp only [List.foldl_cons]
    exact ih _ (mergeScopeStep_cond_preserves acc sp sn id c h)

/-- C5: merging B into A with `overwriteExisting = false` keeps every Block
and Condition record of A (in particular every colliding one) reachable
unchanged under its scope name and id, and grows the database-wide Toggle
and FSM record counts by exactly B's contributions. -/
theorem c5_merge_monotonic (A B : ExclusionData) :
    (∀ sn sA id b, alistGet? A.scopes sn = some sA →
        alistGet? sA.blockExclusions id = some b →
        ∃ sM, alistGet? (A.merge B false).scopes sn = some sM ∧
          alistGet? sM.blockExclusions id = some b) ∧
    (∀ sn sA id c, alistGet? A.scopes sn = some sA →
        alistGet? sA.conditionExclusions id = some c →
        ∃ sM, alistGet? (A.merge B false).scopes sn = some sM ∧
          alistGet? sM.conditionExclusions id = some c) ∧
    (A.merge B false).getExclusionCountsByType.toggles =
      A.getExclusionCountsByType.toggles + B.getExclusionCountsByType.toggles ∧
    (A.merge B false).getExclusionCountsByType.fsms =
      A.getExclusionCountsByType.fsms + B.getExclusionCountsByType.fsms := by
  refine ⟨?_, ?_, ?_, ?_⟩
  · intro sn sA id b hA hb
    exact merge_fold_block_preserves B.scopes A sn id b ⟨sA, hA, hb⟩
  · intro sn sA id c hA hc
    exact merge_fold_cond_preserves B.scopes A sn id c ⟨sA, hA, hc⟩
  · show dataToggles (A.merge B false) = dataToggles A + dataToggles B
    exact merge_fold_toggles B.scopes A
  · show dataFsms (A.merge B false) = dataFsms A + dataFsms B
    exact merge_fold_fsms B.scopes A

/-! ## Claim C1 — round trip: string-scanning lemmas -/

theorem trim_eq_self_of_ends (l : Str) (c d : Char) (hh : l.head? = some c)
    (hc : isWsChar c = false) (hl : l.getLast? = some d) (hd : isWsChar d = false) :
    trim l = l := by
  unfold trim
  have h1 : l.dropWhile isWsChar = l := by
    cases l with
    | nil => rfl
    | cons a t =>
      cases hh
      simp [List.dropWhile_cons, hc]
  rw [h1]
  have h2 : l.reverse.dropWhile isWsChar = l.reverse := by
    cases hr : l.reverse with
    | nil => rfl
    | cons a t =>
      have : l.reverse.head? = some d := by
        rw [List.head?_reverse]
        exact hl
      rw [hr] at this
      cases this
      simp [List.dropWhile_cons, hd]
  rw [h2, List.reverse_reverse]

theorem findCharIdx?_append_of_not_mem (c : Char) (x y : Str) (h : c ∉ x) :
    findCharIdx? c (x ++ y) = (findCharIdx? c y).map (· + x.length) := by
  induction x with
  | nil => simp [Option.map_id]
  | cons a t ih =>
    have ha : a ≠ c := fun he => h (by simp [he])
    have ht : c ∉ t := fun hm => h (by simp [hm])
    simp only [List.cons_append, findCharIdx?, if_neg ha, List.append_eq, ih ht,
      List.length_cons, Option.map_map]
    cases findCharIdx? c y with
    | none => rfl
    | some i =>
      simp only [Option.map_some', Function.comp]
      exact congrArg some (by omega)

theorem findCharIdx?_at_head (c : Char) (r : Str) :
    findCharIdx? c (c :: r) = some 0 := by
  simp [findCharIdx?]

theorem findCharIdx?_split (c : Char) (x r : Str) (h : c ∉ x) :
    findCharIdx? c (x ++ c :: r) = some x.length := by
  rw [findCharIdx?_append_of_not_mem c x _ h, findCharIdx?_at_head]
  simp

theorem drop_append_le (n : Nat) (x y : Str) (h : n ≤ x.length) :
    (x ++ y).drop n = x.drop n ++ y := by
  induction x generalizing n with
  | nil =>
    have : n = 0 := by simpa using h
    subst this
    simp
  | cons a t ih =>
    cases n with
    | zero => simp
    | succ m =>
      simp only [List.cons_append, List.drop_succ_cons]
      exact ih m (by simpa using h)

theorem drop_append_ge (n : Nat) (x y : Str) (h : x.length ≤ n) :
    (x ++ y).drop n = y.drop (n - x.length) := by
  induction x generalizing n with
  | nil => simp
  | cons a t ih =>
    cases n with
    | zero =>
      simp at h
    | succ m =>
      simp only [List.cons_append, List.drop_succ_cons, List.length_cons]
      rw [ih m (by simpa using h)]
      congr 1
      omega

theorem take_append_self (x y : Str) : (x ++ y).take x.length = x := by
  simp

theorem extractQuotedString_spec (L l1 m r : Str) (start : Nat)
    (hL : L = l1 ++ ('"' :: (m ++ ('"' :: r))))
    (h1 : start ≤ l1.length) (hq1 : '"' ∉ l1.drop start) (hq2 : '"' ∉ m)
    (hb : l1.length + m.length + 1 < NPOS) :
    extractQuotedString L start = (m, l1.length + m.length + 2) := by
  subst hL
  have hb2 : l1.length + m.length + 1 < 18446744073709551615 := hb
  have hd1 : (l1 ++ ('"' :: (m ++ ('"' :: r)))).drop start =
      l1.drop start ++ ('"' :: (m ++ ('"' :: r))) :=
    drop_append_le start l1 ('"' :: (m ++ ('"' :: r))) h1
  have hd2 : (l1 ++ ('"' :: (m ++ ('"' :: r)))).drop (l1.length + 1) =
      m ++ ('"' :: r) := by
    rw [drop_append_ge _ _ _ (by omega)]
    have he : l1.length + 1 - l1.length = 1 := by omega
    rw [he]
    simp
  have hf1 : findCharFrom (l1 ++ ('"' :: (m ++ ('"' :: r)))) '"' start = l1.length := by
    unfold findCharFrom
    rw [hd1, findCharIdx?_split _ _ _ hq1]
    show start + (l1.drop start).length = l1.length
    simp only [List.length_drop]
    omega
  have hf2 : findCharFrom (l1 ++ ('"' :: (m ++ ('"' :: r)))) '"' (l1.length + 1) =
      l1.length + 1 + m.length := by
    unfold findCharFrom
    rw [hd2, findCharIdx?_split _ _ _ hq2]
  unfold extractQuotedString
  rw [hf1, if_neg (by unfold NPOS; omega), hf2, if_neg (by unfold NPOS; omega)]
  unfold substrLen
  have he2 : l1.length + 1 + m.length - l1.length - 1 = m.length := by omega
  rw [he2, hd2, take_append_self m _]
  have h3 : l1.length + 1 + m.length + 1 = l1.length + m.length + 2 := by omega
  rw [h3]

theorem takeWhile_token_append (t : Str) (r : Str)
    (h : ∀ c ∈ t, isWsChar c = false) :
    (t ++ ' ' :: r).takeWhile (fun c => !(isWsChar c)) = t ∧
    (t ++ ' ' :: r).dropWhile (fun c => !(isWsChar c)) = ' ' :: r := by
  induction t with
  | nil => simp [List.takeWhile_cons, List.dropWhile_cons, isWsChar]
  | cons a u ih =>
    have ha : isWsChar a = false := h a (by simp)
    have hu : ∀ c ∈ u, isWsChar c = false := fun c hc => h c (by simp [hc])
    obtain ⟨ih1, ih2⟩ := ih hu
    constructor
    · simp [List.takeWhile_cons, ha, ih1]
    · simp [List.dropWhile_cons, ha, ih2]

theorem readTok_token (t r : Str) (hne : t ≠ [])
    (h : ∀ c ∈ t, isWsChar c = false) :
    readTok (t ++ ' ' :: r) = (t, ' ' :: r) := by
  obtain ⟨tw, dw⟩ := takeWhile_token_append t r h
  unfold readTok
  have hdrop : (t ++ ' ' :: r).dropWhile isWsChar = t ++ ' ' :: r := by
    cases t with
    | nil => exact absurd rfl hne
    | cons a u =>
      have ha : isWsChar a = false := h a (by simp)
      simp [List.dropWhile_cons, ha]
  rw [hdrop]
  simp [tw, dw]

theorem readTok_space (l : Str) : readTok (' ' :: l) = readTok l := by
  unfold readTok
  simp [List.dropWhile_cons, isWsChar]

theorem findSubIdx?_le_of_occurs (pat x : Str) :
    ∀ l, (∃ y, l = x ++ (pat ++ y)) →
      ∃ j ≤ x.length, findSubIdx? pat l = some j := by
  induction x with
  | nil =>
    intro l hl
    obtain ⟨y, hy⟩ := hl
    subst hy
    refine ⟨0, Nat.le_refl 0, ?_⟩
    have hw : pat.isPrefixOf (pat ++ y) = true := startsWithStr_append_self pat y
    cases hpy : pat ++ y with
    | nil =>
      have hpn : pat = [] := (List.append_eq_nil.mp hpy).1
      subst hpn
      simp [findSubIdx?]
    | cons a t =>
      rw [hpy] at hw
      show findSubIdx? pat (a :: t) = some 0
      unfold findSubIdx?
      rw [hw, if_pos rfl]
  | cons a t ih =>
    intro l hl
    obtain ⟨y, hy⟩ := hl
    subst hy
    by_cases hp : List.isPrefixOf pat (a :: (t ++ (pat ++ y))) = true
    · refine ⟨0, Nat.zero_le _, ?_⟩
      show findSubIdx? pat (a :: (t ++ (pat ++ y))) = some 0
      unfold findSubIdx?
      rw [hp, if_pos rfl]
    · obtain ⟨j, hj, hf⟩ := ih (t ++ (pat ++ y)) ⟨y, rfl⟩
      refine ⟨j + 1, by simp; omega, ?_⟩
      show findSubIdx? pat (a :: (t ++ (pat ++ y))) = some (j + 1)
      have hpf : List.isPrefixOf pat (a :: (t ++ (pat ++ y))) = false := by
        cases h2 : List.isPrefixOf pat (a :: (t ++ (pat ++ y))) with
        | false => rfl
        | true => exact absurd h2 hp
      unfold findSubIdx?
      rw [hpf, if_neg (by simp), hf]
      rfl

theorem alistSet_alistSet_same {α : Type} (m : List (Str × α)) (k : Str) (v w : α) :
    alistSet (alistSet m k v) k w = alistSet m k w := by
  induction m with
  | nil => simp [alistSet]
  | cons hd tl ih =>
    obtain ⟨k1, v1⟩ := hd
    by_cases hk : k1 = k
    · simp [alistSet, hk]
    · simp [alistSet, hk, ih]

theorem alistGet?_eq_none_of_not_mem {α : Type} (m : List (Str × α)) (k : Str)
    (h : k ∉ m.map Prod.fst) : alistGet? m k = none := by
  induction m with
  | nil => rfl
  | cons hd tl ih =>
    obtain ⟨k1, v1⟩ := hd
    have hk : k1 ≠ k := by
      intro he
      subst he
      exact h (by rw [List.map_cons]; exact List.mem_cons_self _ _)
    have ht : k ∉ tl.map Prod.fst := by
      intro hm
      exact h (by rw [List.map_cons]; exact List.mem_cons_of_mem _ hm)
    simp [alistGet?, hk, ih ht]

theorem escapeString_of_no_quote (s : Str) (h : '"' ∉ s) : escapeString s = s := by
  induction s with
  | nil => rfl
  | cons a t ih =>
    have ha : a ≠ '"' := fun he => h (by simp [he])
    have ht : '"' ∉ t := fun hm => h (by simp [hm])
    simp [escapeString] at ih ⊢
    simp [ha, ih ht]

/-! ## Claim C1 — stream reassembly and parser-run composition -/

/-- The character stream obtained by ending every line with a newline. -/
def concatNl (L : List Str) : Str :=
  L.foldr (fun l acc => l ++ '\n' :: acc) []

theorem writeToString_default (d : ExclusionData) :
    writeToString WriterConfig.default d = concatNl (writeLines WriterConfig.default d) := by
  unfold writeToString concatNl
  induction writeLines WriterConfig.default d with
  | nil => rfl
  | cons l L ih => simp [List.foldr_cons, ih, WriterConfig.default]

theorem splitOnNl_line (l rest : Str) (h : '\n' ∉ l) :
    splitOnNl (l ++ '\n' :: rest) = l :: splitOnNl rest := by
  induction l with
  | nil => simp [splitOnNl]
  | cons a t ih =>
    have ha : a ≠ '\n' := fun he => h (by simp [he])
    have ht : '\n' ∉ t := fun hm => h (by simp [hm])
    simp only [List.cons_append, splitOnNl, if_neg ha, List.append_eq, ih ht]

theorem splitOnNl_concatNl (L : List Str) (h : ∀ l ∈ L, '\n' ∉ l) :
    splitOnNl (concatNl L) = L ++ [[]] := by
  induction L with
  | nil => rfl
  | cons l T ih =>
    have hl : '\n' ∉ l := h l (by simp)
    have hT : ∀ x ∈ T, '\n' ∉ x := fun x hx => h x (by simp [hx])
    simp only [concatNl, List.foldr_cons]
    rw [splitOnNl_line l _ hl]
    simp only [List.cons_append]
    rw [show T.foldr (fun l acc => l ++ '\n' :: acc) [] = concatNl T from rfl, ih hT]

theorem concatNl_getLast_nl (L : List Str) (hne : L ≠ []) :
    (concatNl L).getLast? = some '\n' := by
  induction L with
  | nil => exact absurd rfl hne
  | cons l T ih =>
    simp only [concatNl, List.foldr_cons]
    cases hT : T with
    | nil =>
      subst hT
      show (l ++ '\n' :: concatNl []).getLast? = some '\n'
      have : concatNl [] = [] := rfl
      rw [this]
      exact List.getLast?_concat l
    | cons x xs =>
      have hTne : T ≠ [] := by simp [hT]
      have := ih hTne
      subst hT
      show (l ++ '\n' :: concatNl (x :: xs)).getLast? = some '\n'
      rw [List.getLast?_append_cons]
      cases hc : concatNl (x :: xs) with
      | nil => rw [hc] at this; cases this
      | cons c cs =>
        rw [hc] at this
        show (('\n' :: c :: cs)).getLast? = some '\n'
        rw [List.getLast?_cons_cons]
        exact this

theorem getlineSplit_concatNl (L : List Str) (h : ∀ l ∈ L, '\n' ∉ l) (hne : L ≠ []) :
    getlineSplit (concatNl L) = L := by
  unfold getlineSplit
  have hcne : (concatNl L).isEmpty = false := by
    cases L with
    | nil => exact absurd rfl hne
    | cons l T =>
      have := concatNl_getLast_nl (l :: T) (by simp)
      cases hc : concatNl (l :: T) with
      | nil => rw [hc] at this; cases this
      | cons a b => rfl
  rw [hcne]
  simp only [Bool.false_eq_true, if_false]
  rw [concatNl_getLast_nl L hne, if_pos rfl, splitOnNl_concatNl L h]
  simp

/-- The parsing effect of a line block: running the stream parser from `p`
over the block followed by anything is running it from a parser `q` agreeing
with `q0` on configuration, database and the scope/checksum/annotation state
(the line counter and the stale-warnings sink are existentially absorbed). -/
def RunsTo (p : Parser) (lines : List Str) (q0 : Parser) : Prop :=
  ∀ res rest, ∃ q res2, parseLines p res (lines ++ rest) = parseLines q res2 rest ∧
    q.config = q0.config ∧ q.data = q0.data ∧ q.currentScope = q0.currentScope ∧
    q.currentChecksum = q0.currentChecksum ∧ q.currentIsModule = q0.currentIsModule ∧
    q.pendingAnnot = q0.pendingAnnot

theorem runsTo_nil (p : Parser) : RunsTo p [] p := by
  intro res rest
  exact ⟨p, res, rfl, rfl, rfl, rfl, rfl, rfl, rfl⟩

theorem runsTo_trans (p q0 r0 : Parser) (l1 l2 : List Str)
    (h1 : RunsTo p l1 q0)
    (h2 : ∀ q, q.config = q0.config → q.data = q0.data →
      q.currentScope = q0.currentScope → q.currentChecksum = q0.currentChecksum →
      q.currentIsModule = q0.currentIsModule → q.pendingAnnot = q0.pendingAnnot →
      RunsTo q l2 r0) :
    RunsTo p (l1 ++ l2) r0 := by
  intro res rest
  obtain ⟨q, res2, he, hc, hd, hs, hcs, hm, ha⟩ := h1 res (l2 ++ rest)
  obtain ⟨q2, res3, he2, hc2, hd2, hs2, hcs2, hm2, ha2⟩ :=
    h2 q hc hd hs hcs hm ha res2 rest
  refine ⟨q2, res3, ?_, hc2, hd2, hs2, hcs2, hm2, ha2⟩
  rw [List.append_assoc, he, he2]

theorem runsTo_single (p q0 : Parser) (x : Str)
    (h : ∀ res, ∃ q res1, parseLineStep p res x = (q, res1, none) ∧
      q.config = q0.config ∧ q.data = q0.data ∧ q.currentScope = q0.currentScope ∧
      q.currentChecksum = q0.currentChecksum ∧ q.currentIsModule = q0.currentIsModule ∧
      q.pendingAnnot = q0.pendingAnnot) :
    RunsTo p [x] q0 := by
  intro res rest
  obtain ⟨q, res1, he, hc, hd, hs, hcs, hm, ha⟩ := h res
  refine ⟨q, res1, ?_, hc, hd, hs, hcs, hm, ha⟩
  show parseLines p res (x :: rest) = parseLines q res1 rest
  simp only [parseLines]
  rw [he]

/-! ## Claim C1 — the effect of each emitted line -/

theorem trim_cons_ws (a : Char) (l : Str) (h : isWsChar a = true) :
    trim (a :: l) = trim l := by
  unfold trim
  rw [List.dropWhile_cons, h]
  simp

theorem getLast?_wrap (c : Char) (cs : Str) (d : Char) :
    (c :: (cs ++ [d])).getLast? = some d := by
  rw [show c :: (cs ++ [d]) = (c :: cs) ++ [d] from rfl]
  exact List.getLast?_concat _

theorem stripQuotes_wrap (cs : Str) : stripQuotes ('"' :: (cs ++ ['"'])) = cs := by
  unfold stripQuotes strFront strBack
  have hlast : ('"' :: (cs ++ ['"'])).getLastD (Char.ofNat 0) = '"' := by
    rw [List.getLastD_eq_getLast?, getLast?_wrap]
    rfl
  rw [List.headD_cons, hlast, if_pos ⟨rfl, rfl⟩]
  unfold substrLen
  have hlen : ('"' :: (cs ++ ['"'])).length - 2 = cs.length := by
    simp
  rw [hlen, List.drop_one, List.tail_cons, take_append_self]

theorem trim_wrap (cs : Str) : trim ('"' :: (cs ++ ['"'])) = '"' :: (cs ++ ['"']) :=
  trim_eq_self_of_ends _ '"' '"' rfl (by decide) (getLast?_wrap _ _ _) (by decide)

theorem parseChecksum_on_line (cs : Str) (q : Parser) :
    parseChecksum (writeChecksumLine cs) q = some (
      if q.config.validateChecksums ∧ ¬ validateChecksum cs = true then
        { q with currentChecksum := cs,
                 lastWarnings := q.lastWarnings ++
                   [("Invalid checksum format: ").toList ++ cs] }
      else { q with currentChecksum := cs }) := by
  have hL : writeChecksumLine cs = ("CHECKSUM: \"").toList ++ (cs ++ ['"']) := by
    unfold writeChecksumLine
    simp
  have hafter : afterColonTrim (writeChecksumLine cs) = some ('"' :: (cs ++ ['"'])) := by
    unfold afterColonTrim
    have hcolon : findCharFrom (writeChecksumLine cs) ':' 0 = 8 := rfl
    rw [hcolon]
    have hlen : 8 + 1 < (writeChecksumLine cs).length := by
      rw [hL]
      simp
    rw [if_pos ⟨by unfold NPOS; omega, hlen⟩]
    have hdrop : substrFrom (writeChecksumLine cs) 9 = ' ' :: ('"' :: (cs ++ ['"'])) := by
      unfold substrFrom
      rw [hL, drop_append_le 9 _ _ (by simp)]
      rfl
    rw [hdrop, trim_cons_ws _ _ (by decide), trim_wrap]
  unfold parseChecksum
  rw [if_pos (show startsWithStr (writeChecksumLine cs) (("CHECKSUM:").toList) = true from rfl)]
  rw [hafter]
  simp only [stripQuotes_wrap]

theorem dropWhile_eq_self_of_length (p : Char → Bool) (l : Str)
    (h : (l.dropWhile p).length = l.length) : l.dropWhile p = l :=
  (List.dropWhile_sublist _).eq_of_length h

theorem trim_head_last (l : Str) (ht : trim l = l) :
    (∀ c, l.head? = some c → isWsChar c = false) ∧
    (∀ d, l.getLast? = some d → isWsChar d = false) := by
  have hlen1 : (l.dropWhile isWsChar).length ≤ l.length :=
    (List.dropWhile_sublist _).length_le
  have hlen2 : ((l.dropWhile isWsChar).reverse.dropWhile isWsChar).length ≤
      (l.dropWhile isWsChar).reverse.length :=
    (List.dropWhile_sublist _).length_le
  have hltrim : (trim l).length = ((l.dropWhile isWsChar).reverse.dropWhile isWsChar).length := by
    unfold trim
    simp
  have hle : l.length = (trim l).length := by rw [ht]
  have hd1 : l.dropWhile isWsChar = l := by
    apply dropWhile_eq_self_of_length
    simp only [List.length_reverse] at hlen2 hltrim
    omega
  have hd2 : l.reverse.dropWhile isWsChar = l.reverse := by
    apply dropWhile_eq_self_of_length
    rw [hd1] at hlen2 hltrim
    simp only [List.length_reverse] at hlen2 hltrim ⊢
    omega
  constructor
  · intro c hc
    cases l with
    | nil => cases hc
    | cons a t =>
      cases hc
      by_cases hw : isWsChar c = true
      · rw [List.dropWhile_cons, hw] at hd1
        have := congrArg List.length hd1
        have hle2 : (t.dropWhile isWsChar).length ≤ t.length :=
          (List.dropWhile_sublist _).length_le
        simp at this
        omega
      · simpa using hw
  · intro d hd
    cases hr : l.reverse with
    | nil =>
      rw [← List.head?_reverse, hr] at hd
      cases hd
    | cons a t =>
      have ha : a = d := by
        rw [← List.head?_reverse, hr] at hd
        cases hd
        rfl
      subst ha
      rw [hr] at hd2
      by_cases hw : isWsChar a = true
      · rw [List.dropWhile_cons, hw] at hd2
        have := congrArg List.length hd2
        have hle2 : (t.dropWhile isWsChar).length ≤ t.length :=
          (List.dropWhile_sublist _).length_le
        simp at this
        omega
      · simpa using hw

theorem addToCurrentScope_some (p : Parser) (f : Str → ExclusionScope → ExclusionScope)
    (cur : ExclusionScope) (hs : p.currentScope ≠ [])
    (hcur : alistGet? p.data.scopes p.currentScope = some cur) :
    addToCurrentScope p f =
      { p with
          data := { p.data with
            scopes := alistSet p.data.scopes p.currentScope (f p.pendingAnnot cur) },
          pendingAnnot := [] } := by
  unfold addToCurrentScope
  rw [if_neg (fun h => hs (List.isEmpty_iff.mp h))]
  unfold ExclusionData.modifyScope ExclusionData.getOrCreateScope
  rw [hcur]

/-- The effect of one `CHECKSUM:` line on the line-step level. -/
theorem step_checksum_line (p : Parser) (res : ParseResult) (cs : Str)
    (hm1 : containsStr (writeChecksumLine cs) (("Generated By User:").toList) = false)
    (hm2 : containsStr (writeChecksumLine cs) (("Format Version:").toList) = false)
    (hm3 : containsStr (writeChecksumLine cs) (("Date:").toList) = false)
    (hm4 : containsStr (writeChecksumLine cs) (("ExclMode:").toList) = false) :
    parseLineStep p res (writeChecksumLine cs) =
      ((if p.config.validateChecksums = true ∧ ¬ validateChecksum cs = true then
          { p with currentLineNumber := p.currentLineNumber + 1, currentChecksum := cs,
                   lastWarnings := p.lastWarnings ++
                     [("Invalid checksum format: ").toList ++ cs] }
        else
          { p with currentLineNumber := p.currentLineNumber + 1, currentChecksum := cs }),
       { res with linesProcessed := res.linesProcessed + 1 }, none) := by
  have htrim : trim (writeChecksumLine cs) = writeChecksumLine cs := by
    apply trim_eq_self_of_ends _ 'C' '"'
    · rfl
    · decide
    · rw [show writeChecksumLine cs = ("CHECKSUM: \"").toList ++ (cs ++ ['"']) from by
        unfold writeChecksumLine; simp]
      rw [List.getLast?_append_of_ne_nil _ (by simp), List.getLast?_concat]
    · decide
  have hH : ∀ q : Parser, parseHeader (writeChecksumLine cs) q = none :=
    fun q => parseHeader_none _ q hm1 hm2 hm3 hm4
  have hCS := parseChecksum_on_line cs
  have hne1 : ¬ ((writeChecksumLine cs).isEmpty = true) := by
    simp [show (writeChecksumLine cs).isEmpty = false from rfl]
  have hcom1 : ¬ (isComment (writeChecksumLine cs) = true) := by
    simp [show isComment (writeChecksumLine cs) = false from rfl]
  simp only [parseLineStep, htrim]
  rw [if_neg hne1, if_neg hcom1]
  simp only [hH, hCS]


/-- Blank and comment lines only bump the line and line-count tallies. -/
theorem step_skip_line (p : Parser) (res : ParseResult) (rawLine : Str)
    (h : trim rawLine = [] ∨ isComment (trim rawLine) = true) :
    parseLineStep p res rawLine =
      ({ p with currentLineNumber := p.currentLineNumber + 1 },
       { res with linesProcessed := res.linesProcessed + 1 }, none) := by
  simp only [parseLineStep]
  rcases h with h | h
  · rw [h]
    rfl
  · by_cases he : (trim rawLine).isEmpty = true
    · rw [if_pos he]
    · rw [if_neg he, if_pos h]

theorem trim_dslash (rest : Str) :
    ∃ t, trim ('/' :: ('/' :: rest)) = '/' :: ('/' :: t) := by
  unfold trim
  have h1 : ('/' :: ('/' :: rest)).dropWhile isWsChar = '/' :: ('/' :: rest) := by
    rw [List.dropWhile_cons]
    simp [isWsChar]
  rw [h1]
  rw [show ('/' :: ('/' :: rest)).reverse = rest.reverse ++ ['/', '/'] from by simp]
  rw [List.dropWhile_append]
  by_cases he : ((rest.reverse).dropWhile isWsChar).isEmpty = true
  · rw [if_pos he]
    exact ⟨[], rfl⟩
  · rw [if_neg he]
    exact ⟨(rest.reverse.dropWhile isWsChar).reverse, by simp⟩

theorem isComment_trim_dslash (rest : Str) :
    isComment (trim ('/' :: ('/' :: rest))) = true := by
  obtain ⟨t, ht⟩ := trim_dslash rest
  rw [ht]
  unfold isComment
  have h2 : startsWithStr ('/' :: ('/' :: t)) ('/' :: ['/']) = true :=
    startsWithStr_append_self ('/' :: ['/']) t
  rw [h2, Bool.true_or]

theorem runsTo_congr (p q0 q1 : Parser) (lines : List Str) (h : RunsTo p lines q0)
    (hc : q0.config = q1.config) (hd : q0.data = q1.data)
    (hs : q0.currentScope = q1.currentScope)
    (hcs : q0.currentChecksum = q1.currentChecksum)
    (hm : q0.currentIsModule = q1.currentIsModule)
    (ha : q0.pendingAnnot = q1.pendingAnnot) : RunsTo p lines q1 := by
  intro res rest
  obtain ⟨q, res2, he, c1, c2, c3, c4, c5, c6⟩ := h res rest
  exact ⟨q, res2, he, c1.trans hc, c2.trans hd, c3.trans hs, c4.trans hcs,
    c5.trans hm, c6.trans ha⟩

theorem runsTo_skip (p : Parser) (x : Str)
    (h : trim x = [] ∨ isComment (trim x) = true) : RunsTo p [x] p :=
  runsTo_single p p x (fun res =>
    ⟨_, _, step_skip_line p res x h, rfl, rfl, rfl, rfl, rfl, rfl⟩)

theorem runsTo_skipAll (lines : List Str)
    (hsk : ∀ x ∈ lines, trim x = [] ∨ isComment (trim x) = true) :
    ∀ p, RunsTo p lines p := by
  induction lines with
  | nil => exact fun p => runsTo_nil p
  | cons l t ih =>
    intro p
    have h1 : RunsTo p [l] p := runsTo_skip p l (hsk l (by simp))
    have ht : ∀ x ∈ t, trim x = [] ∨ isComment (trim x) = true :=
      fun x hx => hsk x (by simp [hx])
    exact runsTo_trans p p p [l] t h1
      (fun q c d s cs m a => runsTo_congr q q p t (ih ht q) c d s cs m a)

/-- Every line of the emitted header is a `//` comment, hence skipped. -/
theorem runsTo_header (p : Parser) (d : ExclusionData) : RunsTo p (writeHeader d) p := by
  apply runsTo_skipAll _ _ p
  intro x hx
  unfold writeHeader at hx
  simp only [List.mem_cons, List.not_mem_nil, or_false] at hx
  rcases hx with h | h | h | h | h | h | h <;> subst h <;> right
  · exact isComment_trim_dslash _
  · exact isComment_trim_dslash _
  · exact isComment_trim_dslash ((" Generated By User: ").toList ++ _)
  · exact isComment_trim_dslash ((" Format Version: ").toList ++ _)
  · exact isComment_trim_dslash ((" Date: ").toList ++ _)
  · exact isComment_trim_dslash ((" ExclMode: ").toList ++ _)
  · exact isComment_trim_dslash _


theorem getLast?_append_right (x y : Str) (hne : y ≠ []) :
    (x ++ y).getLast? = y.getLast? := by
  cases hy : y with
  | nil => exact absurd hy hne
  | cons b t =>
    subst hy
    rw [List.getLast?_append_cons]

/-- A line made of a non-blank concrete marker followed by a trim-stable
nonempty field is itself trim-stable. -/
theorem trim_marker_line (pre name : Str) (c : Char) (hh : (pre ++ name).head? = some c)
    (hc : isWsChar c = false) (hne : name ≠ []) (htr : trim name = name) :
    trim (pre ++ name) = pre ++ name := by
  obtain ⟨-, hlast⟩ := trim_head_last name htr
  obtain ⟨d, hd⟩ : ∃ d, name.getLast? = some d := by
    cases hg : name.getLast? with
    | none => exact absurd (List.getLast?_eq_none_iff.mp hg) hne
    | some d => exact ⟨d, rfl⟩
  exact trim_eq_self_of_ends _ c d hh hc
    (by rw [getLast?_append_right _ _ hne]; exact hd) (hlast d hd)

/-- Parsing effect of an `INSTANCE:` scope declaration line. -/
theorem parseScope_on_instance (name : Str) (q : Parser) (hne : name ≠ [])
    (htr : trim name = name) :
    parseScope (("INSTANCE:").toList ++ name) q = some
      { q with currentScope := name, currentIsModule := false,
               data := (q.data.getOrCreateScope name q.currentChecksum false).1 } := by
  unfold parseScope
  rw [if_pos (startsWithStr_append_self (("INSTANCE:").toList) name)]
  have hafter : afterColonTrim (("INSTANCE:").toList ++ name) = some name := by
    unfold afterColonTrim
    have hcolon : findCharFrom (("INSTANCE:").toList ++ name) ':' 0 = 8 := by
      unfold findCharFrom
      rw [List.drop_zero]
      rw [show ("INSTANCE:").toList ++ name = ("INSTANCE").toList ++ (':' :: name) from rfl]
      rw [findCharIdx?_split ':' _ _ (by decide)]
      rfl
    rw [hcolon]
    have h9 : (("INSTANCE:").toList ++ name).length = 9 + name.length := by
      simp
      omega
    have hpos : name.length > 0 := List.length_pos.mpr hne
    rw [if_pos ⟨by unfold NPOS; omega, by omega⟩]
    have hdrop : substrFrom (("INSTANCE:").toList ++ name) 9 = name := by
      unfold substrFrom
      rw [drop_append_ge 9 _ _ (by simp)]
      simp
    rw [hdrop, htr]
  rw [hafter]

/-- Parsing effect of a `MODULE:` scope declaration line. -/
theorem parseScope_on_module (name : Str) (q : Parser) (hne : name ≠ [])
    (htr : trim name = name) :
    parseScope (("MODULE:").toList ++ name) q = some
      { q with currentScope := name, currentIsModule := true,
               data := (q.data.getOrCreateScope name q.currentChecksum true).1 } := by
  unfold parseScope
  rw [if_neg (show ¬ startsWithStr (("MODULE:").toList ++ name) (("INSTANCE:").toList) = true
    from by simp [startsWithStr, List.isPrefixOf])]
  rw [if_pos (startsWithStr_append_self (("MODULE:").toList) name)]
  have hafter : afterColonTrim (("MODULE:").toList ++ name) = some name := by
    unfold afterColonTrim
    have hcolon : findCharFrom (("MODULE:").toList ++ name) ':' 0 = 6 := by
      unfold findCharFrom
      rw [List.drop_zero]
      rw [show ("MODULE:").toList ++ name = ("MODULE").toList ++ (':' :: name) from rfl]
      rw [findCharIdx?_split ':' _ _ (by decide)]
      rfl
    rw [hcolon]
    have h7 : (("MODULE:").toList ++ name).length = 7 + name.length := by
      simp
      omega
    have hpos : name.length > 0 := List.length_pos.mpr hne
    rw [if_pos ⟨by unfold NPOS; omega, by omega⟩]
    have hdrop : substrFrom (("MODULE:").toList ++ name) 7 = name := by
      unfold substrFrom
      rw [drop_append_ge 7 _ _ (by simp)]
      simp
    rw [hdrop, htr]
  rw [hafter]


/-- The effect of an `INSTANCE:` declaration line on the line-step level. -/
theorem step_instance_line (p : Parser) (res : ParseResult) (name : Str)
    (hne : name ≠ []) (htr : trim name = name)
    (hm1 : containsStr (("INSTANCE:").toList ++ name) (("Generated By User:").toList) = false)
    (hm2 : containsStr (("INSTANCE:").toList ++ name) (("Format Version:").toList) = false)
    (hm3 : containsStr (("INSTANCE:").toList ++ name) (("Date:").toList) = false)
    (hm4 : containsStr (("INSTANCE:").toList ++ name) (("ExclMode:").toList) = false) :
    parseLineStep p res (("INSTANCE:").toList ++ name) =
      ({ p with currentLineNumber := p.currentLineNumber + 1, currentScope := name,
                currentIsModule := false,
                data := (p.data.getOrCreateScope name p.currentChecksum false).1 },
       { res with linesProcessed := res.linesProcessed + 1 }, none) := by
  have htl : trim (("INSTANCE:").toList ++ name) = ("INSTANCE:").toList ++ name :=
    trim_marker_line _ name 'I' rfl (by decide) hne htr
  have hH : ∀ q : Parser, parseHeader (("INSTANCE:").toList ++ name) q = none :=
    fun q => parseHeader_none _ q hm1 hm2 hm3 hm4
  have hCS : ∀ q : Parser, parseChecksum (("INSTANCE:").toList ++ name) q = none :=
    fun q => rfl
  have hSC : ∀ q : Parser, parseScope (("INSTANCE:").toList ++ name) q = some
      { q with currentScope := name, currentIsModule := false,
               data := (q.data.getOrCreateScope name q.currentChecksum false).1 } :=
    fun q => parseScope_on_instance name q hne htr
  have hne1 : ¬ ((("INSTANCE:").toList ++ name).isEmpty = true) := by
    simp [show (("INSTANCE:").toList ++ name).isEmpty = false from rfl]
  have hcom1 : ¬ (isComment (("INSTANCE:").toList ++ name) = true) := by
    rw [show isComment (("INSTANCE:").toList ++ name) = false from rfl]
    exact Bool.false_ne_true
  simp only [parseLineStep, htl]
  rw [if_neg hne1, if_neg hcom1]
  simp only [hH, hCS, hSC]

/-- The effect of a `MODULE:` declaration line on the line-step level. -/
theorem step_module_line (p : Parser) (res : ParseResult) (name : Str)
    (hne : name ≠ []) (htr : trim name = name)
    (hm1 : containsStr (("MODULE:").toList ++ name) (("Generated By User:").toList) = false)
    (hm2 : containsStr (("MODULE:").toList ++ name) (("Format Version:").toList) = false)
    (hm3 : containsStr (("MODULE:").toList ++ name) (("Date:").toList) = false)
    (hm4 : containsStr (("MODULE:").toList ++ name) (("ExclMode:").toList) = false) :
    parseLineStep p res (("MODULE:").toList ++ name) =
      ({ p with currentLineNumber := p.currentLineNumber + 1, currentScope := name,
                currentIsModule := true,
                data := (p.data.getOrCreateScope name p.currentChecksum true).1 },
       { res with linesProcessed := res.linesProcessed + 1 }, none) := by
  have htl : trim (("MODULE:").toList ++ name) = ("MODULE:").toList ++ name :=
    trim_marker_line _ name 'M' rfl (by decide) hne htr
  have hH : ∀ q : Parser, parseHeader (("MODULE:").toList ++ name) q = none :=
    fun q => parseHeader_none _ q hm1 hm2 hm3 hm4
  have hCS : ∀ q : Parser, parseChecksum (("MODULE:").toList ++ name) q = none :=
    fun q => rfl
  have hSC : ∀ q : Parser, parseScope (("MODULE:").toList ++ name) q = some
      { q with currentScope := name, currentIsModule := true,
               data := (q.data.getOrCreateScope name q.currentChecksum true).1 } :=
    fun q => parseScope_on_module name q hne htr
  have hne1 : ¬ ((("MODULE:").toList ++ name).isEmpty = true) := by
    simp [show (("MODULE:").toList ++ name).isEmpty = false from rfl]
  have hcom1 : ¬ (isComment (("MODULE:").toList ++ name) = true) := by
    rw [show isComment (("MODULE:").toList ++ name) = false from rfl]
    exact Bool.false_ne_true
  simp only [parseLineStep, htl]
  rw [if_neg hne1, if_neg hcom1]
  simp only [hH, hCS, hSC]

/-- Parsing effect of an emitted `ANNOTATION:` line whose text has no
double quote. -/
theorem parseAnnot_on_line (a : Str) (q : Parser) :
    parseAnnot (("ANNOTATION: \"").toList ++ (a ++ ['"'])) q =
      some { q with pendingAnnot := a } := by
  unfold parseAnnot
  rw [if_pos (show startsWithStr (("ANNOTATION: \"").toList ++ (a ++ ['"']))
    (("ANNOTATION:").toList) = true from rfl)]
  have hafter : afterColonTrim (("ANNOTATION: \"").toList ++ (a ++ ['"'])) =
      some ('"' :: (a ++ ['"'])) := by
    unfold afterColonTrim
    have hcolon : findCharFrom (("ANNOTATION: \"").toList ++ (a ++ ['"'])) ':' 0 = 10 := by
      unfold findCharFrom
      rw [List.drop_zero]
      rw [show ("ANNOTATION: \"").toList ++ (a ++ ['"']) =
        ("ANNOTATION").toList ++ (':' :: (' ' :: ('"' :: (a ++ ['"'])))) from rfl]
      rw [findCharIdx?_split ':' _ _ (by decide)]
      rfl
    rw [hcolon]
    have hlen : (("ANNOTATION: \"").toList ++ (a ++ ['"'])).length = 14 + a.length := by
      simp
      omega
    rw [if_pos ⟨by unfold NPOS; omega, by omega⟩]
    have hdrop : substrFrom (("ANNOTATION: \"").toList ++ (a ++ ['"'])) 11 =
        ' ' :: ('"' :: (a ++ ['"'])) := by
      unfold substrFrom
      rw [show ("ANNOTATION: \"").toList ++ (a ++ ['"']) =
        ("ANNOTATION:").toList ++ (' ' :: ('"' :: (a ++ ['"']))) from rfl]
      rw [drop_append_ge 11 _ _ (by simp)]
      simp
    rw [hdrop, trim_cons_ws _ _ (by decide), trim_wrap]
  rw [hafter]
  simp only [stripQuotes_wrap]

/-- The effect of an emitted `ANNOTATION:` line on the line-step level. -/
theorem step_annot_line (p : Parser) (res : ParseResult) (a : Str)
    (hm1 : containsStr (("ANNOTATION: \"").toList ++ (a ++ ['"']))
      (("Generated By User:").toList) = false)
    (hm2 : containsStr (("ANNOTATION: \"").toList ++ (a ++ ['"']))
      (("Format Version:").toList) = false)
    (hm3 : containsStr (("ANNOTATION: \"").toList ++ (a ++ ['"']))
      (("Date:").toList) = false)
    (hm4 : containsStr (("ANNOTATION: \"").toList ++ (a ++ ['"']))
      (("ExclMode:").toList) = false) :
    parseLineStep p res (("ANNOTATION: \"").toList ++ (a ++ ['"'])) =
      ({ p with currentLineNumber := p.currentLineNumber + 1, pendingAnnot := a },
       { res with linesProcessed := res.linesProcessed + 1 }, none) := by
  have htl : trim (("ANNOTATION: \"").toList ++ (a ++ ['"'])) =
      ("ANNOTATION: \"").toList ++ (a ++ ['"']) := by
    apply trim_eq_self_of_ends _ 'A' '"'
    · rfl
    · decide
    · rw [show ("ANNOTATION: \"").toList ++ (a ++ ['"']) =
        ((("ANNOTATION: \"").toList ++ a)) ++ ['"'] from by simp]
      exact List.getLast?_concat _
    · decide
  have hH : ∀ q : Parser, parseHeader (("ANNOTATION: \"").toList ++ (a ++ ['"'])) q = none :=
    fun q => parseHeader_none _ q hm1 hm2 hm3 hm4
  have hCS : ∀ q : Parser, parseChecksum (("ANNOTATION: \"").toList ++ (a ++ ['"'])) q = none :=
    fun q => rfl
  have hSC : ∀ q : Parser, parseScope (("ANNOTATION: \"").toList ++ (a ++ ['"'])) q = none :=
    fun q => rfl
  have hAN : ∀ q : Parser, parseAnnot (("ANNOTATION: \"").toList ++ (a ++ ['"'])) q =
      some { q with pendingAnnot := a } :=
    fun q => parseAnnot_on_line a q
  have hne1 : ¬ ((("ANNOTATION: \"").toList ++ (a ++ ['"'])).isEmpty = true) := by
    simp [show (("ANNOTATION: \"").toList ++ (a ++ ['"'])).isEmpty = false from rfl]
  have hcom1 : ¬ (isComment (("ANNOTATION: \"").toList ++ (a ++ ['"'])) = true) := by
    rw [show isComment (("ANNOTATION: \"").toList ++ (a ++ ['"'])) = false from rfl]
    exact Bool.false_ne_true
  simp only [parseLineStep, htl]
  rw [if_neg hne1, if_neg hcom1]
  simp only [hH, hCS, hSC, hAN]




/-- The canonical shape of the writer's `Block` line once the source text
needs no escaping. -/
def blockLineW (id cs src : Str) : Str :=
  (("Block ").toList ++ (id ++ (' ' :: ('"' :: (cs ++ ('"' :: (' ' :: ('"' :: (src ++ ['"'])))))))))

/-- Parsing effect of an emitted `Block` line: token id, quoted checksum,
quoted source text. -/
theorem parseBlockExclusion_on_line (id cs src : Str) (q : Parser)
    (hidne : id ≠ []) (hidw : ∀ c ∈ id, isWsChar c = false) (hidq : '"' ∉ id)
    (hcsq : '"' ∉ cs) (hsrcq : '"' ∉ src)
    (hlen : (blockLineW id cs src).length < NPOS) :
    parseBlockExclusion (blockLineW id cs src) q =
      some (addToCurrentScope q (fun annot s =>
        s.addBlockExclusion ⟨id, cs, src, annot⟩)) := by
  have hlen2 : (blockLineW id cs src).length < 18446744073709551615 := hlen
  have hLlen : (blockLineW id cs src).length =
      12 + id.length + cs.length + src.length := by
    simp [blockLineW]
    omega
  have hrt : (readTok (readTok (blockLineW id cs src)).2).1 = id := by
    rw [show blockLineW id cs src =
      ("Block").toList ++ (' ' :: (id ++ (' ' :: ('"' :: (cs ++ ('"' :: (' ' :: ('"' :: (src ++ ['"']))))))))) from by simp [blockLineW]]
    rw [readTok_token (("Block").toList) _ (by decide) (by decide)]
    show (readTok (' ' :: (id ++ (' ' :: ('"' :: (cs ++ ('"' :: (' ' :: ('"' :: (src ++ ['"'])))))))))).1 = id
    rw [readTok_space, readTok_token id _ hidne hidw]
  obtain ⟨j, hj, hfs⟩ := findSubIdx?_le_of_occurs id (("Block ").toList)
    (blockLineW id cs src) ⟨(' ' :: ('"' :: (cs ++ ('"' :: (' ' :: ('"' :: (src ++ ['"']))))))), rfl⟩
  have h6 : (("Block ").toList).length = 6 := by decide
  have hfsf : findStrFrom (blockLineW id cs src) id 0 = j := by
    unfold findStrFrom
    rw [List.drop_zero, hfs]
    show 0 + j = j
    omega
  have hl1a : ((("Block ").toList ++ (id ++ [' '])) : Str).length = 7 + id.length := by
    simp
    omega
  have hql1a : '"' ∉ (("Block ").toList ++ (id ++ [' '])) := by
    intro hm
    rcases List.mem_append.mp hm with h | h
    · exact absurd h (by decide)
    · rcases List.mem_append.mp h with h2 | h2
      · exact hidq h2
      · simp at h2
  have hx1 : extractQuotedString (blockLineW id cs src) (j + id.length) =
      (cs, 9 + id.length + cs.length) := by
    rw [extractQuotedString_spec (blockLineW id cs src)
      (("Block ").toList ++ (id ++ [' '])) cs (' ' :: ('"' :: (src ++ ['"']))) (j + id.length)
      (by simp [blockLineW]) (by rw [hl1a]; omega)
      (fun hm => hql1a (List.drop_subset _ _ hm)) hcsq
      (by show _ < 18446744073709551615; rw [hl1a]; omega)]
    rw [hl1a]
    rw [show 7 + id.length + cs.length + 2 = 9 + id.length + cs.length from by omega]
  have hAlen : ((("Block ").toList ++ (id ++ (' ' :: ('"' :: (cs ++ ['"']))))) : Str).length = 9 + id.length + cs.length := by
    simp
    omega
  have hl1b : ((("Block ").toList ++ (id ++ (' ' :: ('"' :: (cs ++ ('"' :: [' '])))))) : Str).length = 10 + id.length + cs.length := by
    simp
    omega
  have hx2 : extractQuotedString (blockLineW id cs src) (9 + id.length + cs.length) =
      (src, ((("Block ").toList ++ (id ++ (' ' :: ('"' :: (cs ++ ('"' :: [' '])))))) : Str).length + src.length + 2) := by
    rw [extractQuotedString_spec (blockLineW id cs src)
      (("Block ").toList ++ (id ++ (' ' :: ('"' :: (cs ++ ('"' :: [' '])))))) src [] (9 + id.length + cs.length)
      (by simp [blockLineW]) (by rw [hl1b]; omega)
      ?hq1 hsrcq
      (by show _ < 18446744073709551615; rw [hl1b]; omega)]
    case hq1 =>
      rw [show ((("Block ").toList ++ (id ++ (' ' :: ('"' :: (cs ++ ('"' :: [' '])))))) : Str) = ((("Block ").toList ++ (id ++ (' ' :: ('"' :: (cs ++ ['"']))))) : Str) ++ [' '] from by simp]
      rw [show 9 + id.length + cs.length = ((("Block ").toList ++ (id ++ (' ' :: ('"' :: (cs ++ ['"']))))) : Str).length from by rw [hAlen]]
      rw [List.drop_left]
      decide
  have hx2p : extractQuotedString (blockLineW id cs src)
      ((((cs : Str), 9 + id.length + cs.length) : Str × Nat)).2 =
      (src, ((("Block ").toList ++ (id ++ (' ' :: ('"' :: (cs ++ ('"' :: [' '])))))) : Str).length + src.length + 2) := hx2
  unfold parseBlockExclusion
  rw [if_pos (show startsWithStr (blockLineW id cs src) (("Block ").toList) = true from
    by rw [show blockLineW id cs src = ("Block ").toList ++ (id ++ (' ' :: ('"' :: (cs ++ ('"' :: (' ' :: ('"' :: (src ++ ['"'])))))))) from rfl]
       exact startsWithStr_append_self _ _)]
  simp only [hrt]
  rw [hfsf, hx1, hx2p]


/-- The effect of an emitted `Block` line on the line-step level. -/
theorem step_block_line (p : Parser) (res : ParseResult) (id cs src : Str)
    (hidne : id ≠ []) (hidw : ∀ c ∈ id, isWsChar c = false) (hidq : '"' ∉ id)
    (hcsq : '"' ∉ cs) (hsrcq : '"' ∉ src)
    (hlen : (blockLineW id cs src).length < NPOS)
    (hm1 : containsStr (blockLineW id cs src) (("Generated By User:").toList) = false)
    (hm2 : containsStr (blockLineW id cs src) (("Format Version:").toList) = false)
    (hm3 : containsStr (blockLineW id cs src) (("Date:").toList) = false)
    (hm4 : containsStr (blockLineW id cs src) (("ExclMode:").toList) = false) :
    parseLineStep p res (blockLineW id cs src) =
      (addToCurrentScope { p with currentLineNumber := p.currentLineNumber + 1 }
        (fun annot s => s.addBlockExclusion ⟨id, cs, src, annot⟩),
       { res with linesProcessed := res.linesProcessed + 1,
                  exclusionsParsed := res.exclusionsParsed + 1,
                  blockCount := res.blockCount + 1 }, none) := by
  have htl : trim (blockLineW id cs src) = blockLineW id cs src := by
    apply trim_eq_self_of_ends _ 'B' '"'
    · rfl
    · decide
    · rw [show blockLineW id cs src =
        ((("Block ").toList ++ (id ++ (' ' :: ('"' :: (cs ++ ('"' :: (' ' :: ('"' :: src)))))))) ++
          ['"']) from by simp [blockLineW]]
      exact List.getLast?_concat _
    · decide
  have hH : ∀ q : Parser, parseHeader (blockLineW id cs src) q = none :=
    fun q => parseHeader_none _ q hm1 hm2 hm3 hm4
  have hCS : ∀ q : Parser, parseChecksum (blockLineW id cs src) q = none := fun q => rfl
  have hSC : ∀ q : Parser, parseScope (blockLineW id cs src) q = none := fun q => rfl
  have hAN : ∀ q : Parser, parseAnnot (blockLineW id cs src) q = none := fun q => rfl
  have hB : ∀ q : Parser, parseBlockExclusion (blockLineW id cs src) q =
      some (addToCurrentScope q (fun annot s =>
        s.addBlockExclusion ⟨id, cs, src, annot⟩)) :=
    fun q => parseBlockExclusion_on_line id cs src q hidne hidw hidq hcsq hsrcq hlen
  have hne1 : ¬ ((blockLineW id cs src).isEmpty = true) := by
    rw [show (blockLineW id cs src).isEmpty = false from rfl]
    exact Bool.false_ne_true
  have hcom1 : ¬ (isComment (blockLineW id cs src) = true) := by
    rw [show isComment (blockLineW id cs src) = false from rfl]
    exact Bool.false_ne_true
  simp only [parseLineStep, htl]
  rw [if_neg hne1, if_neg hcom1]
  simp only [hH, hCS, hSC, hAN, hB]


/-- The canonical shape of the writer's `Fsm` state line. -/
def fsmLineW (name cs : Str) : Str :=
  (("Fsm ").toList ++ (name ++ (' ' :: ('"' :: (cs ++ ['"'])))))

/-- Parsing effect of an emitted `Fsm` state line: token name, quoted
checksum. -/
theorem parseFsmExclusion_on_line (name cs : Str) (q : Parser)
    (hnne : name ≠ []) (hnw : ∀ c ∈ name, isWsChar c = false) (hnq : '"' ∉ name)
    (hcsq : '"' ∉ cs)
    (hlen : (fsmLineW name cs).length < NPOS) :
    parseFsmExclusion (fsmLineW name cs) q =
      some (addToCurrentScope q (fun annot s =>
        s.addFsmExclusion (FsmExclusion.state name cs annot))) := by
  have hlen2 : (fsmLineW name cs).length < 18446744073709551615 := hlen
  have hLlen : (fsmLineW name cs).length = 7 + name.length + cs.length := by
    simp [fsmLineW]
    omega
  have hrt : (readTok (readTok (fsmLineW name cs)).2).1 = name := by
    rw [show fsmLineW name cs =
      ("Fsm").toList ++ (' ' :: (name ++ (' ' :: ('"' :: (cs ++ ['"']))))) from by simp [fsmLineW]]
    rw [readTok_token (("Fsm").toList) _ (by decide) (by decide)]
    show (readTok (' ' :: (name ++ (' ' :: ('"' :: (cs ++ ['"'])))))).1 = name
    rw [readTok_space, readTok_token name _ hnne hnw]
  obtain ⟨j, hj, hfs⟩ := findSubIdx?_le_of_occurs name (("Fsm ").toList)
    (fsmLineW name cs) ⟨(' ' :: ('"' :: (cs ++ ['"']))), rfl⟩
  have h4 : (("Fsm ").toList).length = 4 := by decide
  have hfsf : findStrFrom (fsmLineW name cs) name 0 = j := by
    unfold findStrFrom
    rw [List.drop_zero, hfs]
    show 0 + j = j
    omega
  have hl1a : ((("Fsm ").toList ++ (name ++ [' '])) : Str).length = 5 + name.length := by
    simp
    omega
  have hql1a : '"' ∉ (("Fsm ").toList ++ (name ++ [' '])) := by
    intro hm
    rcases List.mem_append.mp hm with h | h
    · exact absurd h (by decide)
    · rcases List.mem_append.mp h with h2 | h2
      · exact hnq h2
      · simp at h2
  have hx1 : extractQuotedString (fsmLineW name cs) (j + name.length) =
      (cs, 7 + name.length + cs.length) := by
    rw [extractQuotedString_spec (fsmLineW name cs)
      (("Fsm ").toList ++ (name ++ [' '])) cs [] (j + name.length)
      (by simp [fsmLineW]) (by rw [hl1a]; omega)
      (fun hm => hql1a (List.drop_subset _ _ hm)) hcsq
      (by show _ < 18446744073709551615; rw [hl1a]; omega)]
    rw [hl1a]
    rw [show 5 + name.length + cs.length + 2 = 7 + name.length + cs.length from by omega]
  unfold parseFsmExclusion
  rw [if_pos (show startsWithStr (fsmLineW name cs) (("Fsm ").toList) = true from
    by rw [show fsmLineW name cs =
         ("Fsm ").toList ++ (name ++ (' ' :: ('"' :: (cs ++ ['"'])))) from rfl]
       exact startsWithStr_append_self _ _)]
  simp only [hrt]
  rw [hfsf, hx1]

/-- The effect of an emitted `Fsm` state line on the line-step level. -/
theorem step_fsm_line (p : Parser) (res : ParseResult) (name cs : Str)
    (hnne : name ≠ []) (hnw : ∀ c ∈ name, isWsChar c = false) (hnq : '"' ∉ name)
    (hcsq : '"' ∉ cs)
    (hlen : (fsmLineW name cs).length < NPOS)
    (hm1 : containsStr (fsmLineW name cs) (("Generated By User:").toList) = false)
    (hm2 : containsStr (fsmLineW name cs) (("Format Version:").toList) = false)
    (hm3 : containsStr (fsmLineW name cs) (("Date:").toList) = false)
    (hm4 : containsStr (fsmLineW name cs) (("ExclMode:").toList) = false) :
    parseLineStep p res (fsmLineW name cs) =
      (addToCurrentScope { p with currentLineNumber := p.currentLineNumber + 1 }
        (fun annot s => s.addFsmExclusion (FsmExclusion.state name cs annot)),
       { res with linesProcessed := res.linesProcessed + 1,
                  exclusionsParsed := res.exclusionsParsed + 1,
                  fsmCount := res.fsmCount + 1 }, none) := by
  have htl : trim (fsmLineW name cs) = fsmLineW name cs := by
    apply trim_eq_self_of_ends _ 'F' '"'
    · rfl
    · decide
    · rw [show fsmLineW name cs =
        ((("Fsm ").toList ++ (name ++ (' ' :: ('"' :: cs)))) ++ ['"']) from by simp [fsmLineW]]
      exact List.getLast?_concat _
    · decide
  have hH : ∀ q : Parser, parseHeader (fsmLineW name cs) q = none :=
    fun q => parseHeader_none _ q hm1 hm2 hm3 hm4
  have hCS : ∀ q : Parser, parseChecksum (fsmLineW name cs) q = none := fun q => rfl
  have hSC : ∀ q : Parser, parseScope (fsmLineW name cs) q = none := fun q => rfl
  have hAN : ∀ q : Parser, parseAnnot (fsmLineW name cs) q = none := fun q => rfl
  have hB : ∀ q : Parser, parseBlockExclusion (fsmLineW name cs) q = none := fun q => rfl
  have hT : ∀ q : Parser, parseToggleExclusion (fsmLineW name cs) q = none := fun q => rfl
  have hF : ∀ q : Parser, parseFsmExclusion (fsmLineW name cs) q =
      some (addToCurrentScope q (fun annot s =>
        s.addFsmExclusion (FsmExclusion.state name cs annot))) :=
    fun q => parseFsmExclusion_on_line name cs q hnne hnw hnq hcsq hlen
  have hne1 : ¬ ((fsmLineW name cs).isEmpty = true) := by
    rw [show (fsmLineW name cs).isEmpty = false from rfl]
    exact Bool.false_ne_true
  have hcom1 : ¬ (isComment (fsmLineW name cs) = true) := by
    rw [show isComment (fsmLineW name cs) = false from rfl]
    exact Bool.false_ne_true
  simp only [parseLineStep, htl]
  rw [if_neg hne1, if_neg hcom1]
  simp only [hH, hCS, hSC, hAN, hB, hT, hF]


theorem findCharIdx?_none (c : Char) (l : Str) (h : c ∉ l) : findCharIdx? c l = none := by
  induction l with
  | nil => rfl
  | cons a t ih =>
    have ha : a ≠ c := fun he => h (by simp [he])
    have ht : c ∉ t := fun hm => h (by simp [hm])
    simp [findCharIdx?, ha, ih ht]

theorem prefix_tok_space (pat : Str) : ∀ (sig rest : Str),
    (∀ c ∈ sig, isWsChar c = false) → (∀ c ∈ pat, isWsChar c = false) →
    ((pat ++ [' ']) <+: (sig ++ (' ' :: rest))) → sig = pat := by
  induction pat with
  | nil =>
    intro sig rest hws hp h
    cases sig with
    | nil => rfl
    | cons c t =>
      simp only [List.nil_append] at h
      rw [List.cons_append] at h
      rcases List.cons_prefix_cons.mp h with ⟨he, -⟩
      have hcw := hws c (by simp)
      rw [← he] at hcw
      simp [isWsChar] at hcw
  | cons a pt ih =>
    intro sig rest hws hp h
    cases sig with
    | nil =>
      simp only [List.nil_append, List.cons_append] at h
      rcases List.cons_prefix_cons.mp h with ⟨he, -⟩
      have haw := hp a (by simp)
      rw [he] at haw
      simp [isWsChar] at haw
    | cons c t =>
      rw [List.cons_append, List.cons_append] at h
      rcases List.cons_prefix_cons.mp h with ⟨he, h2⟩
      have ht := ih t rest (fun x hx => hws x (by simp [hx]))
        (fun x hx => hp x (by simp [hx])) h2
      rw [ht, he]

theorem startsWith_tok_space_false (pat sig rest : Str)
    (hws : ∀ c ∈ sig, isWsChar c = false) (hp : ∀ c ∈ pat, isWsChar c = false)
    (hne : sig ≠ pat) :
    startsWithStr (sig ++ (' ' :: rest)) (pat ++ [' ']) = false := by
  cases hsw : startsWithStr (sig ++ (' ' :: rest)) (pat ++ [' ']) with
  | false => rfl
  | true =>
    exact absurd (prefix_tok_space pat sig rest hws hp
      (List.isPrefixOf_iff_prefix.mp hsw)) hne


/-- The direction token prefix the writer puts on a `Toggle` line. -/
def dirTokW : ToggleDirection → Str
  | ToggleDirection.ZERO_TO_ONE => ("0to1 ").toList
  | ToggleDirection.ONE_TO_ZERO => ("1to0 ").toList
  | ToggleDirection.BOTH => []

/-- The canonical shape of the writer's `Toggle` line for a record without
a bit index. -/
def toggleLineW (dir : ToggleDirection) (sig desc : Str) : Str :=
  ("Toggle ").toList ++ (dirTokW dir ++ (sig ++ (' ' :: ('"' :: (desc ++ ['"'])))))

/-- Parsing effect of an emitted `Toggle` line: optional direction token,
signal, no bit index, quoted net description. -/
theorem parseToggleExclusion_on_line (dir : ToggleDirection) (sig desc : Str) (q : Parser)
    (hsne : sig ≠ []) (hsw : ∀ c ∈ sig, isWsChar c = false) (hsb : '[' ∉ sig)
    (hdq : '"' ∉ desc) (hdb : '[' ∉ desc)
    (hboth : dir = ToggleDirection.BOTH →
      sig ≠ ('0' :: ("to1").toList) ∧ sig ≠ ('1' :: ("to0").toList))
    (hlen : (toggleLineW dir sig desc).length < NPOS) :
    parseToggleExclusion (toggleLineW dir sig desc) q =
      some (addToCurrentScope q (fun annot s =>
        s.addToggleExclusion ⟨dir, sig, none, desc, annot⟩)) := by
  have hN : NPOS = 18446744073709551615 := rfl
  have hRb : sig.length + desc.length + 10 ≤ (toggleLineW dir sig desc).length := by
    cases dir <;> simp [toggleLineW, dirTokW] <;> omega
  have hspmem : ' ' ∉ sig := by
    intro hm
    have h := hsw ' ' hm
    simp [isWsChar] at h
  have hsp : findCharFrom (sig ++ (' ' :: ('"' :: (desc ++ ['"'])))) ' ' 0 = sig.length := by
    unfold findCharFrom
    rw [List.drop_zero, findCharIdx?_split ' ' sig _ hspmem]
    show 0 + sig.length = sig.length
    omega
  have hbr0 : '[' ∉ (sig ++ (' ' :: ('"' :: (desc ++ ['"'])))) := by
    intro hm
    rcases List.mem_append.mp hm with h | h
    · exact hsb h
    · simp only [List.mem_cons, List.mem_append, List.mem_singleton] at h
      rcases h with h | h | h | h
      · exact absurd h (by decide)
      · exact absurd h (by decide)
      · exact hdb h
      · exact absurd h (by decide)
  have hbr : findCharFrom (sig ++ (' ' :: ('"' :: (desc ++ ['"'])))) '[' 0 = NPOS := by
    unfold findCharFrom
    rw [List.drop_zero, findCharIdx?_none '[' _ hbr0]
  have hslt : sig.length < 18446744073709551615 := by omega
  have hmin : min sig.length NPOS = sig.length := Nat.min_eq_left (by omega)
  have hsnp : ¬ (sig.length = NPOS) := by omega
  have hsig : substrLen (sig ++ (' ' :: ('"' :: (desc ++ ['"'])))) 0 sig.length = sig := by
    unfold substrLen
    rw [List.drop_zero]
    exact take_append_self _ _
  have hdropR : substrFrom (sig ++ (' ' :: ('"' :: (desc ++ ['"'])))) sig.length =
      ' ' :: ('"' :: (desc ++ ['"'])) := by
    unfold substrFrom
    exact List.drop_left _ _
  have hdesc : extractQuotedString (' ' :: ('"' :: (desc ++ ['"']))) 0 =
      (desc, ([' '] : Str).length + desc.length + 2) :=
    extractQuotedString_spec (' ' :: ('"' :: (desc ++ ['"']))) [' '] desc []
      0 (by simp) (by omega) (by decide) hdq
      (by simp only [List.length_singleton]; rw [hN]; omega)
  have hbitn : ¬ (NPOS ≠ NPOS ∧ NPOS < sig.length) := fun h => h.1 rfl
  unfold parseToggleExclusion
  rw [if_pos (show startsWithStr (toggleLineW dir sig desc) (("Toggle ").toList) = true from
    by rw [show toggleLineW dir sig desc = ("Toggle ").toList ++
         (dirTokW dir ++ (sig ++ (' ' :: ('"' :: (desc ++ ['"']))))) from rfl]
       exact startsWithStr_append_self _ _)]
  have h7 : substrFrom (toggleLineW dir sig desc) 7 =
      dirTokW dir ++ (sig ++ (' ' :: ('"' :: (desc ++ ['"'])))) := by
    unfold substrFrom toggleLineW
    rw [show (7 : Nat) = (("Toggle ").toList).length from rfl]
    exact List.drop_left _ _
  cases dir with
  | BOTH =>
    obtain ⟨hb1, hb2⟩ := hboth rfl
    obtain ⟨c, t, hct⟩ : ∃ c t, sig = c :: t := by
      cases sig with
      | nil => exact absurd rfl hsne
      | cons c t => exact ⟨c, t, rfl⟩
    have hcw : isWsChar c = false := hsw c (by rw [hct]; simp)
    have htrimR : trim (sig ++ (' ' :: ('"' :: (desc ++ ['"'])))) =
        sig ++ (' ' :: ('"' :: (desc ++ ['"']))) := by
      apply trim_eq_self_of_ends _ c '"'
      · rw [hct]
        rfl
      · exact hcw
      · rw [show sig ++ (' ' :: ('"' :: (desc ++ ['"']))) =
          ((sig ++ (' ' :: ('"' :: desc))) ++ ['"']) from by simp]
        exact List.getLast?_concat _
      · decide
    have h7B : substrFrom (toggleLineW ToggleDirection.BOTH sig desc) 7 =
        sig ++ (' ' :: ('"' :: (desc ++ ['"']))) := h7
    have hd1n : ¬ (startsWithStr (sig ++ (' ' :: ('"' :: (desc ++ ['"']))))
        (("0to1 ").toList) = true) := by
      rw [show ("0to1 ").toList = ('0' :: ("to1").toList) ++ [' '] from rfl]
      rw [startsWith_tok_space_false _ _ _ hsw (by decide) hb1]
      exact Bool.false_ne_true
    have hd2n : ¬ (startsWithStr (sig ++ (' ' :: ('"' :: (desc ++ ['"']))))
        (("1to0 ").toList) = true) := by
      rw [show ("1to0 ").toList = ('1' :: ("to0").toList) ++ [' '] from rfl]
      rw [startsWith_tok_space_false _ _ _ hsw (by decide) hb2]
      exact Bool.false_ne_true
    simp only [h7B, htrimR]
    rw [if_neg hd1n, if_neg hd2n]
    simp only [hsp, hbr, hmin]
    rw [if_neg hsnp]
    simp only [hsig]
    rw [if_neg hbitn]
    simp only [hdropR, hdesc]
  | ZERO_TO_ONE =>
    have h7Z : substrFrom (toggleLineW ToggleDirection.ZERO_TO_ONE sig desc) 7 =
        ("0to1 ").toList ++ (sig ++ (' ' :: ('"' :: (desc ++ ['"'])))) := h7
    have htrimZ : trim (("0to1 ").toList ++ (sig ++ (' ' :: ('"' :: (desc ++ ['"']))))) =
        ("0to1 ").toList ++ (sig ++ (' ' :: ('"' :: (desc ++ ['"'])))) := by
      apply trim_eq_self_of_ends _ '0' '"'
      · rfl
      · decide
      · rw [show ("0to1 ").toList ++ (sig ++ (' ' :: ('"' :: (desc ++ ['"'])))) =
          ((("0to1 ").toList ++ (sig ++ (' ' :: ('"' :: desc)))) ++ ['"']) from by simp]
        exact List.getLast?_concat _
      · decide
    have hstZ : startsWithStr (("0to1 ").toList ++ (sig ++ (' ' :: ('"' :: (desc ++ ['"'])))))
        (("0to1 ").toList) = true := startsWithStr_append_self _ _
    have h5Z : substrFrom (("0to1 ").toList ++ (sig ++ (' ' :: ('"' :: (desc ++ ['"']))))) 5 =
        sig ++ (' ' :: ('"' :: (desc ++ ['"']))) := by
      unfold substrFrom
      rw [show (5 : Nat) = (("0to1 ").toList).length from rfl]
      exact List.drop_left _ _
    simp only [h7Z, htrimZ]
    rw [if_pos hstZ]
    simp only [h5Z, hsp, hbr, hmin]
    rw [if_neg hsnp]
    simp only [hsig]
    rw [if_neg hbitn]
    simp only [hdropR, hdesc]
  | ONE_TO_ZERO =>
    have h7O : substrFrom (toggleLineW ToggleDirection.ONE_TO_ZERO sig desc) 7 =
        ("1to0 ").toList ++ (sig ++ (' ' :: ('"' :: (desc ++ ['"'])))) := h7
    have htrimO : trim (("1to0 ").toList ++ (sig ++ (' ' :: ('"' :: (desc ++ ['"']))))) =
        ("1to0 ").toList ++ (sig ++ (' ' :: ('"' :: (desc ++ ['"'])))) := by
      apply trim_eq_self_of_ends _ '1' '"'
      · rfl
      · decide
      · rw [show ("1to0 ").toList ++ (sig ++ (' ' :: ('"' :: (desc ++ ['"'])))) =
          ((("1to0 ").toList ++ (sig ++ (' ' :: ('"' :: desc)))) ++ ['"']) from by simp]
        exact List.getLast?_concat _
      · decide
    have hf1 : ¬ (startsWithStr
        (("1to0 ").toList ++ (sig ++ (' ' :: ('"' :: (desc ++ ['"'])))))
        (("0to1 ").toList) = true) := by
      rw [show startsWithStr
        (("1to0 ").toList ++ (sig ++ (' ' :: ('"' :: (desc ++ ['"'])))))
        (("0to1 ").toList) = false from rfl]
      exact Bool.false_ne_true
    have hstO : startsWithStr (("1to0 ").toList ++ (sig ++ (' ' :: ('"' :: (desc ++ ['"'])))))
        (("1to0 ").toList) = true := startsWithStr_append_self _ _
    have h5O : substrFrom (("1to0 ").toList ++ (sig ++ (' ' :: ('"' :: (desc ++ ['"']))))) 5 =
        sig ++ (' ' :: ('"' :: (desc ++ ['"']))) := by
      unfold substrFrom
      rw [show (5 : Nat) = (("1to0 ").toList).length from rfl]
      exact List.drop_left _ _
    simp only [h7O, htrimO]
    rw [if_neg hf1, if_pos hstO]
    simp only [h5O, hsp, hbr, hmin]
    rw [if_neg hsnp]
    simp only [hsig]
    rw [if_neg hbitn]
    simp only [hdropR, hdesc]


/-- The effect of an emitted `Toggle` line on the line-step level. -/
theorem step_toggle_line (p : Parser) (res : ParseResult) (dir : ToggleDirection)
    (sig desc : Str)
    (hsne : sig ≠ []) (hsw : ∀ c ∈ sig, isWsChar c = false) (hsb : '[' ∉ sig)
    (hdq : '"' ∉ desc) (hdb : '[' ∉ desc)
    (hboth : dir = ToggleDirection.BOTH →
      sig ≠ ('0' :: ("to1").toList) ∧ sig ≠ ('1' :: ("to0").toList))
    (hlen : (toggleLineW dir sig desc).length < NPOS)
    (hm1 : containsStr (toggleLineW dir sig desc) (("Generated By User:").toList) = false)
    (hm2 : containsStr (toggleLineW dir sig desc) (("Format Version:").toList) = false)
    (hm3 : containsStr (toggleLineW dir sig desc) (("Date:").toList) = false)
    (hm4 : containsStr (toggleLineW dir sig desc) (("ExclMode:").toList) = false) :
    parseLineStep p res (toggleLineW dir sig desc) =
      (addToCurrentScope { p with currentLineNumber := p.currentLineNumber + 1 }
        (fun annot s => s.addToggleExclusion ⟨dir, sig, none, desc, annot⟩),
       { res with linesProcessed := res.linesProcessed + 1,
                  exclusionsParsed := res.exclusionsParsed + 1,
                  toggleCount := res.toggleCount + 1 }, none) := by
  have htl : trim (toggleLineW dir sig desc) = toggleLineW dir sig desc := by
    apply trim_eq_self_of_ends _ 'T' '"'
    · cases dir <;> rfl
    · decide
    · rw [show toggleLineW dir sig desc =
        ((("Toggle ").toList ++ (dirTokW dir ++ (sig ++ (' ' :: ('"' :: desc))))) ++ ['"']) from
        by simp [toggleLineW]]
      exact List.getLast?_concat _
    · decide
  have hH : ∀ q : Parser, parseHeader (toggleLineW dir sig desc) q = none :=
    fun q => parseHeader_none _ q hm1 hm2 hm3 hm4
  have hCS : ∀ q : Parser, parseChecksum (toggleLineW dir sig desc) q = none := fun q => rfl
  have hSC : ∀ q : Parser, parseScope (toggleLineW dir sig desc) q = none := fun q => rfl
  have hAN : ∀ q : Parser, parseAnnot (toggleLineW dir sig desc) q = none := fun q => rfl
  have hB : ∀ q : Parser, parseBlockExclusion (toggleLineW dir sig desc) q = none :=
    fun q => rfl
  have hT : ∀ q : Parser, parseToggleExclusion (toggleLineW dir sig desc) q =
      some (addToCurrentScope q (fun annot s =>
        s.addToggleExclusion ⟨dir, sig, none, desc, annot⟩)) :=
    fun q => parseToggleExclusion_on_line dir sig desc q hsne hsw hsb hdq hdb hboth hlen
  have hne1 : ¬ ((toggleLineW dir sig desc).isEmpty = true) := by
    rw [show (toggleLineW dir sig desc).isEmpty = false from rfl]
    exact Bool.false_ne_true
  have hcom1 : ¬ (isComment (toggleLineW dir sig desc) = true) := by
    rw [show isComment (toggleLineW dir sig desc) = false from rfl]
    exact Bool.false_ne_true
  simp only [parseLineStep, htl]
  rw [if_neg hne1, if_neg hcom1]
  simp only [hH, hCS, hSC, hAN, hB, hT]


/-- The expression/parameters split of `parseConditionExclusion`: cut the
quoted text at its last space. -/
def epSplit (M : Str) : Str × Str :=
  let lastSpace := rfindChar M ' '
  if lastSpace ≠ NPOS then (substrLen M 0 lastSpace, substrFrom M (lastSpace + 1))
  else (M, [])

/-- The coverage extraction of `parseConditionExclusion`: trim the text after
the second quoted field and unwrap one layer of parentheses. -/
def covOf (tail : Str) : Str :=
  let remaining := trim tail
  if strFront remaining = '(' ∧ strBack remaining = ')' then
    substrLen remaining 1 (remaining.length - 2)
  else []

theorem epSplit_pair (expr params : Str) (hpsp : ' ' ∉ params)
    (hb : expr.length < NPOS) :
    epSplit (expr ++ (' ' :: params)) = (expr, params) := by
  unfold epSplit
  have hfr : rfindChar (expr ++ (' ' :: params)) ' ' = expr.length := by
    unfold rfindChar
    rw [show (expr ++ (' ' :: params)).reverse =
      params.reverse ++ (' ' :: expr.reverse) from by simp]
    rw [findCharIdx?_split ' ' params.reverse _ (fun hm => hpsp (List.mem_reverse.mp hm))]
    simp
  rw [hfr]
  rw [if_pos (show expr.length ≠ NPOS from fun h => absurd (h ▸ hb) (lt_irrefl _))]
  rw [show substrLen (expr ++ (' ' :: params)) 0 expr.length = expr from by
    unfold substrLen
    rw [List.drop_zero]
    exact take_append_self _ _]
  rw [show substrFrom (expr ++ (' ' :: params)) (expr.length + 1) = params from by
    unfold substrFrom
    rw [drop_append_ge _ _ _ (by omega)]
    rw [show expr.length + 1 - expr.length = 1 from by omega]
    rfl]

theorem epSplit_nospace (M : Str) (hsp : ' ' ∉ M) : epSplit M = (M, []) := by
  unfold epSplit
  have hfr : rfindChar M ' ' = NPOS := by
    unfold rfindChar
    rw [findCharIdx?_none ' ' _ (fun hm => hsp (List.mem_reverse.mp hm))]
  rw [hfr]
  rw [if_neg (fun h => h rfl)]

theorem covOf_nil : covOf [] = [] := by decide

theorem covOf_paren (cov : Str) : covOf (' ' :: ('(' :: (cov ++ [')']))) = cov := by
  unfold covOf
  rw [trim_cons_ws _ _ (by decide)]
  have htr : trim ('(' :: (cov ++ [')'])) = '(' :: (cov ++ [')']) :=
    trim_eq_self_of_ends _ '(' ')' rfl (by decide) (getLast?_wrap _ _ _) (by decide)
  rw [htr]
  have hfb : strFront ('(' :: (cov ++ [')'])) = '(' ∧
      strBack ('(' :: (cov ++ [')'])) = ')' := by
    constructor
    · rfl
    · unfold strBack
      rw [List.getLastD_eq_getLast?, getLast?_wrap]
      rfl
  rw [if_pos hfb]
  unfold substrLen
  have hlen2 : ('(' :: (cov ++ [')'])).length - 2 = cov.length := by simp
  rw [hlen2, List.drop_one, List.tail_cons, take_append_self]

/-- The generic shape of the writer's `Condition` line: quoted checksum, a
quoted middle `M` (expression plus optional parameters) and a trailer `C`
(the optional parenthesised coverage). -/
def condLineG (cid cs M C : Str) : Str :=
  ("Condition ").toList ++
    (cid ++ (' ' :: ('"' :: (cs ++ ('"' :: (' ' :: ('"' :: (M ++ ('"' :: C)))))))))

/-- Parsing effect of a `Condition` line at the extraction level. -/
theorem parseConditionExclusion_extract (cid cs M C : Str) (q : Parser)
    (hcne : cid ≠ []) (hcw : ∀ c ∈ cid, isWsChar c = false) (hcq : '"' ∉ cid)
    (hcsq : '"' ∉ cs) (hMq : '"' ∉ M)
    (hlen : (condLineG cid cs M C).length < NPOS) :
    parseConditionExclusion (condLineG cid cs M C) q =
      some (addToCurrentScope q (fun annot s =>
        s.addConditionExclusion
          ⟨cid, cs, (epSplit M).1, (epSplit M).2, covOf C, annot⟩)) := by
  have hN : NPOS = 18446744073709551615 := rfl
  have hLlen : (condLineG cid cs M C).length =
      16 + cid.length + cs.length + M.length + C.length := by
    simp [condLineG]
    omega
  have hrt : (readTok (readTok (condLineG cid cs M C)).2).1 = cid := by
    rw [show condLineG cid cs M C = ("Condition").toList ++ (' ' ::
      (cid ++ (' ' :: ('"' :: (cs ++ ('"' :: (' ' :: ('"' :: (M ++ ('"' :: C)))))))))) from
      by simp [condLineG]]
    rw [readTok_token (("Condition").toList) _ (by decide) (by decide)]
    show (readTok (' ' ::
      (cid ++ (' ' :: ('"' :: (cs ++ ('"' :: (' ' :: ('"' :: (M ++ ('"' :: C))))))))))).1 = cid
    rw [readTok_space, readTok_token cid _ hcne hcw]
  obtain ⟨j, hj, hfs⟩ := findSubIdx?_le_of_occurs cid (("Condition ").toList)
    (condLineG cid cs M C)
    ⟨(' ' :: ('"' :: (cs ++ ('"' :: (' ' :: ('"' :: (M ++ ('"' :: C)))))))), rfl⟩
  have h10 : (("Condition ").toList).length = 10 := by decide
  have hfsf : findStrFrom (condLineG cid cs M C) cid 0 = j := by
    unfold findStrFrom
    rw [List.drop_zero, hfs]
    show 0 + j = j
    omega
  have hl1a : ((("Condition ").toList ++ (cid ++ [' '])) : Str).length = 11 + cid.length := by
    simp
    omega
  have hql1a : '"' ∉ (("Condition ").toList ++ (cid ++ [' '])) := by
    intro hm
    rcases List.mem_append.mp hm with h | h
    · exact absurd h (by decide)
    · rcases List.mem_append.mp h with h2 | h2
      · exact hcq h2
      · simp at h2
  have hx1 : extractQuotedString (condLineG cid cs M C) (j + cid.length) =
      (cs, 13 + cid.length + cs.length) := by
    rw [extractQuotedString_spec (condLineG cid cs M C)
      (("Condition ").toList ++ (cid ++ [' '])) cs
      (' ' :: ('"' :: (M ++ ('"' :: C)))) (j + cid.length)
      (by simp [condLineG]) (by rw [hl1a]; omega)
      (fun hm => hql1a (List.drop_subset _ _ hm)) hcsq
      (by show _ < 18446744073709551615; rw [hl1a]; omega)]
    rw [hl1a]
    rw [show 11 + cid.length + cs.length + 2 = 13 + cid.length + cs.length from by omega]
  have hAb : (((("Condition ").toList ++ (cid ++ (' ' :: ('"' :: (cs ++ ['"']))))) : Str).length =
      13 + cid.length + cs.length) := by
    simp
    omega
  have hl1b : (((("Condition ").toList ++
      (cid ++ (' ' :: ('"' :: (cs ++ ('"' :: [' '])))))) : Str).length =
      14 + cid.length + cs.length) := by
    simp
    omega
  have hx2 : extractQuotedString (condLineG cid cs M C) (13 + cid.length + cs.length) =
      (M, 16 + cid.length + cs.length + M.length) := by
    rw [extractQuotedString_spec (condLineG cid cs M C)
      (("Condition ").toList ++ (cid ++ (' ' :: ('"' :: (cs ++ ('"' :: [' ']))))))
      M C (13 + cid.length + cs.length)
      (by simp [condLineG]) (by rw [hl1b]; omega)
      ?hq1 hMq
      (by show _ < 18446744073709551615; rw [hl1b]; omega)]
    · rw [hl1b]
      rw [show 14 + cid.length + cs.length + M.length + 2 =
        16 + cid.length + cs.length + M.length from by omega]
    case hq1 =>
      rw [show (("Condition ").toList ++ (cid ++ (' ' :: ('"' :: (cs ++ ('"' :: [' '])))))) =
        ((("Condition ").toList ++ (cid ++ (' ' :: ('"' :: (cs ++ ['"']))))) ++ [' ']) from
        by simp]
      rw [show 13 + cid.length + cs.length =
        ((("Condition ").toList ++ (cid ++ (' ' :: ('"' :: (cs ++ ['"']))))) : Str).length from
        by rw [hAb]]
      rw [List.drop_left]
      decide
  have hx2p : extractQuotedString (condLineG cid cs M C)
      (((cs : Str), 13 + cid.length + cs.length) : Str × Nat).2 =
      (M, 16 + cid.length + cs.length + M.length) := hx2
  have hdropC : substrFrom (condLineG cid cs M C)
      (16 + cid.length + cs.length + M.length) = C := by
    unfold substrFrom
    rw [show condLineG cid cs M C =
      ((("Condition ").toList ++
        (cid ++ (' ' :: ('"' :: (cs ++ ('"' :: (' ' :: ('"' :: (M ++ ['"']))))))))) ++ C) from
      by simp [condLineG]]
    rw [show 16 + cid.length + cs.length + M.length =
      ((("Condition ").toList ++
        (cid ++ (' ' :: ('"' :: (cs ++ ('"' :: (' ' :: ('"' :: (M ++ ['"']))))))))) : Str).length from
      by simp; omega]
    exact List.drop_left _ _
  unfold parseConditionExclusion
  rw [if_pos (show startsWithStr (condLineG cid cs M C) (("Condition ").toList) = true from
    by rw [show condLineG cid cs M C = ("Condition ").toList ++
        (cid ++ (' ' :: ('"' :: (cs ++ ('"' :: (' ' :: ('"' :: (M ++ ('"' :: C))))))))) from rfl]
       exact startsWithStr_append_self _ _)]
  simp only [hrt]
  rw [hfsf, hx1, hx2p]
  simp only [hdropC, epSplit, covOf]


/-- The canonical shape of the writer's `Condition` line. -/
def condLineW (cid cs expr params cov : Str) : Str :=
  condLineG cid cs (expr ++ (if params.isEmpty then [] else ' ' :: params))
    (if cov.isEmpty then [] else ' ' :: ('(' :: (cov ++ [')'])))

/-- Parsing effect of an emitted `Condition` line with space-free
parameters. -/
theorem parseConditionExclusion_on_line (cid cs expr params cov : Str) (q : Parser)
    (hcne : cid ≠ []) (hcw : ∀ c ∈ cid, isWsChar c = false) (hcq : '"' ∉ cid)
    (hcsq : '"' ∉ cs) (heq : '"' ∉ expr) (hpq : '"' ∉ params) (hpsp : ' ' ∉ params)
    (hpe : params = [] → ' ' ∉ expr)
    (hlen : (condLineW cid cs expr params cov).length < NPOS) :
    parseConditionExclusion (condLineW cid cs expr params cov) q =
      some (addToCurrentScope q (fun annot s =>
        s.addConditionExclusion ⟨cid, cs, expr, params, cov, annot⟩)) := by
  have hN : NPOS = 18446744073709551615 := rfl
  cases params with
  | nil =>
    have hMq : '"' ∉ expr := heq
    cases cov with
    | nil =>
      have hM : condLineW cid cs expr [] [] = condLineG cid cs expr [] := by
        simp [condLineW]
      rw [hM] at hlen ⊢
      rw [parseConditionExclusion_extract cid cs expr [] q hcne hcw hcq hcsq hMq hlen]
      have he : epSplit expr = (expr, []) := epSplit_nospace expr (hpe rfl)
      simp only [he, covOf_nil]
    | cons c0 ct =>
      have hM : condLineW cid cs expr [] (c0 :: ct) =
          condLineG cid cs expr (' ' :: ('(' :: ((c0 :: ct) ++ [')']))) := by
        simp [condLineW]
      rw [hM] at hlen ⊢
      rw [parseConditionExclusion_extract cid cs expr
        (' ' :: ('(' :: ((c0 :: ct) ++ [')']))) q hcne hcw hcq hcsq hMq hlen]
      have he : epSplit expr = (expr, []) := epSplit_nospace expr (hpe rfl)
      simp only [he, covOf_paren]
  | cons p0 pt =>
    have hMq : '"' ∉ (expr ++ (' ' :: (p0 :: pt))) := by
      intro hm
      rcases List.mem_append.mp hm with h | h
      · exact heq h
      · rcases List.mem_cons.mp h with h2 | h2
        · exact absurd h2 (by decide)
        · exact hpq h2
    cases cov with
    | nil =>
      have hM : condLineW cid cs expr (p0 :: pt) [] =
          condLineG cid cs (expr ++ (' ' :: (p0 :: pt))) [] := by
        simp [condLineW]
      rw [hM] at hlen ⊢
      have hb : expr.length < NPOS := by
        have hL2 : (condLineG cid cs (expr ++ (' ' :: (p0 :: pt))) []).length =
            18 + cid.length + cs.length + expr.length + pt.length := by
          simp [condLineG]
          omega
        omega
      rw [parseConditionExclusion_extract cid cs (expr ++ (' ' :: (p0 :: pt))) [] q
        hcne hcw hcq hcsq hMq hlen]
      have he : epSplit (expr ++ (' ' :: (p0 :: pt))) = (expr, p0 :: pt) :=
        epSplit_pair expr (p0 :: pt) hpsp hb
      simp only [he, covOf_nil]
    | cons c0 ct =>
      have hM : condLineW cid cs expr (p0 :: pt) (c0 :: ct) =
          condLineG cid cs (expr ++ (' ' :: (p0 :: pt)))
            (' ' :: ('(' :: ((c0 :: ct) ++ [')']))) := by
        simp [condLineW]
      rw [hM] at hlen ⊢
      have hb : expr.length < NPOS := by
        have hL2 : (condLineG cid cs (expr ++ (' ' :: (p0 :: pt)))
            (' ' :: ('(' :: ((c0 :: ct) ++ [')'])))).length =
            22 + cid.length + cs.length + expr.length + pt.length + ct.length := by
          simp [condLineG]
          omega
        omega
      rw [parseConditionExclusion_extract cid cs (expr ++ (' ' :: (p0 :: pt)))
        (' ' :: ('(' :: ((c0 :: ct) ++ [')']))) q hcne hcw hcq hcsq hMq hlen]
      have he : epSplit (expr ++ (' ' :: (p0 :: pt))) = (expr, p0 :: pt) :=
        epSplit_pair expr (p0 :: pt) hpsp hb
      simp only [he, covOf_paren]

/-- The effect of an emitted `Condition` line on the line-step level. -/
theorem step_condition_line (p : Parser) (res : ParseResult) (cid cs expr params cov : Str)
    (hcne : cid ≠ []) (hcw : ∀ c ∈ cid, isWsChar c = false) (hcq : '"' ∉ cid)
    (hcsq : '"' ∉ cs) (heq : '"' ∉ expr) (hpq : '"' ∉ params) (hpsp : ' ' ∉ params)
    (hpe : params = [] → ' ' ∉ expr)
    (hlen : (condLineW cid cs expr params cov).length < NPOS)
    (hm1 : containsStr (condLineW cid cs expr params cov) (("Generated By User:").toList) = false)
    (hm2 : containsStr (condLineW cid cs expr params cov) (("Format Version:").toList) = false)
    (hm3 : containsStr (condLineW cid cs expr params cov) (("Date:").toList) = false)
    (hm4 : containsStr (condLineW cid cs expr params cov) (("ExclMode:").toList) = false) :
    parseLineStep p res (condLineW cid cs expr params cov) =
      (addToCurrentScope { p with currentLineNumber := p.currentLineNumber + 1 }
        (fun annot s => s.addConditionExclusion ⟨cid, cs, expr, params, cov, annot⟩),
       { res with linesProcessed := res.linesProcessed + 1,
                  exclusionsParsed := res.exclusionsParsed + 1,
                  conditionCount := res.conditionCount + 1 }, none) := by
  have htl : trim (condLineW cid cs expr params cov) = condLineW cid cs expr params cov := by
    cases cov with
    | nil =>
      apply trim_eq_self_of_ends _ 'C' '"'
      · rfl
      · decide
      · rw [show condLineW cid cs expr params [] =
          ((("Condition ").toList ++ (cid ++ (' ' :: ('"' :: (cs ++
            ('"' :: (' ' :: ('"' :: (expr ++ (if params.isEmpty then [] else ' ' :: params)))))))))) ++ ['"']) from by
          simp [condLineW, condLineG]]
        exact List.getLast?_concat _
      · decide
    | cons c0 ct =>
      apply trim_eq_self_of_ends _ 'C' ')'
      · rfl
      · decide
      · rw [show condLineW cid cs expr params (c0 :: ct) =
          ((("Condition ").toList ++ (cid ++ (' ' :: ('"' :: (cs ++
            ('"' :: (' ' :: ('"' :: ((expr ++ (if params.isEmpty then [] else ' ' :: params)) ++
              ('"' :: (' ' :: ('(' :: (c0 :: ct))))))))))))) ++ [')']) from by
          simp [condLineW, condLineG]]
        exact List.getLast?_concat _
      · decide
  have hH : ∀ q : Parser, parseHeader (condLineW cid cs expr params cov) q = none :=
    fun q => parseHeader_none _ q hm1 hm2 hm3 hm4
  have hCS : ∀ q : Parser, parseChecksum (condLineW cid cs expr params cov) q = none :=
    fun q => rfl
  have hSC : ∀ q : Parser, parseScope (condLineW cid cs expr params cov) q = none :=
    fun q => rfl
  have hAN : ∀ q : Parser, parseAnnot (condLineW cid cs expr params cov) q = none :=
    fun q => rfl
  have hB : ∀ q : Parser, parseBlockExclusion (condLineW cid cs expr params cov) q = none :=
    fun q => rfl
  have hT : ∀ q : Parser, parseToggleExclusion (condLineW cid cs expr params cov) q = none :=
    fun q => rfl
  have hF : ∀ q : Parser, parseFsmExclusion (condLineW cid cs expr params cov) q = none :=
    fun q => rfl
  have hC : ∀ q : Parser, parseConditionExclusion (condLineW cid cs expr params cov) q =
      some (addToCurrentScope q (fun annot s =>
        s.addConditionExclusion ⟨cid, cs, expr, params, cov, annot⟩)) :=
    fun q => parseConditionExclusion_on_line cid cs expr params cov q
      hcne hcw hcq hcsq heq hpq hpsp hpe hlen
  have hne1 : ¬ ((condLineW cid cs expr params cov).isEmpty = true) := by
    rw [show (condLineW cid cs expr params cov).isEmpty = false from rfl]
    exact Bool.false_ne_true
  have hcom1 : ¬ (isComment (condLineW cid cs expr params cov) = true) := by
    rw [show isComment (condLineW cid cs expr params cov) = false from rfl]
    exact Bool.false_ne_true
  simp only [parseLineStep, htl]
  rw [if_neg hne1, if_neg hcom1]
  simp only [hH, hCS, hSC, hAN, hB, hT, hF, hC]


theorem findSubIdx?_arrow (fromS : Str) (rest : Str) (h : '-' ∉ fromS) :
    findSubIdx? ('-' :: ['>']) (fromS ++ ('-' :: ('>' :: rest))) = some fromS.length := by
  induction fromS with
  | nil =>
    show findSubIdx? ('-' :: ['>']) ('-' :: ('>' :: rest)) = some 0
    unfold findSubIdx?
    rw [show List.isPrefixOf ('-' :: ['>']) ('-' :: ('>' :: rest)) = true from
      startsWithStr_append_self ('-' :: ['>']) rest]
    rw [if_pos rfl]
  | cons a t ih =>
    have ha : a ≠ '-' := fun he => h (by simp [he])
    have ht : '-' ∉ t := fun hm => h (by simp [hm])
    show findSubIdx? ('-' :: ['>']) (a :: (t ++ ('-' :: ('>' :: rest)))) = some (a :: t).length
    unfold findSubIdx?
    have hpf : List.isPrefixOf ('-' :: ['>']) (a :: (t ++ ('-' :: ('>' :: rest)))) = false := by
      cases hb2 : List.isPrefixOf ('-' :: ['>']) (a :: (t ++ ('-' :: ('>' :: rest)))) with
      | false => rfl
      | true =>
        have hpre := List.isPrefixOf_iff_prefix.mp hb2
        rcases List.cons_prefix_cons.mp hpre with ⟨he, -⟩
        exact absurd (Eq.symm he) ha
    rw [hpf, if_neg (by simp), ih ht]
    rfl

/-- The canonical shape of the writer's `Transition` line. -/
def transLineW (fromS toS tid : Str) : Str :=
  ("Transition ").toList ++
    (fromS ++ ('-' :: ('>' :: (toS ++ (' ' :: ('"' :: (tid ++ ['"'])))))))

/-- Parsing effect of an emitted `Transition` line: arrow-separated states
and a quoted transition id, grouped under the fixed `transition` FSM name. -/
theorem parseTransition_on_line (fromS toS tid : Str) (q : Parser)
    (hfd : '-' ∉ fromS) (hft : trim fromS = fromS)
    (hts : ' ' ∉ toS) (htt : trim toS = toS) (htq : '"' ∉ tid)
    (hlen : (transLineW fromS toS tid).length < NPOS) :
    parseTransition (transLineW fromS toS tid) q =
      some (addToCurrentScope q (fun annot s =>
        s.addFsmExclusion
          (FsmExclusion.transition (("transition").toList) fromS toS tid annot))) := by
  have hN : NPOS = 18446744073709551615 := rfl
  have hLlen : (transLineW fromS toS tid).length =
      16 + fromS.length + toS.length + tid.length := by
    simp [transLineW]
    omega
  have hR : substrFrom (transLineW fromS toS tid) 11 =
      fromS ++ ('-' :: ('>' :: (toS ++ (' ' :: ('"' :: (tid ++ ['"'])))))) := by
    unfold substrFrom transLineW
    rw [show (11 : Nat) = (("Transition ").toList).length from rfl]
    exact List.drop_left _ _
  have harrow : findStrFrom
      (fromS ++ ('-' :: ('>' :: (toS ++ (' ' :: ('"' :: (tid ++ ['"'])))))))
      ('-' :: ['>']) 0 = fromS.length := by
    unfold findStrFrom
    rw [List.drop_zero, findSubIdx?_arrow fromS _ hfd]
    show 0 + fromS.length = fromS.length
    omega
  have hane : ¬ (fromS.length = NPOS) := by omega
  have hfromTake : substrLen
      (fromS ++ ('-' :: ('>' :: (toS ++ (' ' :: ('"' :: (tid ++ ['"'])))))))
      0 fromS.length = fromS := by
    unfold substrLen
    rw [List.drop_zero]
    exact take_append_self _ _
  have hspmem : ' ' ∉ ('-' :: ('>' :: toS)) := by
    intro hm
    rcases List.mem_cons.mp hm with h2 | h2
    · exact absurd h2 (by decide)
    · rcases List.mem_cons.mp h2 with h3 | h3
      · exact absurd h3 (by decide)
      · exact hts h3
  have hspc : findCharFrom
      (fromS ++ ('-' :: ('>' :: (toS ++ (' ' :: ('"' :: (tid ++ ['"'])))))))
      ' ' fromS.length = fromS.length + 2 + toS.length := by
    unfold findCharFrom
    rw [List.drop_left]
    rw [show ('-' :: ('>' :: (toS ++ (' ' :: ('"' :: (tid ++ ['"'])))))) =
      (('-' :: ('>' :: toS)) ++ (' ' :: ('"' :: (tid ++ ['"'])))) from by simp]
    rw [findCharIdx?_split ' ' _ _ hspmem]
    show fromS.length + ('-' :: ('>' :: toS)).length = fromS.length + 2 + toS.length
    simp
    omega
  have hspne : ¬ (fromS.length + 2 + toS.length = NPOS) := by omega
  have hsub : fromS.length + 2 + toS.length - fromS.length - 2 = toS.length := by omega
  have htoTake : substrLen
      (fromS ++ ('-' :: ('>' :: (toS ++ (' ' :: ('"' :: (tid ++ ['"'])))))))
      (fromS.length + 2) toS.length = toS := by
    unfold substrLen
    rw [show (fromS ++ ('-' :: ('>' :: (toS ++ (' ' :: ('"' :: (tid ++ ['"']))))))) =
      ((fromS ++ ('-' :: ['>'])) ++ (toS ++ (' ' :: ('"' :: (tid ++ ['"']))))) from by simp]
    rw [show fromS.length + 2 = ((fromS ++ ('-' :: ['>'])) : Str).length from by simp]
    rw [List.drop_left]
    exact take_append_self _ _
  have hl1len : ((fromS ++ ('-' :: ('>' :: (toS ++ [' '])))) : Str).length =
      fromS.length + 3 + toS.length := by
    simp
    omega
  have hBlen : ((fromS ++ ('-' :: ('>' :: toS))) : Str).length =
      fromS.length + 2 + toS.length := by
    simp
    omega
  have hx1 : extractQuotedString
      (fromS ++ ('-' :: ('>' :: (toS ++ (' ' :: ('"' :: (tid ++ ['"'])))))))
      (fromS.length + 2 + toS.length) =
      (tid, ((fromS ++ ('-' :: ('>' :: (toS ++ [' '])))) : Str).length + tid.length + 2) := by
    rw [extractQuotedString_spec
      (fromS ++ ('-' :: ('>' :: (toS ++ (' ' :: ('"' :: (tid ++ ['"'])))))))
      (fromS ++ ('-' :: ('>' :: (toS ++ [' '])))) tid [] (fromS.length + 2 + toS.length)
      (by simp) (by rw [hl1len]; omega)
      ?hq1 htq
      (by show _ < 18446744073709551615; rw [hl1len]; omega)]
    case hq1 =>
      rw [show (fromS ++ ('-' :: ('>' :: (toS ++ [' '])))) =
        ((fromS ++ ('-' :: ('>' :: toS))) ++ [' ']) from by simp]
      rw [show fromS.length + 2 + toS.length =
        ((fromS ++ ('-' :: ('>' :: toS))) : Str).length from by rw [hBlen]]
      rw [List.drop_left]
      decide
  unfold parseTransition
  rw [if_pos (show startsWithStr (transLineW fromS toS tid) (("Transition ").toList) = true from
    by rw [show transLineW fromS toS tid = ("Transition ").toList ++
        (fromS ++ ('-' :: ('>' :: (toS ++ (' ' :: ('"' :: (tid ++ ['"']))))))) from rfl]
       exact startsWithStr_append_self _ _)]
  simp only [hR, harrow]
  rw [if_neg hane]
  simp only [hfromTake, hft, hspc]
  rw [if_neg hspne]
  simp only [hsub, htoTake, htt, hx1]

/-- The effect of an emitted `Transition` line on the line-step level. -/
theorem step_trans_line (p : Parser) (res : ParseResult) (fromS toS tid : Str)
    (hfd : '-' ∉ fromS) (hft : trim fromS = fromS)
    (hts : ' ' ∉ toS) (htt : trim toS = toS) (htq : '"' ∉ tid)
    (hlen : (transLineW fromS toS tid).length < NPOS)
    (hm1 : containsStr (transLineW fromS toS tid) (("Generated By User:").toList) = false)
    (hm2 : containsStr (transLineW fromS toS tid) (("Format Version:").toList) = false)
    (hm3 : containsStr (transLineW fromS toS tid) (("Date:").toList) = false)
    (hm4 : containsStr (transLineW fromS toS tid) (("ExclMode:").toList) = false) :
    parseLineStep p res (transLineW fromS toS tid) =
      (addToCurrentScope { p with currentLineNumber := p.currentLineNumber + 1 }
        (fun annot s => s.addFsmExclusion
          (FsmExclusion.transition (("transition").toList) fromS toS tid annot)),
       { res with linesProcessed := res.linesProcessed + 1,
                  exclusionsParsed := res.exclusionsParsed + 1,
                  fsmCount := res.fsmCount + 1 }, none) := by
  have htl : trim (transLineW fromS toS tid) = transLineW fromS toS tid := by
    apply trim_eq_self_of_ends _ 'T' '"'
    · rfl
    · decide
    · rw [show transLineW fromS toS tid =
        ((("Transition ").toList ++
          (fromS ++ ('-' :: ('>' :: (toS ++ (' ' :: ('"' :: tid))))))) ++ ['"']) from
        by simp [transLineW]]
      exact List.getLast?_concat _
    · decide
  have hH : ∀ q : Parser, parseHeader (transLineW fromS toS tid) q = none :=
    fun q => parseHeader_none _ q hm1 hm2 hm3 hm4
  have hCS : ∀ q : Parser, parseChecksum (transLineW fromS toS tid) q = none := fun q => rfl
  have hSC : ∀ q : Parser, parseScope (transLineW fromS toS tid) q = none := fun q => rfl
  have hAN : ∀ q : Parser, parseAnnot (transLineW fromS toS tid) q = none := fun q => rfl
  have hB : ∀ q : Parser, parseBlockExclusion (transLineW fromS toS tid) q = none :=
    fun q => rfl
  have hT : ∀ q : Parser, parseToggleExclusion (transLineW fromS toS tid) q = none :=
    fun q => rfl
  have hF : ∀ q : Parser, parseFsmExclusion (transLineW fromS toS tid) q = none :=
    fun q => rfl
  have hC : ∀ q : Parser, parseConditionExclusion (transLineW fromS toS tid) q = none :=
    fun q => rfl
  have hTR : ∀ q : Parser, parseTransition (transLineW fromS toS tid) q =
      some (addToCurrentScope q (fun annot s =>
        s.addFsmExclusion
          (FsmExclusion.transition (("transition").toList) fromS toS tid annot))) :=
    fun q => parseTransition_on_line fromS toS tid q hfd hft hts htt htq hlen
  have hne1 : ¬ ((transLineW fromS toS tid).isEmpty = true) := by
    rw [show (transLineW fromS toS tid).isEmpty = false from rfl]
    exact Bool.false_ne_true
  have hcom1 : ¬ (isComment (transLineW fromS toS tid) = true) := by
    rw [show isComment (transLineW fromS toS tid) = false from rfl]
    exact Bool.false_ne_true
  simp only [parseLineStep, htl]
  rw [if_neg hne1, if_neg hcom1]
  simp only [hH, hCS, hSC, hAN, hB, hT, hF, hC, hTR]


theorem alistGet?_append_fresh {α : Type} (A : List (Str × α)) (k : Str) (v : α)
    (h : alistGet? A k = none) : alistGet? (A ++ [(k, v)]) k = some v := by
  induction A with
  | nil => simp [alistGet?]
  | cons hd tl ih =>
    obtain ⟨k1, v1⟩ := hd
    by_cases hk : k1 = k
    · rw [alistGet?] at h
      rw [if_pos hk] at h
      cases h
    · rw [alistGet?] at h
      rw [if_neg hk] at h
      show alistGet? ((k1, v1) :: (tl ++ [(k, v)])) k = some v
      rw [alistGet?, if_neg hk]
      exact ih h

theorem alistSet_append_fresh {α : Type} (A : List (Str × α)) (k : Str) (v w : α)
    (h : alistGet? A k = none) : alistSet (A ++ [(k, v)]) k w = A ++ [(k, w)] := by
  induction A with
  | nil => simp [alistSet]
  | cons hd tl ih =>
    obtain ⟨k1, v1⟩ := hd
    rw [alistGet?] at h
    by_cases hk : k1 = k
    · rw [if_pos hk] at h
      cases h
    · rw [if_neg hk] at h
      show alistSet ((k1, v1) :: (tl ++ [(k, v)])) k w = (k1, v1) :: (tl ++ [(k, w)])
      rw [alistSet, if_neg hk, ih h]

theorem alistGet?_append_none {α : Type} (A B : List (Str × α)) (k : Str)
    (h1 : alistGet? A k = none) (h2 : alistGet? B k = none) :
    alistGet? (A ++ B) k = none := by
  induction A with
  | nil => simpa using h2
  | cons hd tl ih =>
    obtain ⟨k1, v1⟩ := hd
    rw [alistGet?] at h1
    by_cases hk : k1 = k
    · rw [if_pos hk] at h1
      cases h1
    · rw [if_neg hk] at h1
      show alistGet? ((k1, v1) :: (tl ++ B)) k = none
      rw [alistGet?, if_neg hk]
      exact ih h1

theorem alistPush_of_none {α : Type} (m : List (Str × List α)) (k : Str) (v : α)
    (h : alistGet? m k = none) : alistPush m k v = m ++ [(k, [v])] := by
  induction m with
  | nil => rfl
  | cons hd tl ih =>
    obtain ⟨k1, v1⟩ := hd
    rw [alistGet?] at h
    by_cases hk : k1 = k
    · rw [if_pos hk] at h
      cases h
    · rw [if_neg hk] at h
      show alistPush ((k1, v1) :: tl) k v = (k1, v1) :: (tl ++ [(k, [v])])
      rw [alistPush, if_neg hk, ih h]

theorem alistPush_append_fresh {α : Type} (A : List (Str × List α)) (k : Str)
    (acc : List α) (v : α) (h : alistGet? A k = none) :
    alistPush (A ++ [(k, acc)]) k v = A ++ [(k, acc ++ [v])] := by
  induction A with
  | nil => simp [alistPush]
  | cons hd tl ih =>
    obtain ⟨k1, v1⟩ := hd
    rw [alistGet?] at h
    by_cases hk : k1 = k
    · rw [if_pos hk] at h
      cases h
    · rw [if_neg hk] at h
      show alistPush ((k1, v1) :: (tl ++ [(k, acc)])) k v =
        (k1, v1) :: (tl ++ [(k, acc ++ [v])])
      rw [alistPush, if_neg hk, ih h]

/-- Line-level side conditions under which the classifier chain cannot
misread an emitted line: bounded length and none of the four header
markers occurring in it. -/
def lineOkW (l : Str) : Prop :=
  l.length < NPOS ∧
  containsStr l (("Generated By User:").toList) = false ∧
  containsStr l (("Format Version:").toList) = false ∧
  containsStr l (("Date:").toList) = false ∧
  containsStr l (("ExclMode:").toList) = false

/-- Side conditions for the `ANNOTATION:` line emitted ahead of a record. -/
def AnnotLineOk (a : Str) : Prop :=
  lineOkW (("ANNOTATION: \"").toList ++ (a ++ ['"']))

/-- The annotation lines the writer emits ahead of a record whose text
needs no escaping. -/
def annotLinesW (a : Str) : List Str :=
  if a.isEmpty then [] else [("ANNOTATION: \"").toList ++ (a ++ ['"'])]

/-- Processing one record's annotation line (if any) followed by its record
line: the record lands in the current scope with the annotation attached,
and the pending annotation is clear again afterwards. -/
theorem runsTo_record_line (name : Str) (hname : name ≠ [])
    (A : List (Str × ExclusionScope)) (hA : alistGet? A name = none)
    (q : Parser) (sc : ExclusionScope) (a : Str) (line : Str)
    (f : Str → ExclusionScope → ExclusionScope)
    (hq : q.currentScope = name)
    (hsc : q.data.scopes = A ++ [(name, sc)])
    (hpa : q.pendingAnnot = [])
    (hstep : ∀ (p : Parser) (res : ParseResult), ∃ res2,
      parseLineStep p res line =
        (addToCurrentScope { p with currentLineNumber := p.currentLineNumber + 1 } f,
         res2, none))
    (ham : a ≠ [] → AnnotLineOk a) :
    RunsTo q (annotLinesW a ++ [line])
      { q with
          data := { q.data with scopes := A ++ [(name, f a sc)] },
          pendingAnnot := [] } := by
  have hrec : ∀ (p : Parser), p.currentScope = name →
      p.data.scopes = A ++ [(name, sc)] → p.pendingAnnot = a →
      ∀ res, ∃ q2 res2, parseLineStep p res line = (q2, res2, none) ∧
        q2.config = p.config ∧
        q2.data = { p.data with scopes := A ++ [(name, f a sc)] } ∧
        q2.currentScope = name ∧ q2.currentChecksum = p.currentChecksum ∧
        q2.currentIsModule = p.currentIsModule ∧ q2.pendingAnnot = [] := by
    intro p hp1 hp2 hp3 res
    obtain ⟨res2, hst⟩ := hstep p res
    have hcur : alistGet? ({ p with currentLineNumber := p.currentLineNumber + 1 } :
        Parser).data.scopes ({ p with currentLineNumber := p.currentLineNumber + 1 } :
        Parser).currentScope = some sc := by
      show alistGet? p.data.scopes p.currentScope = some sc
      rw [hp1, hp2]
      exact alistGet?_append_fresh A name sc hA
    have hs2 : ({ p with currentLineNumber := p.currentLineNumber + 1 } :
        Parser).currentScope ≠ [] := by
      show p.currentScope ≠ []
      rw [hp1]
      exact hname
    have ha2 := addToCurrentScope_some
      { p with currentLineNumber := p.currentLineNumber + 1 } f sc hs2 hcur
    rw [ha2] at hst
    refine ⟨_, res2, hst, rfl, ?_, ?_, rfl, rfl, rfl⟩
    · show ({ p.data with scopes := alistSet p.data.scopes p.currentScope (f p.pendingAnnot sc) } : ExclusionData) = { p.data with scopes := A ++ [(name, f a sc)] }
      rw [hp1, hp2, hp3, alistSet_append_fresh A name sc (f a sc) hA]
    · show p.currentScope = name
      exact hp1
  by_cases hae : a = []
  · subst hae
    rw [show annotLinesW [] = [] from rfl, List.nil_append]
    apply runsTo_single
    intro res
    obtain ⟨q2, res2, hst, hc, hd, hs, hcs, hm, hp⟩ := hrec q hq hsc hpa res
    exact ⟨q2, res2, hst, hc, hd, hs.trans hq.symm, hcs, hm, hp⟩
  · have hal : annotLinesW a = [("ANNOTATION: \"").toList ++ (a ++ ['"'])] := by
      unfold annotLinesW
      rw [if_neg (fun h => hae (List.isEmpty_iff.mp h))]
    rw [hal]
    obtain ⟨-, ham1, ham2, ham3, ham4⟩ := ham hae
    apply runsTo_trans q { q with pendingAnnot := a } _
      [("ANNOTATION: \"").toList ++ (a ++ ['"'])] [line]
    · apply runsTo_single
      intro res
      refine ⟨_, _, step_annot_line q res a ham1 ham2 ham3 ham4,
        rfl, rfl, rfl, rfl, rfl, rfl⟩
    · intro q' hc hd hs hcs hm hap
      apply runsTo_single
      intro res
      obtain ⟨q2, res2, hst, hc2, hd2, hs2, hcs2, hm2, hp2⟩ :=
        hrec q' (by rw [hs]; exact hq) (by rw [hd]; exact hsc) hap res
      refine ⟨q2, res2, hst, ?_, ?_, ?_, ?_, ?_, hp2⟩
      · rw [hc2, hc]
      · rw [hd2, hd]
      · exact hs2.trans hq.symm
      · rw [hcs2, hcs]
      · rw [hm2, hm]


theorem alistGet?_singleton_ne {α : Type} (k k1 : Str) (v : α) (h : k ≠ k1) :
    alistGet? [(k, v)] k1 = none := by
  simp [alistGet?, h]

/-- The parser with its database scope list replaced and the pending
annotation cleared, as left behind by a fully processed record block. -/
def withScopes (q : Parser) (S : List (Str × ExclusionScope)) : Parser :=
  { q with data := { q.data with scopes := S }, pendingAnnot := [] }

/-- The `Block` section the writer emits for one scope. -/
def blockLinesW : List (Str × BlockExclusion) → List Str
  | [] => []
  | pr :: t => annotLinesW pr.2.annot ++
      (blockLineW pr.1 pr.2.checksum pr.2.sourceCode :: blockLinesW t)

/-- Conditions on one stored Block record under which its emitted line
re-parses to exactly the same record. -/
def blockOkW (pr : Str × BlockExclusion) : Prop :=
  pr.2.blockId = pr.1 ∧ pr.1 ≠ [] ∧ (∀ c ∈ pr.1, isWsChar c = false) ∧ '"' ∉ pr.1 ∧
  '"' ∉ pr.2.checksum ∧ '"' ∉ pr.2.sourceCode ∧ '"' ∉ pr.2.annot ∧
  lineOkW (blockLineW pr.1 pr.2.checksum pr.2.sourceCode) ∧
  (pr.2.annot ≠ [] → AnnotLineOk pr.2.annot)

theorem addBlockExclusion_fresh (sc : ExclusionScope) (pr : Str × BlockExclusion)
    (hk : pr.2.blockId = pr.1) (hfr : alistGet? sc.blockExclusions pr.1 = none) :
    sc.addBlockExclusion pr.2 =
      { sc with blockExclusions := sc.blockExclusions ++ [pr] } := by
  unfold ExclusionScope.addBlockExclusion
  rw [hk, alistSet_of_none _ _ _ hfr]

/-- Running the parser over the whole `Block` section of a scope appends
every record, in order, to the current scope's block container. -/
theorem runsTo_blockPhase (name : Str) (hname : name ≠ [])
    (A : List (Str × ExclusionScope)) (hA : alistGet? A name = none) :
    ∀ (l : List (Str × BlockExclusion)) (q : Parser) (sc : ExclusionScope),
    q.currentScope = name →
    q.data.scopes = A ++ [(name, sc)] →
    q.pendingAnnot = [] →
    (∀ pr ∈ l, blockOkW pr) →
    (∀ pr ∈ l, alistGet? sc.blockExclusions pr.1 = none) →
    ((l.map Prod.fst).Nodup) →
    RunsTo q (blockLinesW l)
      (withScopes q (A ++ [(name,
        { sc with blockExclusions := sc.blockExclusions ++ l })])) := by
  intro l
  induction l with
  | nil =>
    intro q sc hq hsc hpa hwf hfresh hnd
    apply runsTo_congr q q _ (blockLinesW []) (runsTo_nil q)
    · rfl
    · show q.data = { q.data with scopes := A ++ [(name, { sc with blockExclusions := sc.blockExclusions ++ ([] : List (Str × BlockExclusion)) })] }
      rw [List.append_nil]
      show q.data = { q.data with scopes := A ++ [(name, sc)] }
      rw [← hsc]
    · rfl
    · rfl
    · rfl
    · exact hpa
  | cons pr t ih =>
    intro q sc hq hsc hpa hwf hfresh hnd
    obtain ⟨hk, hidne, hidw, hidq, hcsq, hsrcq, hanq, hlok, hamok⟩ := hwf pr (by simp)
    obtain ⟨hlen, hm1, hm2, hm3, hm4⟩ := hlok
    have hfr : alistGet? sc.blockExclusions pr.1 = none := hfresh pr (by simp)
    rw [List.map_cons] at hnd
    have hndh := (List.nodup_cons.mp hnd).1
    have hndt := (List.nodup_cons.mp hnd).2
    have hstep : ∀ (p : Parser) (res : ParseResult), ∃ res2,
        parseLineStep p res (blockLineW pr.1 pr.2.checksum pr.2.sourceCode) =
          (addToCurrentScope { p with currentLineNumber := p.currentLineNumber + 1 }
            (fun annot s =>
              s.addBlockExclusion ⟨pr.1, pr.2.checksum, pr.2.sourceCode, annot⟩),
           res2, none) :=
      fun p res => ⟨_, step_block_line p res pr.1 pr.2.checksum pr.2.sourceCode
        hidne hidw hidq hcsq hsrcq hlen hm1 hm2 hm3 hm4⟩
    have h1 := runsTo_record_line name hname A hA q sc pr.2.annot
      (blockLineW pr.1 pr.2.checksum pr.2.sourceCode)
      (fun annot s => s.addBlockExclusion ⟨pr.1, pr.2.checksum, pr.2.sourceCode, annot⟩)
      hq hsc hpa hstep hamok
    have hrec2 : (⟨pr.1, pr.2.checksum, pr.2.sourceCode, pr.2.annot⟩ : BlockExclusion) =
        pr.2 := by
      rw [← hk]
    have hadd : sc.addBlockExclusion pr.2 =
        { sc with blockExclusions := sc.blockExclusions ++ [pr] } :=
      addBlockExclusion_fresh sc pr hk hfr
    rw [show blockLinesW (pr :: t) =
      (annotLinesW pr.2.annot ++ [blockLineW pr.1 pr.2.checksum pr.2.sourceCode]) ++
        blockLinesW t from by
      show annotLinesW pr.2.annot ++
        (blockLineW pr.1 pr.2.checksum pr.2.sourceCode :: blockLinesW t) = _
      simp]
    apply runsTo_trans q _ _ _ _ h1
    intro q' hc hd hs hcs hm ha
    have hq' : q'.currentScope = name := by
      rw [hs]
      exact hq
    have hd' : q'.data.scopes = A ++ [(name, sc.addBlockExclusion pr.2)] := by
      rw [hd]
      show A ++ [(name, sc.addBlockExclusion ⟨pr.1, pr.2.checksum, pr.2.sourceCode, pr.2.annot⟩)] = A ++ [(name, sc.addBlockExclusion pr.2)]
      rw [hrec2]
    have hfresh' : ∀ pr2 ∈ t,
        alistGet? (sc.addBlockExclusion pr.2).blockExclusions pr2.1 = none := by
      intro pr2 hpr2
      rw [hadd]
      show alistGet? (sc.blockExclusions ++ [pr]) pr2.1 = none
      apply alistGet?_append_none _ _ _ (hfresh pr2 (by simp [hpr2]))
      have hne2 : pr.1 ≠ pr2.1 := by
        intro he
        apply hndh
        rw [he]
        exact List.mem_map_of_mem Prod.fst hpr2
      exact alistGet?_singleton_ne pr.1 pr2.1 pr.2 hne2
    have h2 := ih q' (sc.addBlockExclusion pr.2) hq' hd' ha
      (fun pr2 hpr2 => hwf pr2 (by simp [hpr2])) hfresh' hndt
    apply runsTo_congr _ _ _ _ h2
    · exact hc
    · show ({ q'.data with scopes := A ++ [(name, { sc.addBlockExclusion pr.2 with blockExclusions := (sc.addBlockExclusion pr.2).blockExclusions ++ t })] } : ExclusionData) = { q.data with scopes := A ++ [(name, { sc with blockExclusions := sc.blockExclusions ++ (pr :: t) })] }
      rw [hadd]
      show ({ q'.data with scopes := A ++ [(name, { sc with blockExclusions := (sc.blockExclusions ++ [pr]) ++ t })] } : ExclusionData) = { q.data with scopes := A ++ [(name, { sc with blockExclusions := sc.blockExclusions ++ (pr :: t) })] }
      rw [List.append_assoc, hd]
      rfl
    · exact hs
    · exact hcs
    · exact hm
    · rfl


/-- The `Condition` section the writer emits for one scope. -/
def condLinesW : List (Str × ConditionExclusion) → List Str
  | [] => []
  | pr :: t => annotLinesW pr.2.annot ++
      (condLineW pr.1 pr.2.checksum pr.2.expression pr.2.parameters pr.2.coverage ::
        condLinesW t)

/-- Conditions on one stored Condition record under which its emitted line
re-parses to exactly the same record. -/
def condOkW (pr : Str × ConditionExclusion) : Prop :=
  pr.2.conditionId = pr.1 ∧ pr.1 ≠ [] ∧ (∀ c ∈ pr.1, isWsChar c = false) ∧ '"' ∉ pr.1 ∧
  '"' ∉ pr.2.checksum ∧ '"' ∉ pr.2.expression ∧ '"' ∉ pr.2.parameters ∧
  ' ' ∉ pr.2.parameters ∧ (pr.2.parameters = [] → ' ' ∉ pr.2.expression) ∧
  '"' ∉ pr.2.annot ∧
  lineOkW (condLineW pr.1 pr.2.checksum pr.2.expression pr.2.parameters pr.2.coverage) ∧
  (pr.2.annot ≠ [] → AnnotLineOk pr.2.annot)

theorem addConditionExclusion_fresh (sc : ExclusionScope) (pr : Str × ConditionExclusion)
    (hk : pr.2.conditionId = pr.1)
    (hfr : alistGet? sc.conditionExclusions pr.1 = none) :
    sc.addConditionExclusion pr.2 =
      { sc with conditionExclusions := sc.conditionExclusions ++ [pr] } := by
  unfold ExclusionScope.addConditionExclusion
  rw [hk, alistSet_of_none _ _ _ hfr]

/-- Running the parser over the whole `Condition` section of a scope appends
every record, in order, to the current scope's condition container. -/
theorem runsTo_condPhase (name : Str) (hname : name ≠ [])
    (A : List (Str × ExclusionScope)) (hA : alistGet? A name = none) :
    ∀ (l : List (Str × ConditionExclusion)) (q : Parser) (sc : ExclusionScope),
    q.currentScope = name →
    q.data.scopes = A ++ [(name, sc)] →
    q.pendingAnnot = [] →
    (∀ pr ∈ l, condOkW pr) →
    (∀ pr ∈ l, alistGet? sc.conditionExclusions pr.1 = none) →
    ((l.map Prod.fst).Nodup) →
    RunsTo q (condLinesW l)
      (withScopes q (A ++ [(name,
        { sc with conditionExclusions := sc.conditionExclusions ++ l })])) := by
  intro l
  induction l with
  | nil =>
    intro q sc hq hsc hpa hwf hfresh hnd
    apply runsTo_congr q q _ (condLinesW []) (runsTo_nil q)
    · rfl
    · show q.data = { q.data with scopes := A ++ [(name, { sc with conditionExclusions := sc.conditionExclusions ++ ([] : List (Str × ConditionExclusion)) })] }
      rw [List.append_nil]
      show q.data = { q.data with scopes := A ++ [(name, sc)] }
      rw [← hsc]
    · rfl
    · rfl
    · rfl
    · exact hpa
  | cons pr t ih =>
    intro q sc hq hsc hpa hwf hfresh hnd
    obtain ⟨hk, hcne, hcw, hcq, hcsq, heq, hpq, hpsp, hpe, hanq, hlok, hamok⟩ :=
      hwf pr (by simp)
    obtain ⟨hlen, hm1, hm2, hm3, hm4⟩ := hlok
    have hfr : alistGet? sc.conditionExclusions pr.1 = none := hfresh pr (by simp)
    rw [List.map_cons] at hnd
    have hndh := (List.nodup_cons.mp hnd).1
    have hndt := (List.nodup_cons.mp hnd).2
    have hstep : ∀ (p : Parser) (res : ParseResult), ∃ res2,
        parseLineStep p res
          (condLineW pr.1 pr.2.checksum pr.2.expression pr.2.parameters pr.2.coverage) =
          (addToCurrentScope { p with currentLineNumber := p.currentLineNumber + 1 }
            (fun annot s => s.addConditionExclusion
              ⟨pr.1, pr.2.checksum, pr.2.expression, pr.2.parameters, pr.2.coverage, annot⟩),
           res2, none) :=
      fun p res => ⟨_, step_condition_line p res pr.1 pr.2.checksum pr.2.expression
        pr.2.parameters pr.2.coverage hcne hcw hcq hcsq heq hpq hpsp hpe hlen
        hm1 hm2 hm3 hm4⟩
    have h1 := runsTo_record_line name hname A hA q sc pr.2.annot
      (condLineW pr.1 pr.2.checksum pr.2.expression pr.2.parameters pr.2.coverage)
      (fun annot s => s.addConditionExclusion
        ⟨pr.1, pr.2.checksum, pr.2.expression, pr.2.parameters, pr.2.coverage, annot⟩)
      hq hsc hpa hstep hamok
    have hrec2 : (⟨pr.1, pr.2.checksum, pr.2.expression, pr.2.parameters, pr.2.coverage,
        pr.2.annot⟩ : ConditionExclusion) = pr.2 := by
      rw [← hk]
    have hadd : sc.addConditionExclusion pr.2 =
        { sc with conditionExclusions := sc.conditionExclusions ++ [pr] } :=
      addConditionExclusion_fresh sc pr hk hfr
    rw [show condLinesW (pr :: t) =
      (annotLinesW pr.2.annot ++
        [condLineW pr.1 pr.2.checksum pr.2.expression pr.2.parameters pr.2.coverage]) ++
        condLinesW t from by
      show annotLinesW pr.2.annot ++
        (condLineW pr.1 pr.2.checksum pr.2.expression pr.2.parameters pr.2.coverage ::
          condLinesW t) = _
      simp]
    apply runsTo_trans q _ _ _ _ h1
    intro q' hc hd hs hcs hm ha
    have hq' : q'.currentScope = name := by
      rw [hs]
      exact hq
    have hd' : q'.data.scopes = A ++ [(name, sc.addConditionExclusion pr.2)] := by
      rw [hd]
      show A ++ [(name, sc.addConditionExclusion ⟨pr.1, pr.2.checksum, pr.2.expression, pr.2.parameters, pr.2.coverage, pr.2.annot⟩)] = A ++ [(name, sc.addConditionExclusion pr.2)]
      rw [hrec2]
    have hfresh' : ∀ pr2 ∈ t,
        alistGet? (sc.addConditionExclusion pr.2).conditionExclusions pr2.1 = none := by
      intro pr2 hpr2
      rw [hadd]
      show alistGet? (sc.conditionExclusions ++ [pr]) pr2.1 = none
      apply alistGet?_append_none _ _ _ (hfresh pr2 (by simp [hpr2]))
      have hne2 : pr.1 ≠ pr2.1 := by
        intro he
        apply hndh
        rw [he]
        exact List.mem_map_of_mem Prod.fst hpr2
      exact alistGet?_singleton_ne pr.1 pr2.1 pr.2 hne2
    have h2 := ih q' (sc.addConditionExclusion pr.2) hq' hd' ha
      (fun pr2 hpr2 => hwf pr2 (by simp [hpr2])) hfresh' hndt
    apply runsTo_congr _ _ _ _ h2
    · exact hc
    · show ({ q'.data with scopes := A ++ [(name, { sc.addConditionExclusion pr.2 with conditionExclusions := (sc.addConditionExclusion pr.2).conditionExclusions ++ t })] } : ExclusionData) = { q.data with scopes := A ++ [(name, { sc with conditionExclusions := sc.conditionExclusions ++ (pr :: t) })] }
      rw [hadd]
      show ({ q'.data with scopes := A ++ [(name, { sc with conditionExclusions := (sc.conditionExclusions ++ [pr]) ++ t })] } : ExclusionData) = { q.data with scopes := A ++ [(name, { sc with conditionExclusions := sc.conditionExclusions ++ (pr :: t) })] }
      rw [List.append_assoc, hd]
      rfl
    · exact hs
    · exact hcs
    · exact hm
    · rfl


/-- The `Toggle` lines the writer emits for one signal's record vector. -/
def toggleRecLinesW (k : Str) : List ToggleExclusion → List Str
  | [] => []
  | t :: ts => annotLinesW t.annot ++
      (toggleLineW t.direction k t.netDescription :: toggleRecLinesW k ts)

/-- The `Toggle` section the writer emits for one scope. -/
def toggleLinesW : List (Str × List ToggleExclusion) → List Str
  | [] => []
  | pr :: t => toggleRecLinesW pr.1 pr.2 ++ toggleLinesW t

/-- Conditions on one stored Toggle record under which its emitted line
re-parses to exactly the same record. -/
def toggleOkW (k : Str) (t : ToggleExclusion) : Prop :=
  t.signalName = k ∧ k ≠ [] ∧ (∀ c ∈ k, isWsChar c = false) ∧ '[' ∉ k ∧
  t.bitIndex = none ∧ '"' ∉ t.netDescription ∧ '[' ∉ t.netDescription ∧ '"' ∉ t.annot ∧
  (t.direction = ToggleDirection.BOTH →
    k ≠ ('0' :: ("to1").toList) ∧ k ≠ ('1' :: ("to0").toList)) ∧
  lineOkW (toggleLineW t.direction k t.netDescription) ∧
  (t.annot ≠ [] → AnnotLineOk t.annot)

/-- Consuming the remaining `Toggle` lines of one signal group extends the
vector sitting at the end of the toggle container. -/
theorem runsTo_toggleGroupAcc (name : Str) (hname : name ≠ [])
    (A : List (Str × ExclusionScope)) (hA : alistGet? A name = none) (k : Str)
    (T0 : List (Str × List ToggleExclusion)) (hT0 : alistGet? T0 k = none) :
    ∀ (ts : List ToggleExclusion) (q : Parser) (sc : ExclusionScope)
      (acc : List ToggleExclusion),
    q.currentScope = name →
    q.data.scopes = A ++ [(name, sc)] →
    q.pendingAnnot = [] →
    sc.toggleExclusions = T0 ++ [(k, acc)] →
    (∀ t ∈ ts, toggleOkW k t) →
    RunsTo q (toggleRecLinesW k ts)
      (withScopes q (A ++ [(name,
        { sc with toggleExclusions := T0 ++ [(k, acc ++ ts)] })])) := by
  intro ts
  induction ts with
  | nil =>
    intro q sc acc hq hsc hpa hTE hwf
    apply runsTo_congr q q _ (toggleRecLinesW k []) (runsTo_nil q)
    · rfl
    · show q.data = { q.data with scopes := A ++ [(name, { sc with toggleExclusions := T0 ++ [(k, acc ++ ([] : List ToggleExclusion))] })] }
      rw [List.append_nil, ← hTE]
      show q.data = { q.data with scopes := A ++ [(name, sc)] }
      rw [← hsc]
    · rfl
    · rfl
    · rfl
    · exact hpa
  | cons t ts ih =>
    intro q sc acc hq hsc hpa hTE hwf
    obtain ⟨hsig, hkne, hkw, hkb, hbit, hdq, hdb, hanq, hboth, hlok, hamok⟩ :=
      hwf t (by simp)
    obtain ⟨hlen, hm1, hm2, hm3, hm4⟩ := hlok
    have hstep : ∀ (p : Parser) (res : ParseResult), ∃ res2,
        parseLineStep p res (toggleLineW t.direction k t.netDescription) =
          (addToCurrentScope { p with currentLineNumber := p.currentLineNumber + 1 }
            (fun annot s => s.addToggleExclusion
              ⟨t.direction, k, none, t.netDescription, annot⟩),
           res2, none) :=
      fun p res => ⟨_, step_toggle_line p res t.direction k t.netDescription
        hkne hkw hkb hdq hdb hboth hlen hm1 hm2 hm3 hm4⟩
    have h1 := runsTo_record_line name hname A hA q sc t.annot
      (toggleLineW t.direction k t.netDescription)
      (fun annot s => s.addToggleExclusion ⟨t.direction, k, none, t.netDescription, annot⟩)
      hq hsc hpa hstep hamok
    have hrec2 : (⟨t.direction, k, none, t.netDescription, t.annot⟩ : ToggleExclusion) =
        t := by
      rw [← hsig, ← hbit]
    have hadd : sc.addToggleExclusion t =
        { sc with toggleExclusions := T0 ++ [(k, acc ++ [t])] } := by
      unfold ExclusionScope.addToggleExclusion
      rw [hsig, hTE, alistPush_append_fresh _ _ _ _ hT0]
    rw [show toggleRecLinesW k (t :: ts) =
      (annotLinesW t.annot ++ [toggleLineW t.direction k t.netDescription]) ++
        toggleRecLinesW k ts from by
      show annotLinesW t.annot ++
        (toggleLineW t.direction k t.netDescription :: toggleRecLinesW k ts) = _
      simp]
    apply runsTo_trans q _ _ _ _ h1
    intro q' hc hd hs hcs hm ha
    have hq' : q'.currentScope = name := by
      rw [hs]
      exact hq
    have hd' : q'.data.scopes = A ++ [(name, sc.addToggleExclusion t)] := by
      rw [hd]
      show A ++ [(name, sc.addToggleExclusion ⟨t.direction, k, none, t.netDescription, t.annot⟩)] = A ++ [(name, sc.addToggleExclusion t)]
      rw [hrec2]
    have hTE' : (sc.addToggleExclusion t).toggleExclusions = T0 ++ [(k, acc ++ [t])] := by
      rw [hadd]
    have h2 := ih q' (sc.addToggleExclusion t) (acc ++ [t]) hq' hd' ha hTE'
      (fun t2 ht2 => hwf t2 (by simp [ht2]))
    apply runsTo_congr _ _ _ _ h2
    · exact hc
    · show ({ q'.data with scopes := A ++ [(name, { sc.addToggleExclusion t with toggleExclusions := T0 ++ [(k, (acc ++ [t]) ++ ts)] })] } : ExclusionData) = { q.data with scopes := A ++ [(name, { sc with toggleExclusions := T0 ++ [(k, acc ++ (t :: ts))] })] }
      rw [hadd]
      show ({ q'.data with scopes := A ++ [(name, { sc with toggleExclusions := T0 ++ [(k, (acc ++ [t]) ++ ts)] })] } : ExclusionData) = { q.data with scopes := A ++ [(name, { sc with toggleExclusions := T0 ++ [(k, acc ++ (t :: ts))] })] }
      rw [List.append_assoc, hd]
      rfl
    · exact hs
    · exact hcs
    · exact hm
    · rfl


/-- Running the parser over the whole `Toggle` section of a scope appends
every signal group, in order, to the current scope's toggle container. -/
theorem runsTo_togglePhase (name : Str) (hname : name ≠ [])
    (A : List (Str × ExclusionScope)) (hA : alistGet? A name = none) :
    ∀ (l : List (Str × List ToggleExclusion)) (q : Parser) (sc : ExclusionScope),
    q.currentScope = name →
    q.data.scopes = A ++ [(name, sc)] →
    q.pendingAnnot = [] →
    (∀ pr ∈ l, pr.2 ≠ [] ∧ ∀ t ∈ pr.2, toggleOkW pr.1 t) →
    (∀ pr ∈ l, alistGet? sc.toggleExclusions pr.1 = none) →
    ((l.map Prod.fst).Nodup) →
    RunsTo q (toggleLinesW l)
      (withScopes q (A ++ [(name,
        { sc with toggleExclusions := sc.toggleExclusions ++ l })])) := by
  intro l
  induction l with
  | nil =>
    intro q sc hq hsc hpa hwf hfresh hnd
    apply runsTo_congr q q _ (toggleLinesW []) (runsTo_nil q)
    · rfl
    · show q.data = { q.data with scopes := A ++ [(name, { sc with toggleExclusions := sc.toggleExclusions ++ ([] : List (Str × List ToggleExclusion)) })] }
      rw [List.append_nil]
      show q.data = { q.data with scopes := A ++ [(name, sc)] }
      rw [← hsc]
    · rfl
    · rfl
    · rfl
    · exact hpa
  | cons pr lt ih =>
    intro q sc hq hsc hpa hwf hfresh hnd
    obtain ⟨hne0, hall⟩ := hwf pr (by simp)
    have hfr : alistGet? sc.toggleExclusions pr.1 = none := hfresh pr (by simp)
    rw [List.map_cons] at hnd
    have hndh := (List.nodup_cons.mp hnd).1
    have hndt := (List.nodup_cons.mp hnd).2
    cases hts : pr.2 with
    | nil => exact absurd hts hne0
    | cons t1 rest =>
    have ht1 : toggleOkW pr.1 t1 := hall t1 (by rw [hts]; simp)
    obtain ⟨hsig, hkne, hkw, hkb, hbit, hdq, hdb, hanq, hboth, hlok, hamok⟩ := ht1
    obtain ⟨hlen, hm1, hm2, hm3, hm4⟩ := hlok
    have hstep : ∀ (p : Parser) (res : ParseResult), ∃ res2,
        parseLineStep p res (toggleLineW t1.direction pr.1 t1.netDescription) =
          (addToCurrentScope { p with currentLineNumber := p.currentLineNumber + 1 }
            (fun annot s => s.addToggleExclusion
              ⟨t1.direction, pr.1, none, t1.netDescription, annot⟩),
           res2, none) :=
      fun p res => ⟨_, step_toggle_line p res t1.direction pr.1 t1.netDescription
        hkne hkw hkb hdq hdb hboth hlen hm1 hm2 hm3 hm4⟩
    have h1 := runsTo_record_line name hname A hA q sc t1.annot
      (toggleLineW t1.direction pr.1 t1.netDescription)
      (fun annot s => s.addToggleExclusion ⟨t1.direction, pr.1, none, t1.netDescription, annot⟩)
      hq hsc hpa hstep hamok
    have hrec2 : (⟨t1.direction, pr.1, none, t1.netDescription, t1.annot⟩ : ToggleExclusion) =
        t1 := by
      rw [← hsig, ← hbit]
    have hadd : sc.addToggleExclusion t1 =
        { sc with toggleExclusions := sc.toggleExclusions ++ [(pr.1, [t1])] } := by
      unfold ExclusionScope.addToggleExclusion
      rw [hsig, alistPush_of_none _ _ _ hfr]
    rw [show toggleLinesW (pr :: lt) =
      (annotLinesW t1.annot ++ [toggleLineW t1.direction pr.1 t1.netDescription]) ++
        (toggleRecLinesW pr.1 rest ++ toggleLinesW lt) from by
      show toggleRecLinesW pr.1 pr.2 ++ toggleLinesW lt = _
      rw [hts]
      show annotLinesW t1.annot ++
        (toggleLineW t1.direction pr.1 t1.netDescription :: toggleRecLinesW pr.1 rest) ++
          toggleLinesW lt = _
      simp]
    apply runsTo_trans q _ _ _ _ h1
    intro q2 hc2 hd2 hs2 hcs2 hm2a ha2
    have hq2 : q2.currentScope = name := by
      rw [hs2]
      exact hq
    have hd2' : q2.data.scopes = A ++ [(name, sc.addToggleExclusion t1)] := by
      rw [hd2]
      show A ++ [(name, sc.addToggleExclusion ⟨t1.direction, pr.1, none, t1.netDescription, t1.annot⟩)] = A ++ [(name, sc.addToggleExclusion t1)]
      rw [hrec2]
    have hTE2 : (sc.addToggleExclusion t1).toggleExclusions =
        sc.toggleExclusions ++ [(pr.1, [t1])] := by
      rw [hadd]
    have hgrp := runsTo_toggleGroupAcc name hname A hA pr.1 sc.toggleExclusions hfr
      rest q2 (sc.addToggleExclusion t1) [t1] hq2 hd2' ha2 hTE2
      (fun t2 ht2 => hall t2 (by rw [hts]; simp [ht2]))
    apply runsTo_trans q2 _ _ _ _ hgrp
    intro q3 hc3 hd3 hs3 hcs3 hm3a ha3
    have hq3 : q3.currentScope = name := by
      rw [hs3]
      show q2.currentScope = name
      exact hq2
    have hd3' : q3.data.scopes =
        A ++ [(name, { sc with toggleExclusions := sc.toggleExclusions ++ [pr] })] := by
      rw [hd3]
      show A ++ [(name, { sc with toggleExclusions := sc.toggleExclusions ++ [(pr.1, t1 :: rest)] })] = A ++ [(name, { sc with toggleExclusions := sc.toggleExclusions ++ [pr] })]
      rw [← hts]
    have hfresh3 : ∀ pr2 ∈ lt, alistGet?
        ({ sc with toggleExclusions := sc.toggleExclusions ++ [pr] } :
          ExclusionScope).toggleExclusions pr2.1 = none := by
      intro pr2 hpr2
      show alistGet? (sc.toggleExclusions ++ [pr]) pr2.1 = none
      apply alistGet?_append_none _ _ _ (hfresh pr2 (by simp [hpr2]))
      have hne2 : pr.1 ≠ pr2.1 := by
        intro he
        apply hndh
        rw [he]
        exact List.mem_map_of_mem Prod.fst hpr2
      exact alistGet?_singleton_ne pr.1 pr2.1 pr.2 hne2
    have h3 := ih q3 ({ sc with toggleExclusions := sc.toggleExclusions ++ [pr] }) hq3 hd3'
      ha3 (fun pr2 hpr2 => hwf pr2 (by simp [hpr2])) hfresh3 hndt
    apply runsTo_congr _ _ _ _ h3
    · exact hc3.trans hc2
    · show ({ q3.data with scopes := A ++ [(name, { sc with toggleExclusions := (sc.toggleExclusions ++ [pr]) ++ lt })] } : ExclusionData) = { q.data with scopes := A ++ [(name, { sc with toggleExclusions := sc.toggleExclusions ++ (pr :: lt) })] }
      rw [List.append_assoc, hd3]
      show ({ q2.data with scopes := A ++ [(name, { sc with toggleExclusions := sc.toggleExclusions ++ ([pr] ++ lt) })] } : ExclusionData) = { q.data with scopes := A ++ [(name, { sc with toggleExclusions := sc.toggleExclusions ++ (pr :: lt) })] }
      rw [hd2]
      rfl
    · exact hs3.trans hs2
    · exact hcs3.trans hcs2
    · exact hm3a.trans hm2a
    · rfl


/-- The line the writer emits for one FSM record: the state form or the
transition form. -/
def fsmRecLineW (k : Str) (f : FsmExclusion) : Str :=
  if f.isTransition then transLineW f.fromState f.toState f.transitionId
  else fsmLineW k f.checksum

/-- The `Fsm`/`Transition` lines the writer emits for one FSM name's record
vector. -/
def fsmRecLinesW (k : Str) : List FsmExclusion → List Str
  | [] => []
  | f :: fs => annotLinesW f.annot ++ (fsmRecLineW k f :: fsmRecLinesW k fs)

/-- The FSM section the writer emits for one scope. -/
def fsmLinesW : List (Str × List FsmExclusion) → List Str
  | [] => []
  | pr :: t => fsmRecLinesW pr.1 pr.2 ++ fsmLinesW t

/-- Conditions on one stored FSM record under which its emitted line
re-parses to exactly the same record. -/
def fsmOkW (k : Str) (f : FsmExclusion) : Prop :=
  (f.isTransition = true →
    (k = ("transition").toList ∧ f.fsmName = ("transition").toList ∧ f.checksum = [] ∧
     '-' ∉ f.fromState ∧ trim f.fromState = f.fromState ∧
     ' ' ∉ f.toState ∧ trim f.toState = f.toState ∧ '"' ∉ f.transitionId ∧
     lineOkW (transLineW f.fromState f.toState f.transitionId))) ∧
  (f.isTransition = false →
    (f.fsmName = k ∧ k ≠ [] ∧ (∀ c ∈ k, isWsChar c = false) ∧ '"' ∉ k ∧
     '"' ∉ f.checksum ∧ f.fromState = [] ∧ f.toState = [] ∧ f.transitionId = [] ∧
     lineOkW (fsmLineW k f.checksum))) ∧
  '"' ∉ f.annot ∧ (f.annot ≠ [] → AnnotLineOk f.annot)

/-- Processing one FSM record's lines adds exactly that record to the
current scope. -/
theorem runsTo_fsm_record (name : Str) (hname : name ≠ [])
    (A : List (Str × ExclusionScope)) (hA : alistGet? A name = none)
    (k : Str) (f : FsmExclusion) (q : Parser) (sc : ExclusionScope)
    (hq : q.currentScope = name)
    (hsc : q.data.scopes = A ++ [(name, sc)])
    (hpa : q.pendingAnnot = [])
    (hok : fsmOkW k f) :
    RunsTo q (annotLinesW f.annot ++ [fsmRecLineW k f])
      (withScopes q (A ++ [(name, sc.addFsmExclusion f)])) := by
  obtain ⟨htr, hst, hanq, hamok⟩ := hok
  cases hb : f.isTransition with
  | false =>
    obtain ⟨hnm, hkne, hkw, hkq, hcsq, hfrom, hto, htid, hlok⟩ := hst hb
    obtain ⟨hlen, hm1, hm2, hm3, hm4⟩ := hlok
    have hline : fsmRecLineW k f = fsmLineW k f.checksum := by
      unfold fsmRecLineW
      rw [hb]
      rfl
    have hrec2 : FsmExclusion.state k f.checksum f.annot = f := by
      obtain ⟨nm, cs2, fr, to2, tid2, an2, tr2⟩ := f
      simp only [] at hnm hfrom hto htid hb
      subst hnm hfrom hto htid hb
      rfl
    have hstep : ∀ (p : Parser) (res : ParseResult), ∃ res2,
        parseLineStep p res (fsmLineW k f.checksum) =
          (addToCurrentScope { p with currentLineNumber := p.currentLineNumber + 1 }
            (fun annot s => s.addFsmExclusion (FsmExclusion.state k f.checksum annot)),
           res2, none) :=
      fun p res => ⟨_, step_fsm_line p res k f.checksum hkne hkw hkq hcsq hlen
        hm1 hm2 hm3 hm4⟩
    have h1 := runsTo_record_line name hname A hA q sc f.annot
      (fsmLineW k f.checksum)
      (fun annot s => s.addFsmExclusion (FsmExclusion.state k f.checksum annot))
      hq hsc hpa hstep hamok
    rw [hline]
    apply runsTo_congr _ _ _ _ h1
    · rfl
    · show ({ q.data with scopes := A ++ [(name, sc.addFsmExclusion (FsmExclusion.state k f.checksum f.annot))] } : ExclusionData) = { q.data with scopes := A ++ [(name, sc.addFsmExclusion f)] }
      rw [hrec2]
    · rfl
    · rfl
    · rfl
    · rfl
  | true =>
    obtain ⟨hkval, hnm, hcs0, hfd, hft, hts, htt, htq, hlok⟩ := htr hb
    obtain ⟨hlen, hm1, hm2, hm3, hm4⟩ := hlok
    have hline : fsmRecLineW k f = transLineW f.fromState f.toState f.transitionId := by
      unfold fsmRecLineW
      rw [hb]
      rfl
    have hrec2 : FsmExclusion.transition (("transition").toList) f.fromState f.toState
        f.transitionId f.annot = f := by
      obtain ⟨nm, cs2, fr, to2, tid2, an2, tr2⟩ := f
      simp only [] at hnm hcs0 hb
      subst hnm hcs0 hb
      rfl
    have hstep : ∀ (p : Parser) (res : ParseResult), ∃ res2,
        parseLineStep p res (transLineW f.fromState f.toState f.transitionId) =
          (addToCurrentScope { p with currentLineNumber := p.currentLineNumber + 1 }
            (fun annot s => s.addFsmExclusion
              (FsmExclusion.transition (("transition").toList) f.fromState f.toState
                f.transitionId annot)),
           res2, none) :=
      fun p res => ⟨_, step_trans_line p res f.fromState f.toState f.transitionId
        hfd hft hts htt htq hlen hm1 hm2 hm3 hm4⟩
    have h1 := runsTo_record_line name hname A hA q sc f.annot
      (transLineW f.fromState f.toState f.transitionId)
      (fun annot s => s.addFsmExclusion
        (FsmExclusion.transition (("transition").toList) f.fromState f.toState
          f.transitionId annot))
      hq hsc hpa hstep hamok
    rw [hline]
    apply runsTo_congr _ _ _ _ h1
    · rfl
    · show ({ q.data with scopes := A ++ [(name, sc.addFsmExclusion (FsmExclusion.transition (("transition").toList) f.fromState f.toState f.transitionId f.annot))] } : ExclusionData) = { q.data with scopes := A ++ [(name, sc.addFsmExclusion f)] }
      rw [hrec2]
    · rfl
    · rfl
    · rfl
    · rfl


/-- Consuming the remaining FSM lines of one group extends the vector
sitting at the end of the FSM container. -/
theorem runsTo_fsmGroupAcc (name : Str) (hname : name ≠ [])
    (A : List (Str × ExclusionScope)) (hA : alistGet? A name = none) (k : Str)
    (T0 : List (Str × List FsmExclusion)) (hT0 : alistGet? T0 k = none) :
    ∀ (fs : List FsmExclusion) (q : Parser) (sc : ExclusionScope)
      (acc : List FsmExclusion),
    q.currentScope = name →
    q.data.scopes = A ++ [(name, sc)] →
    q.pendingAnnot = [] →
    sc.fsmExclusions = T0 ++ [(k, acc)] →
    (∀ f ∈ fs, fsmOkW k f) →
    RunsTo q (fsmRecLinesW k fs)
      (withScopes q (A ++ [(name,
        { sc with fsmExclusions := T0 ++ [(k, acc ++ fs)] })])) := by
  intro fs
  induction fs with
  | nil =>
    intro q sc acc hq hsc hpa hTE hwf
    apply runsTo_congr q q _ (fsmRecLinesW k []) (runsTo_nil q)
    · rfl
    · show q.data = { q.data with scopes := A ++ [(name, { sc with fsmExclusions := T0 ++ [(k, acc ++ ([] : List FsmExclusion))] })] }
      rw [List.append_nil, ← hTE]
      show q.data = { q.data with scopes := A ++ [(name, sc)] }
      rw [← hsc]
    · rfl
    · rfl
    · rfl
    · exact hpa
  | cons f fs ih =>
    intro q sc acc hq hsc hpa hTE hwf
    have hok := hwf f (by simp)
    have hfk : f.fsmName = k := by
      cases hb : f.isTransition with
      | false => exact (hok.2.1 hb).1
      | true =>
        obtain ⟨hkval, hnm, -⟩ := hok.1 hb
        rw [hnm, hkval]
    have h1 := runsTo_fsm_record name hname A hA k f q sc hq hsc hpa hok
    have hadd : sc.addFsmExclusion f =
        { sc with fsmExclusions := T0 ++ [(k, acc ++ [f])] } := by
      unfold ExclusionScope.addFsmExclusion
      rw [hfk, hTE, alistPush_append_fresh _ _ _ _ hT0]
    rw [show fsmRecLinesW k (f :: fs) =
      (annotLinesW f.annot ++ [fsmRecLineW k f]) ++ fsmRecLinesW k fs from by
      show annotLinesW f.annot ++ (fsmRecLineW k f :: fsmRecLinesW k fs) = _
      simp]
    apply runsTo_trans q _ _ _ _ h1
    intro q2 hc2 hd2 hs2 hcs2 hm2 ha2
    have hq2 : q2.currentScope = name := by
      rw [hs2]
      exact hq
    have hd2' : q2.data.scopes = A ++ [(name, sc.addFsmExclusion f)] := by
      rw [hd2]
      rfl
    have hTE2 : (sc.addFsmExclusion f).fsmExclusions = T0 ++ [(k, acc ++ [f])] := by
      rw [hadd]
    have h2 := ih q2 (sc.addFsmExclusion f) (acc ++ [f]) hq2 hd2' ha2 hTE2
      (fun f2 hf2 => hwf f2 (by simp [hf2]))
    apply runsTo_congr _ _ _ _ h2
    · exact hc2
    · show ({ q2.data with scopes := A ++ [(name, { sc.addFsmExclusion f with fsmExclusions := T0 ++ [(k, (acc ++ [f]) ++ fs)] })] } : ExclusionData) = { q.data with scopes := A ++ [(name, { sc with fsmExclusions := T0 ++ [(k, acc ++ (f :: fs))] })] }
      rw [List.append_assoc, hd2]
      rfl
    · exact hs2
    · exact hcs2
    · exact hm2
    · rfl

/-- Running the parser over the whole FSM section of a scope appends every
FSM group, in order, to the current scope's FSM container. -/
theorem runsTo_fsmPhase (name : Str) (hname : name ≠ [])
    (A : List (Str × ExclusionScope)) (hA : alistGet? A name = none) :
    ∀ (l : List (Str × List FsmExclusion)) (q : Parser) (sc : ExclusionScope),
    q.currentScope = name →
    q.data.scopes = A ++ [(name, sc)] →
    q.pendingAnnot = [] →
    (∀ pr ∈ l, pr.2 ≠ [] ∧ ∀ f ∈ pr.2, fsmOkW pr.1 f) →
    (∀ pr ∈ l, alistGet? sc.fsmExclusions pr.1 = none) →
    ((l.map Prod.fst).Nodup) →
    RunsTo q (fsmLinesW l)
      (withScopes q (A ++ [(name,
        { sc with fsmExclusions := sc.fsmExclusions ++ l })])) := by
  intro l
  induction l with
  | nil =>
    intro q sc hq hsc hpa hwf hfresh hnd
    apply runsTo_congr q q _ (fsmLinesW []) (runsTo_nil q)
    · rfl
    · show q.data = { q.data with scopes := A ++ [(name, { sc with fsmExclusions := sc.fsmExclusions ++ ([] : List (Str × List FsmExclusion)) })] }
      rw [List.append_nil]
      show q.data = { q.data with scopes := A ++ [(name, sc)] }
      rw [← hsc]
    · rfl
    · rfl
    · rfl
    · exact hpa
  | cons pr lt ih =>
    intro q sc hq hsc hpa hwf hfresh hnd
    obtain ⟨hne0, hall⟩ := hwf pr (by simp)
    have hfr : alistGet? sc.fsmExclusions pr.1 = none := hfresh pr (by simp)
    rw [List.map_cons] at hnd
    have hndh := (List.nodup_cons.mp hnd).1
    have hndt := (List.nodup_cons.mp hnd).2
    cases hts : pr.2 with
    | nil => exact absurd hts hne0
    | cons t1 rest =>
    have hok1 : fsmOkW pr.1 t1 := hall t1 (by rw [hts]; simp)
    have hfk1 : t1.fsmName = pr.1 := by
      cases hb : t1.isTransition with
      | false => exact (hok1.2.1 hb).1
      | true =>
        obtain ⟨hkval, hnm, -⟩ := hok1.1 hb
        rw [hnm, hkval]
    have h1 := runsTo_fsm_record name hname A hA pr.1 t1 q sc hq hsc hpa hok1
    have hadd : sc.addFsmExclusion t1 =
        { sc with fsmExclusions := sc.fsmExclusions ++ [(pr.1, [t1])] } := by
      unfold ExclusionScope.addFsmExclusion
      rw [hfk1, alistPush_of_none _ _ _ hfr]
    rw [show fsmLinesW (pr :: lt) =
      (annotLinesW t1.annot ++ [fsmRecLineW pr.1 t1]) ++
        (fsmRecLinesW pr.1 rest ++ fsmLinesW lt) from by
      show fsmRecLinesW pr.1 pr.2 ++ fsmLinesW lt = _
      rw [hts]
      show annotLinesW t1.annot ++ (fsmRecLineW pr.1 t1 :: fsmRecLinesW pr.1 rest) ++
        fsmLinesW lt = _
      simp]
    apply runsTo_trans q _ _ _ _ h1
    intro q2 hc2 hd2 hs2 hcs2 hm2a ha2
    have hq2 : q2.currentScope = name := by
      rw [hs2]
      exact hq
    have hd2' : q2.data.scopes = A ++ [(name, sc.addFsmExclusion t1)] := by
      rw [hd2]
      rfl
    have hTE2 : (sc.addFsmExclusion t1).fsmExclusions =
        sc.fsmExclusions ++ [(pr.1, [t1])] := by
      rw [hadd]
    have hgrp := runsTo_fsmGroupAcc name hname A hA pr.1 sc.fsmExclusions hfr
      rest q2 (sc.addFsmExclusion t1) [t1] hq2 hd2' ha2 hTE2
      (fun f2 hf2 => hall f2 (by rw [hts]; simp [hf2]))
    apply runsTo_trans q2 _ _ _ _ hgrp
    intro q3 hc3 hd3 hs3 hcs3 hm3a ha3
    have hq3 : q3.currentScope = name := by
      rw [hs3]
      show q2.currentScope = name
      exact hq2
    have hd3' : q3.data.scopes =
        A ++ [(name, { sc with fsmExclusions := sc.fsmExclusions ++ [pr] })] := by
      rw [hd3]
      show A ++ [(name, { sc with fsmExclusions := sc.fsmExclusions ++ [(pr.1, t1 :: rest)] })] = A ++ [(name, { sc with fsmExclusions := sc.fsmExclusions ++ [pr] })]
      rw [← hts]
    have hfresh3 : ∀ pr2 ∈ lt, alistGet?
        ({ sc with fsmExclusions := sc.fsmExclusions ++ [pr] } :
          ExclusionScope).fsmExclusions pr2.1 = none := by
      intro pr2 hpr2
      show alistGet? (sc.fsmExclusions ++ [pr]) pr2.1 = none
      apply alistGet?_append_none _ _ _ (hfresh pr2 (by simp [hpr2]))
      have hne2 : pr.1 ≠ pr2.1 := by
        intro he
        apply hndh
        rw [he]
        exact List.mem_map_of_mem Prod.fst hpr2
      exact alistGet?_singleton_ne pr.1 pr2.1 pr.2 hne2
    have h3 := ih q3 ({ sc with fsmExclusions := sc.fsmExclusions ++ [pr] }) hq3 hd3'
      ha3 (fun pr2 hpr2 => hwf pr2 (by simp [hpr2])) hfresh3 hndt
    apply runsTo_congr _ _ _ _ h3
    · exact hc3.trans hc2
    · show ({ q3.data with scopes := A ++ [(name, { sc with fsmExclusions := (sc.fsmExclusions ++ [pr]) ++ lt })] } : ExclusionData) = { q.data with scopes := A ++ [(name, { sc with fsmExclusions := sc.fsmExclusions ++ (pr :: lt) })] }
      rw [List.append_assoc, hd3]
      show ({ q2.data with scopes := A ++ [(name, { sc with fsmExclusions := sc.fsmExclusions ++ ([pr] ++ lt) })] } : ExclusionData) = { q.data with scopes := A ++ [(name, { sc with fsmExclusions := sc.fsmExclusions ++ (pr :: lt) })] }
      rw [hd2]
      rfl
    · exact hs3.trans hs2
    · exact hcs3.trans hcs2
    · exact hm3a.trans hm2a
    · rfl


theorem getOrCreateScope_fresh (d : ExclusionData) (name cs : Str) (mod : Bool)
    (h : alistGet? d.scopes name = none) :
    d.getOrCreateScope name cs mod =
      ({ d with scopes := d.scopes ++ [(name, ExclusionScope.mkNew name cs mod)] },
       ExclusionScope.mkNew name cs mod) := by
  unfold ExclusionData.getOrCreateScope
  rw [h]
  show ({ d with scopes := alistSet d.scopes name (ExclusionScope.mkNew name cs mod) }, ExclusionScope.mkNew name cs mod) = ({ d with scopes := d.scopes ++ [(name, ExclusionScope.mkNew name cs mod)] }, ExclusionScope.mkNew name cs mod)
  rw [alistSet_of_none _ _ _ h]

/-- The full line block the writer emits for one scope whose stored
checksum is nonempty. -/
def scopeLinesW (name : Str) (s : ExclusionScope) : List Str :=
  writeChecksumLine s.checksum ::
    (((if s.isModule then ("MODULE:").toList else ("INSTANCE:").toList) ++ name) ::
      (blockLinesW s.blockExclusions ++ (toggleLinesW s.toggleExclusions ++
        (fsmLinesW s.fsmExclusions ++ condLinesW s.conditionExclusions))))

/-- Conditions on one stored scope under which its emitted line block
re-parses to exactly the same scope. -/
def scopeOkW (name : Str) (s : ExclusionScope) : Prop :=
  s.scopeName = name ∧ name ≠ [] ∧ trim name = name ∧ s.checksum ≠ [] ∧
  lineOkW (writeChecksumLine s.checksum) ∧
  lineOkW ((if s.isModule then ("MODULE:").toList else ("INSTANCE:").toList) ++ name) ∧
  (∀ pr ∈ s.blockExclusions, blockOkW pr) ∧
  ((s.blockExclusions.map Prod.fst).Nodup) ∧
  (∀ pr ∈ s.toggleExclusions, pr.2 ≠ [] ∧ ∀ t ∈ pr.2, toggleOkW pr.1 t) ∧
  ((s.toggleExclusions.map Prod.fst).Nodup) ∧
  (∀ pr ∈ s.fsmExclusions, pr.2 ≠ [] ∧ ∀ f ∈ pr.2, fsmOkW pr.1 f) ∧
  ((s.fsmExclusions.map Prod.fst).Nodup) ∧
  (∀ pr ∈ s.conditionExclusions, condOkW pr) ∧
  ((s.conditionExclusions.map Prod.fst).Nodup)

/-- Running the parser over one emitted scope block appends exactly the
stored scope to the database. -/
theorem runsTo_scope (name : Str) (s : ExclusionScope) (q : Parser)
    (hok : scopeOkW name s)
    (hfresh : alistGet? q.data.scopes name = none)
    (hpa : q.pendingAnnot = []) :
    RunsTo q (scopeLinesW name s)
      { q with
          data := { q.data with scopes := q.data.scopes ++ [(name, s)] },
          currentScope := name, currentChecksum := s.checksum,
          currentIsModule := s.isModule, pendingAnnot := [] } := by
  obtain ⟨hsn, hname, htrn, hcsne, hlokcs, hlokdecl, hwfb, hndb, hwft, hndt2,
    hwff, hndf, hwfc, hndc⟩ := hok
  obtain ⟨-, hcm1, hcm2, hcm3, hcm4⟩ := hlokcs
  obtain ⟨-, hdm1, hdm2, hdm3, hdm4⟩ := hlokdecl
  rw [show scopeLinesW name s = [writeChecksumLine s.checksum] ++
    ([(if s.isModule then ("MODULE:").toList else ("INSTANCE:").toList) ++ name] ++
      (blockLinesW s.blockExclusions ++ (toggleLinesW s.toggleExclusions ++
        (fsmLinesW s.fsmExclusions ++ condLinesW s.conditionExclusions)))) from rfl]
  have h1 : RunsTo q [writeChecksumLine s.checksum]
      { q with currentChecksum := s.checksum } := by
    apply runsTo_single
    intro res
    refine ⟨_, _, step_checksum_line q res s.checksum hcm1 hcm2 hcm3 hcm4,
      ?_, ?_, ?_, ?_, ?_, ?_⟩
    · split <;> rfl
    · split <;> rfl
    · split <;> rfl
    · split <;> rfl
    · split <;> rfl
    · split <;> rfl
  apply runsTo_trans q _ _ _ _ h1
  intro q1 hc1 hd1 hs1 hcs1 hm1a ha1
  have hda : q1.data = q.data := hd1
  have hcsa : q1.currentChecksum = s.checksum := hcs1
  have hpa1 : q1.pendingAnnot = [] := by
    rw [ha1]
    exact hpa
  have h2 : RunsTo q1
      [(if s.isModule then ("MODULE:").toList else ("INSTANCE:").toList) ++ name]
      { q with data := { q.data with scopes := q.data.scopes ++ [(name, ExclusionScope.mkNew name s.checksum s.isModule)] }, currentScope := name, currentChecksum := s.checksum, currentIsModule := s.isModule, pendingAnnot := [] } := by
    apply runsTo_single
    intro res
    cases hmod : s.isModule with
    | false =>
      rw [hmod] at hdm1 hdm2 hdm3 hdm4
      refine ⟨_, _, step_instance_line q1 res name hname htrn
        (by simpa using hdm1) (by simpa using hdm2) (by simpa using hdm3)
        (by simpa using hdm4), hc1, ?_, rfl, ?_, rfl, ?_⟩
      · show (q1.data.getOrCreateScope name q1.currentChecksum false).1 = { q.data with scopes := q.data.scopes ++ [(name, ExclusionScope.mkNew name s.checksum false)] }
        rw [hda, hcsa, getOrCreateScope_fresh q.data name s.checksum false hfresh]
      · exact hcsa
      · rw [ha1]
        exact hpa
    | true =>
      rw [hmod] at hdm1 hdm2 hdm3 hdm4
      refine ⟨_, _, step_module_line q1 res name hname htrn
        (by simpa using hdm1) (by simpa using hdm2) (by simpa using hdm3)
        (by simpa using hdm4), hc1, ?_, rfl, ?_, rfl, ?_⟩
      · show (q1.data.getOrCreateScope name q1.currentChecksum true).1 = { q.data with scopes := q.data.scopes ++ [(name, ExclusionScope.mkNew name s.checksum true)] }
        rw [hda, hcsa, getOrCreateScope_fresh q.data name s.checksum true hfresh]
      · exact hcsa
      · rw [ha1]
        exact hpa
  apply runsTo_trans q1 _ _ _ _ h2
  intro q2 hc2 hd2 hs2 hcs2 hm2a ha2
  have hq2s : q2.currentScope = name := hs2
  have hd2s : q2.data.scopes = q.data.scopes ++
      [(name, ExclusionScope.mkNew name s.checksum s.isModule)] := by
    rw [hd2]
  have h3 := runsTo_blockPhase name hname q.data.scopes hfresh s.blockExclusions q2
    (ExclusionScope.mkNew name s.checksum s.isModule) hq2s hd2s ha2 hwfb
    (fun pr hpr => rfl) hndb
  apply runsTo_trans q2 _ _ _ _ h3
  intro q3 hc3 hd3 hs3 hcs3 hm3a ha3
  have hq3s : q3.currentScope = name := by
    rw [hs3]
    exact hq2s
  have hd3s : q3.data.scopes = q.data.scopes ++
      [(name, { ExclusionScope.mkNew name s.checksum s.isModule with blockExclusions := (ExclusionScope.mkNew name s.checksum s.isModule).blockExclusions ++ s.blockExclusions })] := by
    rw [hd3]
    rfl
  have h4 := runsTo_togglePhase name hname q.data.scopes hfresh s.toggleExclusions q3
    ({ ExclusionScope.mkNew name s.checksum s.isModule with blockExclusions := (ExclusionScope.mkNew name s.checksum s.isModule).blockExclusions ++ s.blockExclusions })
    hq3s hd3s ha3 hwft (fun pr hpr => rfl) hndt2
  apply runsTo_trans q3 _ _ _ _ h4
  intro q4 hc4 hd4 hs4 hcs4 hm4a ha4
  have hq4s : q4.currentScope = name := by
    rw [hs4]
    exact hq3s
  have hd4s : q4.data.scopes = q.data.scopes ++
      [(name, { { ExclusionScope.mkNew name s.checksum s.isModule with blockExclusions := (ExclusionScope.mkNew name s.checksum s.isModule).blockExclusions ++ s.blockExclusions } with toggleExclusions := ({ ExclusionScope.mkNew name s.checksum s.isModule with blockExclusions := (ExclusionScope.mkNew name s.checksum s.isModule).blockExclusions ++ s.blockExclusions } : ExclusionScope).toggleExclusions ++ s.toggleExclusions })] := by
    rw [hd4]
    rfl
  have h5 := runsTo_fsmPhase name hname q.data.scopes hfresh s.fsmExclusions q4
    ({ { ExclusionScope.mkNew name s.checksum s.isModule with blockExclusions := (ExclusionScope.mkNew name s.checksum s.isModule).blockExclusions ++ s.blockExclusions } with toggleExclusions := ({ ExclusionScope.mkNew name s.checksum s.isModule with blockExclusions := (ExclusionScope.mkNew name s.checksum s.isModule).blockExclusions ++ s.blockExclusions } : ExclusionScope).toggleExclusions ++ s.toggleExclusions })
    hq4s hd4s ha4 hwff (fun pr hpr => show alistGet? ([] : List (Str × List FsmExclusion)) pr.1 = none from rfl) hndf
  apply runsTo_trans q4 _ _ _ _ h5
  intro q5 hc5 hd5 hs5 hcs5 hm5a ha5
  have hq5s : q5.currentScope = name := by
    rw [hs5]
    exact hq4s
  have hd5s : q5.data.scopes = q.data.scopes ++
      [(name, (⟨name, s.checksum, s.isModule, s.blockExclusions, s.toggleExclusions, s.fsmExclusions, ([] : List (Str × ConditionExclusion))⟩ : ExclusionScope))] := by
    rw [hd5]
    rfl
  have h6 := runsTo_condPhase name hname q.data.scopes hfresh s.conditionExclusions q5
    (⟨name, s.checksum, s.isModule, s.blockExclusions, s.toggleExclusions, s.fsmExclusions, ([] : List (Str × ConditionExclusion))⟩ : ExclusionScope)
    hq5s hd5s ha5 hwfc (fun pr hpr => rfl) hndc
  apply runsTo_congr _ _ _ _ h6
  · exact hc5.trans (hc4.trans (hc3.trans hc2))
  · have hscfin : ({ (⟨name, s.checksum, s.isModule, s.blockExclusions, s.toggleExclusions, s.fsmExclusions, ([] : List (Str × ConditionExclusion))⟩ : ExclusionScope) with conditionExclusions := (⟨name, s.checksum, s.isModule, s.blockExclusions, s.toggleExclusions, s.fsmExclusions, ([] : List (Str × ConditionExclusion))⟩ : ExclusionScope).conditionExclusions ++ s.conditionExclusions } : ExclusionScope) = s := by
      show (⟨name, s.checksum, s.isModule, s.blockExclusions, s.toggleExclusions, s.fsmExclusions, s.conditionExclusions⟩ : ExclusionScope) = s
      rw [← hsn]
    show ({ q5.data with scopes := q.data.scopes ++ [(name, ({ (⟨name, s.checksum, s.isModule, s.blockExclusions, s.toggleExclusions, s.fsmExclusions, ([] : List (Str × ConditionExclusion))⟩ : ExclusionScope) with conditionExclusions := (⟨name, s.checksum, s.isModule, s.blockExclusions, s.toggleExclusions, s.fsmExclusions, ([] : List (Str × ConditionExclusion))⟩ : ExclusionScope).conditionExclusions ++ s.conditionExclusions } : ExclusionScope))] } : ExclusionData) = { q.data with scopes := q.data.scopes ++ [(name, s)] }
    rw [hscfin, hd5]
    show ({ q4.data with scopes := q.data.scopes ++ [(name, s)] } : ExclusionData) = { q.data with scopes := q.data.scopes ++ [(name, s)] }
    rw [hd4]
    show ({ q3.data with scopes := q.data.scopes ++ [(name, s)] } : ExclusionData) = { q.data with scopes := q.data.scopes ++ [(name, s)] }
    rw [hd3]
    show ({ q2.data with scopes := q.data.scopes ++ [(name, s)] } : ExclusionData) = { q.data with scopes := q.data.scopes ++ [(name, s)] }
    rw [hd2]
  · exact hs5.trans (hs4.trans (hs3.trans hs2))
  · exact hcs5.trans (hcs4.trans (hcs3.trans hcs2))
  · exact hm5a.trans (hm4a.trans (hm3a.trans hm2a))
  · rfl


theorem alistGet?_self_of_nodup {α : Type} (m : List (Str × α))
    (hnd : (m.map Prod.fst).Nodup) : ∀ pr ∈ m, alistGet? m pr.1 = some pr.2 := by
  induction m with
  | nil => intro pr hpr; cases hpr
  | cons hd tl ih =>
    rw [List.map_cons] at hnd
    have hndh := (List.nodup_cons.mp hnd).1
    have hndt := (List.nodup_cons.mp hnd).2
    intro pr hpr
    rcases List.mem_cons.mp hpr with h | h
    · subst h
      show alistGet? ((pr.1, pr.2) :: tl) pr.1 = some pr.2
      rw [alistGet?, if_pos rfl]
    · have hne : hd.1 ≠ pr.1 := by
        intro he
        apply hndh
        rw [he]
        exact List.mem_map_of_mem Prod.fst h
      show alistGet? ((hd.1, hd.2) :: tl) pr.1 = some pr.2
      rw [alistGet?, if_neg hne]
      exact ih hndt pr h

theorem annotLinesFor_default (a : Str) (hq : '"' ∉ a) :
    annotLinesFor WriterConfig.default a = annotLinesW a := by
  unfold annotLinesFor annotLinesW writeAnnotLines
  by_cases ha : a.isEmpty = true
  · rw [if_neg (fun h => h.2 ha), if_pos ha]
  · rw [if_pos ⟨rfl, ha⟩, if_neg ha, if_neg ha, escapeString_of_no_quote a hq]
    simp

theorem writeBlockFold_conv (m0 : List (Str × BlockExclusion)) :
    ∀ (l : List (Str × BlockExclusion)),
    (∀ pr ∈ l, alistGet? m0 pr.1 = some pr.2) →
    (∀ pr ∈ l, blockOkW pr) →
    (l.map Prod.fst).foldr
      (fun blockId acc =>
        match alistGet? m0 blockId with
        | none => acc
        | some b =>
          annotLinesFor WriterConfig.default b.annot ++
            [("Block ").toList ++ blockId ++ (" \"").toList ++ b.checksum ++
              ("\" \"").toList ++ escapeString b.sourceCode ++ ['"']] ++ acc) [] =
      blockLinesW l := by
  intro l
  induction l with
  | nil => intro h1 h2; rfl
  | cons pr t ih =>
    intro h1 h2
    obtain ⟨-, -, -, -, -, hsrcq, hanq, -, -⟩ := h2 pr (by simp)
    rw [List.map_cons, List.foldr_cons, h1 pr (by simp)]
    show annotLinesFor WriterConfig.default pr.2.annot ++
      [("Block ").toList ++ pr.1 ++ (" \"").toList ++ pr.2.checksum ++
        ("\" \"").toList ++ escapeString pr.2.sourceCode ++ ['"']] ++
      (List.foldr _ [] (t.map Prod.fst)) = blockLinesW (pr :: t)
    rw [ih (fun pr2 hpr2 => h1 pr2 (by simp [hpr2]))
      (fun pr2 hpr2 => h2 pr2 (by simp [hpr2]))]
    rw [annotLinesFor_default pr.2.annot hanq, escapeString_of_no_quote _ hsrcq]
    show annotLinesW pr.2.annot ++
      [("Block ").toList ++ pr.1 ++ (" \"").toList ++ pr.2.checksum ++
        ("\" \"").toList ++ pr.2.sourceCode ++ ['"']] ++ blockLinesW t =
      annotLinesW pr.2.annot ++
        (blockLineW pr.1 pr.2.checksum pr.2.sourceCode :: blockLinesW t)
    rw [show ("Block ").toList ++ pr.1 ++ (" \"").toList ++ pr.2.checksum ++
      ("\" \"").toList ++ pr.2.sourceCode ++ ['"'] =
      blockLineW pr.1 pr.2.checksum pr.2.sourceCode from by simp [blockLineW]]
    simp

theorem writeBlock_conv (s : ExclusionScope)
    (hnd : (s.blockExclusions.map Prod.fst).Nodup)
    (hok : ∀ pr ∈ s.blockExclusions, blockOkW pr) :
    writeBlockExclusions WriterConfig.default s = blockLinesW s.blockExclusions := by
  unfold writeBlockExclusions
  rw [show orderedKeys WriterConfig.default s.blockExclusions =
    s.blockExclusions.map Prod.fst from rfl]
  exact writeBlockFold_conv s.blockExclusions s.blockExclusions
    (alistGet?_self_of_nodup _ hnd) hok


theorem toggleLine_conv (t : ToggleExclusion) (k : Str)
    (hsig : t.signalName = k) (hbit : t.bitIndex = none)
    (hdq : '"' ∉ t.netDescription) :
    toggleLine t = toggleLineW t.direction k t.netDescription := by
  cases hd : t.direction <;>
    simp [toggleLine, toggleLineW, dirTokW, toggleDirectionToString, hd, hbit, hsig,
      escapeString_of_no_quote _ hdq]

theorem fsmLine_conv (f : FsmExclusion) (k : Str) (hok : fsmOkW k f) :
    fsmLine f = fsmRecLineW k f := by
  obtain ⟨htr, hst, -, -⟩ := hok
  cases hb : f.isTransition
  · obtain ⟨hnm, -, -, -, -, -, -, -, -⟩ := hst hb
    simp [fsmLine, fsmRecLineW, fsmLineW, hb, hnm]
  · obtain ⟨-, -, -, -, -, -, -, -, -⟩ := htr hb
    simp [fsmLine, fsmRecLineW, transLineW, hb]

theorem conditionLine_conv (cid : Str) (c : ConditionExclusion)
    (heq : '"' ∉ c.expression) :
    conditionLine cid c = condLineW cid c.checksum c.expression c.parameters c.coverage := by
  by_cases hp : c.parameters.isEmpty = true <;> by_cases hc : c.coverage.isEmpty = true <;>
    simp [conditionLine, condLineW, condLineG, hp, hc, escapeString_of_no_quote _ heq]

theorem toggleRec_conv (k : Str) (ts : List ToggleExclusion)
    (h : ∀ t ∈ ts, toggleOkW k t) :
    ts.foldr (fun t acc2 => annotLinesFor WriterConfig.default t.annot ++
      [toggleLine t] ++ acc2) [] = toggleRecLinesW k ts := by
  induction ts with
  | nil => rfl
  | cons t rest ih =>
    obtain ⟨hsig, -, -, -, hbit, hdq, -, hanq, -, -, -⟩ := h t (by simp)
    rw [List.foldr_cons, ih (fun t2 ht2 => h t2 (by simp [ht2])),
      annotLinesFor_default t.annot hanq, toggleLine_conv t k hsig hbit hdq]
    show annotLinesW t.annot ++ [toggleLineW t.direction k t.netDescription] ++
      toggleRecLinesW k rest =
      annotLinesW t.annot ++
        (toggleLineW t.direction k t.netDescription :: toggleRecLinesW k rest)
    simp

theorem fsmRec_conv (k : Str) (fs : List FsmExclusion)
    (h : ∀ f ∈ fs, fsmOkW k f) :
    fs.foldr (fun f acc2 => annotLinesFor WriterConfig.default f.annot ++
      [fsmLine f] ++ acc2) [] = fsmRecLinesW k fs := by
  induction fs with
  | nil => rfl
  | cons f rest ih =>
    obtain ⟨-, -, hanq, -⟩ := h f (by simp)
    rw [List.foldr_cons, ih (fun f2 hf2 => h f2 (by simp [hf2])),
      annotLinesFor_default f.annot hanq, fsmLine_conv f k (h f (by simp))]
    show annotLinesW f.annot ++ [fsmRecLineW k f] ++ fsmRecLinesW k rest =
      annotLinesW f.annot ++ (fsmRecLineW k f :: fsmRecLinesW k rest)
    simp


theorem writeToggleFold_conv (m0 : List (Str × List ToggleExclusion)) :
    ∀ (l : List (Str × List ToggleExclusion)),
    (∀ pr ∈ l, alistGet? m0 pr.1 = some pr.2) →
    (∀ pr ∈ l, ∀ t ∈ pr.2, toggleOkW pr.1 t) →
    (l.map Prod.fst).foldr
      (fun signalName acc =>
        match alistGet? m0 signalName with
        | none => acc
        | some ts =>
          (ts.foldr (fun t acc2 => annotLinesFor WriterConfig.default t.annot ++
            [toggleLine t] ++ acc2) []) ++ acc) [] = toggleLinesW l := by
  intro l
  induction l with
  | nil => intro h1 h2; rfl
  | cons pr t ih =>
    intro h1 h2
    rw [List.map_cons, List.foldr_cons, h1 pr (by simp)]
    show (pr.2.foldr (fun t acc2 => annotLinesFor WriterConfig.default t.annot ++
        [toggleLine t] ++ acc2) []) ++
      (List.foldr _ [] (t.map Prod.fst)) = toggleLinesW (pr :: t)
    rw [ih (fun pr2 hpr2 => h1 pr2 (by simp [hpr2]))
      (fun pr2 hpr2 => h2 pr2 (by simp [hpr2])),
      toggleRec_conv pr.1 pr.2 (h2 pr (by simp))]
    rfl

theorem writeToggle_conv (s : ExclusionScope)
    (hnd : (s.toggleExclusions.map Prod.fst).Nodup)
    (hok : ∀ pr ∈ s.toggleExclusions, ∀ t ∈ pr.2, toggleOkW pr.1 t) :
    writeToggleExclusions WriterConfig.default s = toggleLinesW s.toggleExclusions := by
  unfold writeToggleExclusions
  rw [show orderedKeys WriterConfig.default s.toggleExclusions =
    s.toggleExclusions.map Prod.fst from rfl]
  exact writeToggleFold_conv s.toggleExclusions s.toggleExclusions
    (alistGet?_self_of_nodup _ hnd) hok

theorem writeFsmFold_conv (m0 : List (Str × List FsmExclusion)) :
    ∀ (l : List (Str × List FsmExclusion)),
    (∀ pr ∈ l, alistGet? m0 pr.1 = some pr.2) →
    (∀ pr ∈ l, ∀ f ∈ pr.2, fsmOkW pr.1 f) →
    (l.map Prod.fst).foldr
      (fun fsmName acc =>
        match alistGet? m0 fsmName with
        | none => acc
        | some fs =>
          (fs.foldr (fun f acc2 => annotLinesFor WriterConfig.default f.annot ++
            [fsmLine f] ++ acc2) []) ++ acc) [] = fsmLinesW l := by
  intro l
  induction l with
  | nil => intro h1 h2; rfl
  | cons pr t ih =>
    intro h1 h2
    rw [List.map_cons, List.foldr_cons, h1 pr (by simp)]
    show (pr.2.foldr (fun f acc2 => annotLinesFor WriterConfig.default f.annot ++
        [fsmLine f] ++ acc2) []) ++
      (List.foldr _ [] (t.map Prod.fst)) = fsmLinesW (pr :: t)
    rw [ih (fun pr2 hpr2 => h1 pr2 (by simp [hpr2]))
      (fun pr2 hpr2 => h2 pr2 (by simp [hpr2])),
      fsmRec_conv pr.1 pr.2 (h2 pr (by simp))]
    rfl

theorem writeFsm_conv (s : ExclusionScope)
    (hnd : (s.fsmExclusions.map Prod.fst).Nodup)
    (hok : ∀ pr ∈ s.fsmExclusions, ∀ f ∈ pr.2, fsmOkW pr.1 f) :
    writeFsmExclusions WriterConfig.default s = fsmLinesW s.fsmExclusions := by
  unfold writeFsmExclusions
  rw [show orderedKeys WriterConfig.default s.fsmExclusions =
    s.fsmExclusions.map Prod.fst from rfl]
  exact writeFsmFold_conv s.fsmExclusions s.fsmExclusions
    (alistGet?_self_of_nodup _ hnd) hok

theorem writeCondFold_conv (m0 : List (Str × ConditionExclusion)) :
    ∀ (l : List (Str × ConditionExclusion)),
    (∀ pr ∈ l, alistGet? m0 pr.1 = some pr.2) →
    (∀ pr ∈ l, condOkW pr) →
    (l.map Prod.fst).foldr
      (fun condId acc =>
        match alistGet? m0 condId with
        | none => acc
        | some c => annotLinesFor WriterConfig.default c.annot ++
            [conditionLine condId c] ++ acc) [] = condLinesW l := by
  intro l
  induction l with
  | nil => intro h1 h2; rfl
  | cons pr t ih =>
    intro h1 h2
    obtain ⟨-, -, -, -, -, heq, -, -, -, hanq, -, -⟩ := h2 pr (by simp)
    rw [List.map_cons, List.foldr_cons, h1 pr (by simp)]
    show annotLinesFor WriterConfig.default pr.2.annot ++ [conditionLine pr.1 pr.2] ++
      (List.foldr _ [] (t.map Prod.fst)) = condLinesW (pr :: t)
    rw [ih (fun pr2 hpr2 => h1 pr2 (by simp [hpr2]))
      (fun pr2 hpr2 => h2 pr2 (by simp [hpr2])),
      annotLinesFor_default pr.2.annot hanq, conditionLine_conv pr.1 pr.2 heq]
    show annotLinesW pr.2.annot ++
      [condLineW pr.1 pr.2.checksum pr.2.expression pr.2.parameters pr.2.coverage] ++
      condLinesW t = annotLinesW pr.2.annot ++
        (condLineW pr.1 pr.2.checksum pr.2.expression pr.2.parameters pr.2.coverage ::
          condLinesW t)
    simp

theorem writeCond_conv (s : ExclusionScope)
    (hnd : (s.conditionExclusions.map Prod.fst).Nodup)
    (hok : ∀ pr ∈ s.conditionExclusions, condOkW pr) :
    writeConditionExclusions WriterConfig.default s = condLinesW s.conditionExclusions := by
  unfold writeConditionExclusions
  rw [show orderedKeys WriterConfig.default s.conditionExclusions =
    s.conditionExclusions.map Prod.fst from rfl]
  exact writeCondFold_conv s.conditionExclusions s.conditionExclusions
    (alistGet?_self_of_nodup _ hnd) hok

theorem writeScope_conv (name : Str) (s : ExclusionScope) (hok : scopeOkW name s) :
    writeScope WriterConfig.default name s = scopeLinesW name s := by
  obtain ⟨-, -, -, hcsne, -, -, hwfb, hndb, hwft, hndt2, hwff, hndf, hwfc, hndc⟩ := hok
  unfold writeScope
  rw [if_pos (show ¬ s.checksum.isEmpty = true from fun h => hcsne (by simpa using h))]
  rw [writeBlock_conv s hndb hwfb,
    writeToggle_conv s hndt2 (fun pr hpr => (hwft pr hpr).2),
    writeFsm_conv s hndf (fun pr hpr => (hwff pr hpr).2),
    writeCond_conv s hndc hwfc]
  rw [show ((if s.isModule then ("MODULE:") else ("INSTANCE:")).toList : Str) =
    (if s.isModule then ("MODULE:").toList else ("INSTANCE:").toList) from by
      cases s.isModule <;> rfl]
  simp [scopeLinesW]

/-- The scope blocks the writer emits for the whole database, in container
order. -/
def docLinesW : List (Str × ExclusionScope) → List Str
  | [] => []
  | pr :: t => scopeLinesW pr.1 pr.2 ++ docLinesW t

theorem writeLinesFold_conv (m0 : List (Str × ExclusionScope)) :
    ∀ (l : List (Str × ExclusionScope)),
    (∀ pr ∈ l, alistGet? m0 pr.1 = some pr.2) →
    (∀ pr ∈ l, scopeOkW pr.1 pr.2) →
    (l.map Prod.fst).foldr
      (fun scopeName acc =>
        match alistGet? m0 scopeName with
        | none => acc
        | some s => writeScope WriterConfig.default scopeName s ++ acc) [] =
      docLinesW l := by
  intro l
  induction l with
  | nil => intro h1 h2; rfl
  | cons pr t ih =>
    intro h1 h2
    rw [List.map_cons, List.foldr_cons, h1 pr (by simp)]
    show writeScope WriterConfig.default pr.1 pr.2 ++
      (List.foldr _ [] (t.map Prod.fst)) = docLinesW (pr :: t)
    rw [ih (fun pr2 hpr2 => h1 pr2 (by simp [hpr2]))
      (fun pr2 hpr2 => h2 pr2 (by simp [hpr2])),
      writeScope_conv pr.1 pr.2 (h2 pr (by simp))]
    rfl

theorem writeLines_conv (d : ExclusionData)
    (hnd : (d.scopes.map Prod.fst).Nodup)
    (hok : ∀ pr ∈ d.scopes, scopeOkW pr.1 pr.2) :
    writeLines WriterConfig.default d = writeHeader d ++ docLinesW d.scopes := by
  unfold writeLines
  rw [if_pos (show WriterConfig.default.includeComments = true from rfl)]
  rw [show orderedKeys WriterConfig.default d.scopes = d.scopes.map Prod.fst from rfl]
  rw [writeLinesFold_conv d.scopes d.scopes (alistGet?_self_of_nodup _ hnd) hok]


/-- Like `RunsTo`, but committing only to the configuration, the final
database and an empty pending annotation. -/
def RunsToD (p : Parser) (lines : List Str) (d : ExclusionData) : Prop :=
  ∀ res rest, ∃ q res2, parseLines p res (lines ++ rest) = parseLines q res2 rest ∧
    q.config = p.config ∧ q.data = d ∧ q.pendingAnnot = []

/-- Running the parser over the emitted scope blocks of a key-distinct,
well-formed scope list appends exactly those scopes to the database. -/
theorem runsToD_doc : ∀ (l : List (Str × ExclusionScope)) (q : Parser),
    q.pendingAnnot = [] →
    ((l.map Prod.fst).Nodup) →
    (∀ pr ∈ l, scopeOkW pr.1 pr.2) →
    (∀ pr ∈ l, alistGet? q.data.scopes pr.1 = none) →
    RunsToD q (docLinesW l) { q.data with scopes := q.data.scopes ++ l } := by
  intro l
  induction l with
  | nil =>
    intro q hpa hnd hok hfresh res rest
    exact ⟨q, res, rfl, rfl, by rw [List.append_nil], hpa⟩
  | cons pr t ih =>
    intro q hpa hnd hok hfresh res rest
    have h1 := runsTo_scope pr.1 pr.2 q (hok pr (by simp)) (hfresh pr (by simp)) hpa
    obtain ⟨q1, res1, he1, c1, c2, c3, c4, c5, c6⟩ := h1 res (docLinesW t ++ rest)
    have hndh := (List.nodup_cons.mp (by { rw [List.map_cons] at hnd; exact hnd })).1
    have hndt := (List.nodup_cons.mp (by { rw [List.map_cons] at hnd; exact hnd })).2
    have hfresh2 : ∀ pr2 ∈ t, alistGet? q1.data.scopes pr2.1 = none := by
      intro pr2 hpr2
      have hd2 : q1.data.scopes = q.data.scopes ++ [(pr.1, pr.2)] := by
        rw [c2]
      rw [hd2]
      apply alistGet?_append_none
      · exact hfresh pr2 (by simp [hpr2])
      · apply alistGet?_singleton_ne
        intro he
        apply hndh
        rw [he]
        exact List.mem_map_of_mem Prod.fst hpr2
    obtain ⟨q2, res2, he2, d1, d2, d3⟩ :=
      ih q1 c6 hndt (fun pr2 hpr2 => hok pr2 (by simp [hpr2])) hfresh2 res1 rest
    refine ⟨q2, res2, ?_, ?_, ?_, d3⟩
    · show parseLines q res ((scopeLinesW pr.1 pr.2 ++ docLinesW t) ++ rest) =
        parseLines q2 res2 rest
      rw [List.append_assoc, he1, he2]
    · exact d1.trans c1
    · refine d2.trans ?_
      rw [c2]
      show ({ q.data with scopes := (q.data.scopes ++ [(pr.1, pr.2)]) ++ t } :
        ExclusionData) = { q.data with scopes := q.data.scopes ++ (pr :: t) }
      rw [List.append_assoc]
      rfl


instance (l : Str) : Decidable (lineOkW l) := by
  unfold lineOkW; exact inferInstance

instance (a : Str) : Decidable (AnnotLineOk a) := by
  unfold AnnotLineOk; exact inferInstance

instance (pr : Str × BlockExclusion) : Decidable (blockOkW pr) := by
  unfold blockOkW; exact inferInstance

instance (k : Str) (t : ToggleExclusion) : Decidable (toggleOkW k t) := by
  unfold toggleOkW; exact inferInstance

instance (k : Str) (f : FsmExclusion) : Decidable (fsmOkW k f) := by
  unfold fsmOkW
  refine @instDecidableAnd _ _ ?_ (@instDecidableAnd _ _ ?_ ?_) <;> infer_instance

instance (pr : Str × ConditionExclusion) : Decidable (condOkW pr) := by
  unfold condOkW; exact inferInstance

instance (name : Str) (s : ExclusionScope) : Decidable (scopeOkW name s) := by
  unfold scopeOkW; exact inferInstance

/-- Well-formedness of a database as the image of a document: distinct scope
names, per-scope record/line side conditions, and no embedded newlines in
the emitted lines. -/
def WFdoc (d : ExclusionData) : Prop :=
  ((d.scopes.map Prod.fst).Nodup) ∧
  (∀ pr ∈ d.scopes, scopeOkW pr.1 pr.2) ∧
  (∀ l ∈ writeLines WriterConfig.default d, '\n' ∉ l)

instance (d : ExclusionData) : Decidable (WFdoc d) := by
  unfold WFdoc; exact inferInstance

/-- `parse(write(D))`: the database held by a fresh default-configured parser
after parsing the text the default-configured writer produces for `D`. -/
def roundTrip (d : ExclusionData) : ExclusionData :=
  (parseString (Parser.init ParserConfig.default)
    (writeToString WriterConfig.default d)).2.data

/-- The round trip reproduces the scope association list exactly. -/
theorem roundTrip_scopes (d : ExclusionData) (h : WFdoc d) :
    (roundTrip d).scopes = d.scopes := by
  obtain ⟨hnd, hok, hnl⟩ := h
  have hne : writeLines WriterConfig.default d ≠ [] := by
    rw [writeLines_conv d hnd hok]
    simp [writeHeader]
  have hsplit : getlineSplit (writeToString WriterConfig.default d) =
      writeHeader d ++ docLinesW d.scopes := by
    rw [writeToString_default, getlineSplit_concatNl _ hnl hne, writeLines_conv d hnd hok]
  unfold roundTrip parseString parseStream
  rw [hsplit]
  obtain ⟨q1, res1, he1, c1, c2, c3, c4, c5, c6⟩ :=
    runsTo_header ((Parser.init ParserConfig.default).resetState) d
      ParseResult.init (docLinesW d.scopes)
  have hfresh1 : ∀ pr ∈ d.scopes, alistGet? q1.data.scopes pr.1 = none := by
    intro pr hpr
    rw [c2]
    rfl
  obtain ⟨q2, res2, he2, d1, d2, d3⟩ :=
    runsToD_doc d.scopes q1 c6 hnd hok hfresh1 res1 []
  rw [List.append_nil] at he2
  rw [he1, he2]
  show q2.data.scopes = d.scopes
  rw [d2]
  show q1.data.scopes ++ d.scopes = d.scopes
  rw [c2]
  rfl


/-- A concrete one-scope database holding one record of each of the four
exclusion kinds (the Block record carries an annotation). -/
def c1Scope : ExclusionScope :=
  ⟨("top").toList, ("123").toList, false,
    [(("b1").toList,
      ⟨("b1").toList, ("11").toList, ("a = b;").toList, ("note").toList⟩)],
    [(("sig").toList,
      [⟨ToggleDirection.BOTH, ("sig").toList, none, ("net").toList, []⟩])],
    [(("f1").toList, [FsmExclusion.state ("f1").toList ("9").toList []])],
    [(("c1").toList,
      ⟨("c1").toList, ("22").toList, ("(a && b)").toList, ("1").toList,
        ("1").toList, []⟩)]⟩

/-- The database wrapping `c1Scope` under the name `top`. -/
def c1Doc : ExclusionData :=
  { ExclusionData.empty with scopes := [(("top").toList, c1Scope)] }

/-- C1: for every database `D` that is the image of a well-formed document,
parsing the text the writer produces for `D` (annotations enabled — the
default writer configuration) yields a database with the same scope count,
the same total exclusion count, the same per-kind exclusion counts, and the
very same stored scope under every scope name — so the identifiers, checksums
and annotations of every record of each of the four kinds match, in
particular those of any representative record. -/
theorem c1_round_trip (d : ExclusionData) (h : WFdoc d) :
    (roundTrip d).getScopeCount = d.getScopeCount ∧
    (roundTrip d).getTotalExclusionCount = d.getTotalExclusionCount ∧
    (roundTrip d).getExclusionCountsByType = d.getExclusionCountsByType ∧
    (∀ n, scopeOf (roundTrip d) n = scopeOf d n) := by
  have hs := roundTrip_scopes d h
  refine ⟨?_, ?_, ?_, ?_⟩
  · unfold ExclusionData.getScopeCount
    rw [hs]
  · unfold ExclusionData.getTotalExclusionCount
    rw [hs]
  · unfold ExclusionData.getExclusionCountsByType
    rw [hs]
  · intro n
    unfold scopeOf
    rw [hs]

/-- C1 witness: the concrete four-kind database `c1Doc` satisfies the
well-formedness hypothesis, and the round trip preserves its counts and
scope contents. -/
theorem c1_round_trip_witness :
    WFdoc c1Doc ∧
    ((roundTrip c1Doc).getScopeCount = c1Doc.getScopeCount ∧
     (roundTrip c1Doc).getTotalExclusionCount = c1Doc.getTotalExclusionCount ∧
     (roundTrip c1Doc).getExclusionCountsByType = c1Doc.getExclusionCountsByType ∧
     (∀ n, scopeOf (roundTrip c1Doc) n = scopeOf c1Doc n)) :=
  ⟨by decide, c1_round_trip c1Doc (by decide)⟩

end ExclusionParser
